import Mathlib

/-!
Verification development for velero-plugin-for-openstack.

Shallow embedding of `src/utils/helpers.go`, `src/manila/fs_store.go` and the
test driver `main.go`, followed by theorems about the embedded code.

Conventions of the embedding
* Go `string` is `String` (the regular expression works on its characters).
* Go `int` is `Int`; `strconv.Atoi` saturates at `2^63 - 1` (64-bit `int`).
* Go `error` is `Option GoError`, `none` being the nil error.
* A Go result pair `(v, err)` of a backend call is `Except GoError _`.
-/

namespace Velero

/-! ## Errors -/

/-- Go `error` values met in the program.  `backend` is an error produced by
the OpenStack client library or the remote service, `timeout` is the error a
poll loop reports when its deadline passes, `errorf` is a value built by
`fmt.Errorf` that wraps nothing (no `%w` verb, or a nil operand for it), and
`wrap` is a value built by `fmt.Errorf` whose `%w` operand is `inner`.  Both
keep the format string and the rendered operands other than the `%w` one. -/
inductive GoError where
  | backend (msg : String)
  | timeout
  | errorf (format : String) (args : List String)
  | wrap (format : String) (args : List String) (inner : GoError)
  deriving DecidableEq, Repr

deriving instance DecidableEq for Except

/-- The call `fmt.Errorf(format, args..., err)` with `%w` applied to `err`. -/
def fmtErrorf (format : String) (args : List String) : Option GoError → GoError
  | none => .errorf format args
  | some e => .wrap format args e

/-- The chain that `errors.Is` walks: the error itself, then what it wraps,
and so on. -/
def GoError.chain : GoError → List GoError
  | .backend m => [.backend m]
  | .timeout => [.timeout]
  | .errorf f a => [.errorf f a]
  | .wrap f a e => .wrap f a e :: e.chain

/-- The error `e` wraps `target`: `e` was built by `fmt.Errorf` with `%w`, and
`target` is its operand or something the operand wraps in turn (what
`errors.Unwrap`, applied to `e` once or more, can give).  No error wraps
itself, and an error built without an operand for `%w` wraps nothing. -/
def GoError.wraps : GoError → GoError → Prop
  | .wrap _ _ inner, target => target ∈ inner.chain
  | _, _ => False

instance (e target : GoError) : Decidable (e.wraps target) := by
  cases e <;> unfold GoError.wraps <;> infer_instance

/-! ## Lists -/

/-- All ways to cut a list at one of its elements: what is before, the
element, what is after. -/
def splitsOf {α : Type} : List α → List (List α × α × List α)
  | [] => []
  | a :: l => ([], a, l) :: (splitsOf l).map (fun t => (a :: t.1, t.2.1, t.2.2))

/-! ## `src/utils/helpers.go` -/

/-- The character class `\d` of Go regular expressions: ASCII digits. -/
def isDigit (c : Char) : Bool := c.isDigit

/-- Backtracking match of `mvRe = ^(\d+).(\d+)$` against a text, the first
capture group so far being `pre` and the rest of the text the argument.  The
group `(\d+)` is greedy, so the matcher first tries to extend it by the next
character; when that fails the next character is taken for the unescaped `.`
(any character but a newline) and what follows must be a non-empty run of
digits up to the end of the text.  The result is the two capture groups. -/
def mvReFrom (pre : List Char) : List Char → Option (List Char × List Char)
  | [] => none
  | c :: rest =>
    match (if isDigit c then mvReFrom (pre ++ [c]) rest else none) with
    | some m => some m
    | none =>
      if pre ≠ [] ∧ c ≠ '\n' ∧ rest ≠ [] ∧ rest.all isDigit then some (pre, rest)
      else none

/-- The call `mvRe.FindAllStringSubmatch(mv, -1)`, reduced to what the caller
looks at: the pattern is anchored at both ends, so there is at most one match,
and a match has the whole text and the two groups (`len(res[0]) == 3`). -/
def mvReFind (mv : String) : Option (List Char × List Char) := mvReFrom [] mv.data

/-- Largest value of a 64-bit Go `int`. -/
def maxInt : Int := 2 ^ 63 - 1

/-- Decimal value of a run of digits. -/
def decimalValue (ds : List Char) : Nat :=
  ds.foldl (fun acc c => acc * 10 + (c.toNat - '0'.toNat)) 0

/-- A run of decimal digits, not empty, whose value fits in a Go `int`. -/
def IsIntLiteral (ds : List Char) : Prop :=
  ds ≠ [] ∧ ds.all isDigit = true ∧ (decimalValue ds : Int) ≤ maxInt

instance (ds : List Char) : Decidable (IsIntLiteral ds) := by
  unfold IsIntLiteral; infer_instance

/-- The value part of `strconv.Atoi` on a run of ASCII digits (the only texts
the caller passes, and it drops the error): the decimal value, or the largest
`int` when the value is out of range. -/
def atoi (ds : List Char) : Int :=
  if (decimalValue ds : Int) ≤ maxInt then (decimalValue ds : Int) else maxInt

/-- Embedding of `microversionToInt`. -/
def microversionToInt (mv : String) : Except GoError (Int × Int) :=
  match mvReFind mv with
  | some (major, minor) => .ok (atoi major, atoi minor)
  | none => .error (.errorf "invalid microversion string: %v" [mv])

/-- Embedding of `CompareMicroversions`. -/
def CompareMicroversions (operator want have_ : String) : Bool × Option GoError :=
  if operator ≠ "lte" ∧ operator ≠ "gte" then
    (false, some (.errorf
      "invalid microversions comparison %q operator, must be lte or gte" [operator]))
  else
    match microversionToInt want with
    | .error err => (false, some err)
    | .ok w =>
      match microversionToInt have_ with
      | .error err => (false, some err)
      | .ok h =>
        if operator = "lte" then
          if w.1 < h.1 then (true, none)
          else (decide (w.1 ≤ h.1) && decide (w.2 ≤ h.2), none)
        else
          if w.1 > h.1 then (true, none)
          else (decide (w.1 ≥ h.1) && decide (w.2 ≥ h.2), none)

/-- The pieces of a text between the occurrences of a separator of one
character, as `strings.Split` cuts them: a text without the separator is one
piece, and the empty text is one empty piece. -/
def splitChars (sep : Char) : List Char → List (List Char)
  | [] => [[]]
  | c :: rest =>
    if c = sep then [] :: splitChars sep rest
    else
      match splitChars sep rest with
      | [] => [[c]]
      | piece :: pieces => (c :: piece) :: pieces

/-- The call `strings.Split(s, sep)` for a separator of one character. -/
def stringsSplit (s : String) (sep : Char) : List String :=
  (splitChars sep s.data).map String.mk

/-- The call `strings.Join(parts, sep)`. -/
def stringsJoin : List String → String → String
  | [], _ => ""
  | [a], _ => a
  | a :: b :: rest, sep => a ++ sep ++ stringsJoin (b :: rest) sep

/-- The call `strings.HasPrefix(s, pfx)`. -/
def stringsHasPrefix (s pfx : String) : Bool := pfx.data.isPrefixOf s.data

/-- The inner loop of `ReplaceAccount` for one prefix `pfx`: the first part
that starts with `pfx` becomes `pfx + account`, and the loop breaks. -/
def replaceFirst (account pfx : String) : List String → List String
  | [] => []
  | part :: rest =>
    if stringsHasPrefix part pfx then (pfx ++ account) :: rest
    else part :: replaceFirst account pfx rest

/-- Embedding of `ReplaceAccount`: the outer loop runs over the prefixes in
order, each on the parts as the earlier ones left them. -/
def ReplaceAccount (account path : String) (prefixes : List String) : String :=
  stringsJoin
    (prefixes.foldl (fun parts pfx => replaceFirst account pfx parts) (stringsSplit path '/'))
    "/"

/-! ## `src/manila/fs_store.go`: data and environment -/

namespace Manila

/-- Value of `minSupportedMicroversion`. -/
def minSupportedMicroversion : String := "2.7"

/-- Value of `getAccessRulesMicroversion`. -/
def getAccessRulesMicroversion : String := "2.45"

/-- Fields of `snapshots.Snapshot` that the store reads. -/
structure Snapshot where
  ID : String
  ShareID : String
  ShareProto : String
  Size : Int
  Status : String
  deriving DecidableEq, Repr

/-- Fields of `shares.Share` that the store reads. -/
structure Share where
  ID : String
  Status : String
  VolumeType : String
  Metadata : List (String × String)
  deriving DecidableEq, Repr

/-- The record `shares.AccessRight`. -/
structure AccessRight where
  ID : String
  ShareID : String
  AccessKey : String
  AccessLevel : String
  AccessTo : String
  AccessType : String
  State : String
  deriving DecidableEq, Repr

/-- Fields of `shareaccessrules.ShareAccess` that the store reads. -/
structure ShareAccess where
  ID : String
  ShareID : String
  AccessKey : String
  AccessLevel : String
  AccessTo : String
  AccessType : String
  State : String
  deriving DecidableEq, Repr

/-- Fields of `shares.CreateOpts` that the store sets. -/
structure CreateOpts where
  ShareProto : String
  Size : Int
  AvailabilityZone : String
  Name : String
  SnapshotID : String
  Metadata : List (String × String)
  deriving DecidableEq, Repr

/-- The record `shares.GrantAccessOpts`. -/
structure GrantAccessOpts where
  AccessType : String
  AccessTo : String
  AccessLevel : String
  deriving DecidableEq, Repr

/-- Fields of `gophercloud.ServiceClient` that the store reads and writes. -/
structure ServiceClient where
  Endpoint : String
  Microversion : String
  deriving DecidableEq, Repr

/-- One request sent through the client, with the reply the library
extracted from it. -/
inductive Call where
  | snapshotsGet (id : String) (res : Except GoError Snapshot)
  | sharesGet (id : String) (res : Except GoError Share)
  | listAccessRights (shareID : String) (res : Except GoError (List AccessRight))
  | shareAccessRulesList (shareID : String) (res : Except GoError (List ShareAccess))
  | sharesCreate (opts : CreateOpts) (res : Except GoError Share)
  | grantAccess (shareID : String) (opts : GrantAccessOpts) (res : Except GoError AccessRight)
  | apiversionsGet (version : String) (res : Except GoError String)
  deriving DecidableEq, Repr

/-- Everything outside the store: what the remote service answers to each
kind of request, what the clock and the random source give.  The first
argument of each field is the number of requests sent before, so that the same
request may be answered differently as time passes. -/
structure Env where
  snapshotsGet : Nat → String → Except GoError Snapshot
  sharesGet : Nat → String → Except GoError Share
  listAccessRights : Nat → String → Except GoError (List AccessRight)
  shareAccessRulesList : Nat → String → Except GoError (List ShareAccess)
  sharesCreate : Nat → CreateOpts → Except GoError Share
  grantAccess : Nat → String → GrantAccessOpts → Except GoError AccessRight
  apiversionsGet : Nat → String → Except GoError String
  /-- The snapshot that `Extract` hands back next to an error of
  `snapshots.Get`: nil when the request failed, the record as far as it was
  filled when the reply could not be decoded. -/
  snapshotsGetPartial : Nat → String → Option Snapshot
  /-- The share that `Extract` hands back next to an error of `shares.Get`. -/
  sharesGetPartial : Nat → String → Option Share
  /-- Seconds a poll loop finds elapsed since it started, at the deadline
  check it makes when so many requests have been sent. -/
  elapsed : Nat → Int
  /-- Values of `rand.Uint64()`. -/
  randUint64 : Nat → Nat

/-- The call `snapshots.Get(b.client, id).Extract()`. -/
def snapshotsGet (env : Env) (id : String) (log : List Call) :
    Except GoError Snapshot × List Call :=
  let res := env.snapshotsGet log.length id
  (res, log ++ [.snapshotsGet id res])

/-- The call `shares.Get(b.client, id).Extract()`. -/
def sharesGet (env : Env) (id : String) (log : List Call) :
    Except GoError Share × List Call :=
  let res := env.sharesGet log.length id
  (res, log ++ [.sharesGet id res])

/-- The call `shares.ListAccessRights(b.client, id).Extract()`. -/
def listAccessRights (env : Env) (id : String) (log : List Call) :
    Except GoError (List AccessRight) × List Call :=
  let res := env.listAccessRights log.length id
  (res, log ++ [.listAccessRights id res])

/-- The call `shareaccessrules.List(b.client, id).Extract()`. -/
def shareAccessRulesList (env : Env) (id : String) (log : List Call) :
    Except GoError (List ShareAccess) × List Call :=
  let res := env.shareAccessRulesList log.length id
  (res, log ++ [.shareAccessRulesList id res])

/-- The call `shares.Create(b.client, opts).Extract()`. -/
def sharesCreate (env : Env) (opts : CreateOpts) (log : List Call) :
    Except GoError Share × List Call :=
  let res := env.sharesCreate log.length opts
  (res, log ++ [.sharesCreate opts res])

/-- The call `shares.GrantAccess(b.client, id, opts).Extract()`. -/
def grantAccess (env : Env) (id : String) (opts : GrantAccessOpts) (log : List Call) :
    Except GoError AccessRight × List Call :=
  let res := env.grantAccess log.length id opts
  (res, log ++ [.grantAccess id opts res])

/-- The call `apiversions.Get(b.client, v).Extract()`, reduced to the
`Version` field of the reply. -/
def apiversionsGet (env : Env) (v : String) (log : List Call) :
    Except GoError String × List Call :=
  let res := env.apiversionsGet log.length v
  (res, log ++ [.apiversionsGet v res])

/-! ## `src/manila/fs_store.go`: the store -/

/-- Modelled from the spec: `gophercloud.WaitFor`, the poll loop of the
OpenStack client library, which is not among the sources (section 4.1, Status
Waiter).  Each round first looks at the deadline and reports a timeout error
when the elapsed time has reached `timeout`; otherwise it runs `predicate`
once: an error of the predicate ends the loop with that same error, `true`
ends it with the nil error, and `false` leads to the next round.  `σ` holds
the variables the predicate captures together with the request log, `elapsed`
reads the clock, and the first argument bounds the number of rounds: `none`
means that so many rounds did not end the loop. -/
def WaitFor {σ : Type} (elapsed : σ → Int) (timeout : Int)
    (predicate : σ → (Bool × Option GoError) × σ) : Nat → σ → Option (Option GoError × σ)
  | 0, _ => none
  | fuel + 1, s =>
    if timeout ≤ elapsed s then some (some .timeout, s)
    else
      match predicate s with
      | ((_, some err), s1) => some (some err, s1)
      | ((true, none), s1) => some (none, s1)
      | ((false, none), s1) => WaitFor elapsed timeout predicate fuel s1

/-- The closure that `waitForShareStatus` hands to the poll loop.  The state
is the captured result variable `current` and the request log.  The
assignment `current, err = shares.Get(b.client, id).Extract()` comes before the
test of `err`, so after a failed fetch `current` holds what `Extract` handed
back next to the error. -/
def shareStatusPredicate (env : Env) (id status : String)
    (s : Option Share × List Call) : (Bool × Option GoError) × (Option Share × List Call) :=
  match sharesGet env id s.2 with
  | (.error err, log1) => ((false, some err), (env.sharesGetPartial s.2.length id, log1))
  | (.ok current, log1) =>
    if current.Status = status then ((true, none), (some current, log1))
    else ((false, none), (some current, log1))

/-- Embedding of `FSStore.waitForShareStatus`.  In `return current, WaitFor(...)`
the result variable `current` is read after the call has returned (the order
the Go compiler gives to a call and a variable in one statement, on which
`CreateVolumeFromSnapshot` relies when it dereferences the snapshot), so the
pair returned is the last value the closure stored and the error of the loop. -/
def waitForShareStatus (env : Env) (id status : String) (secs : Int) (fuel : Nat)
    (log : List Call) : Option ((Option Share × Option GoError) × List Call) :=
  match WaitFor (fun s => env.elapsed s.2.length) secs (shareStatusPredicate env id status)
      fuel (none, log) with
  | none => none
  | some (err, (current, log1)) => some ((current, err), log1)

/-- The closure that `waitForSnapshotStatus` hands to the poll loop. -/
def snapshotStatusPredicate (env : Env) (id status : String)
    (s : Option Snapshot × List Call) :
    (Bool × Option GoError) × (Option Snapshot × List Call) :=
  match snapshotsGet env id s.2 with
  | (.error err, log1) => ((false, some err), (env.snapshotsGetPartial s.2.length id, log1))
  | (.ok current, log1) =>
    if current.Status = status then ((true, none), (some current, log1))
    else ((false, none), (some current, log1))

/-- Embedding of `FSStore.waitForSnapshotStatus`. -/
def waitForSnapshotStatus (env : Env) (id status : String) (secs : Int) (fuel : Nat)
    (log : List Call) : Option ((Option Snapshot × Option GoError) × List Call) :=
  match WaitFor (fun s => env.elapsed s.2.length) secs (snapshotStatusPredicate env id status)
      fuel (none, log) with
  | none => none
  | some (err, (current, log1)) => some ((current, err), log1)

/-- The value of the variable `rules` in `getShareAccessRule`: one of the two
slice types behind the empty interface. -/
inductive Rules where
  | accessRights (rules : List AccessRight)
  | shareAccesses (rules : List ShareAccess)

/-- Embedding of `FSStore.getShareAccessRule`, `client` being `b.client`. -/
def getShareAccessRule (env : Env) (client : ServiceClient) (volumeID : String)
    (log : List Call) : Except GoError AccessRight × List Call :=
  let listed : Except GoError Rules × List Call :=
    if client.Microversion = minSupportedMicroversion then
      match listAccessRights env volumeID log with
      | (.error err, log1) => (.error err, log1)
      | (.ok rs, log1) => (.ok (.accessRights rs), log1)
    else
      match shareAccessRulesList env volumeID log with
      | (.error err, log1) => (.error err, log1)
      | (.ok rs, log1) => (.ok (.shareAccesses rs), log1)
  match listed with
  | (.error err, log1) =>
    (.error (fmtErrorf "failed to list volume %v access rules from manila: %w" [volumeID]
      (some err)), log1)
  | (.ok (.accessRights (rule :: _)), log1) => (.ok rule, log1)
  | (.ok (.shareAccesses (rule :: _)), log1) =>
    (.ok { ID := rule.ID, ShareID := rule.ShareID, AccessKey := rule.AccessKey,
           AccessLevel := rule.AccessLevel, AccessTo := rule.AccessTo,
           AccessType := rule.AccessType, State := rule.State }, log1)
  | (.ok _, log1) =>
    (.error (fmtErrorf "failed to find volume %v access rules from manila: %w" [volumeID]
      none), log1)

/-- Embedding of `FSStore.getManilaMicroversion`. -/
def getManilaMicroversion (env : Env) (log : List Call) : Except GoError String × List Call :=
  apiversionsGet env "v2" log

/-- Embedding of `FSStore.CreateVolumeFromSnapshot`, `client` being
`b.client`; the volume type and `iops` are not used by the source.  The two bounds
of 300 seconds are the local `snapshotReadyTimeout` and `shareReadyTimeout`.
`none` stands for a run without a result: a poll loop that did not end within
`fuel` rounds, or a nil snapshot dereferenced after a wait without error. -/
def CreateVolumeFromSnapshot (env : Env) (client : ServiceClient)
    (snapshotID _volumeType volumeAZ : String) (fuel : Nat) (log : List Call) :
    Option ((String × Option GoError) × List Call) :=
  let shareReadyTimeout : Int := 300
  let snapshotReadyTimeout : Int := 300
  let volumeName := snapshotID ++ ".backup." ++ toString (env.randUint64 log.length % 2 ^ 64)
  match waitForSnapshotStatus env snapshotID "available" snapshotReadyTimeout fuel log with
  | none => none
  | some ((_, some err), log1) =>
    some (("", some (fmtErrorf
      "snapshot %v didn't get into 'available' status within the time limit: %w"
      [snapshotID] (some err))), log1)
  | some ((none, none), _) => none
  | some ((some snapshot, none), log1) =>
    match sharesGet env snapshot.ShareID log1 with
    | (.error err, log2) =>
      some (("", some (fmtErrorf "failed to get original volume %v from manila: %w"
        [snapshot.ShareID] (some err))), log2)
    | (.ok originShare, log2) =>
      match getShareAccessRule env client snapshot.ShareID log2 with
      | (.error err, log3) => some (("", some err), log3)
      | (.ok rule, log3) =>
        let opts : CreateOpts :=
          { ShareProto := snapshot.ShareProto, Size := snapshot.Size,
            AvailabilityZone := volumeAZ, Name := volumeName, SnapshotID := snapshotID,
            Metadata := originShare.Metadata }
        match sharesCreate env opts log3 with
        | (.error err, log4) =>
          some (("", some (fmtErrorf "failed to create volume %v from snapshot %v: %w"
            [volumeName, snapshotID] (some err))), log4)
        | (.ok share, log4) =>
          match waitForShareStatus env share.ID "available" shareReadyTimeout fuel log4 with
          | none => none
          | some ((_, some err), log5) =>
            some (("", some (fmtErrorf
              "volume %v didn't get into 'available' status within the time limit: %w"
              [share.ID] (some err))), log5)
          | some ((_, none), log5) =>
            let accessOpts : GrantAccessOpts :=
              { AccessType := rule.AccessType, AccessTo := rule.AccessTo,
                AccessLevel := rule.AccessLevel }
            match grantAccess env share.ID accessOpts log5 with
            | (.error err, log6) =>
              some (("", some (fmtErrorf "failed to grant an access to manila volume %v: %w"
                [share.ID] (some err))), log6)
            | (.ok _, log6) => some ((share.ID, none), log6)

/-- Lookup in a Go `map[string]string`: the empty string for a missing key. -/
def configGet (config : List (String × String)) (key : String) : String :=
  (config.lookup key).getD ""

/-- Fields of `FSStore` that `Init` reads and writes. -/
structure FSStore where
  client : Option ServiceClient
  config : List (String × String)
  csiDriverName : String
  deriving DecidableEq, Repr

/-- What `Init` gets from outside the remote service: the error result of
`utils.Authenticate`, the process environment (`os.LookupEnv`), and the pair
that `openstack.NewSharedFileSystemV2` returns for a region. -/
structure Host where
  authenticate : Option GoError
  lookupEnv : String → Option String
  newSharedFileSystemV2 : String → Option ServiceClient × Option GoError

/-- Embedding of `FSStore.Init`: the error returned, the store afterwards and
the request log.  `none` stands for the dereference of a nil client that the
library handed back without an error.  Warnings and other log lines are not
part of the result. -/
def FSStore.Init (b : FSStore) (host : Host) (env : Env) (config : List (String × String))
    (log : List Call) : Option (Option GoError × FSStore × List Call) :=
  let b := { b with config := config }
  match host.authenticate with
  | some err =>
    some (some (fmtErrorf
      "failed to authenticate against OpenStack in shared filesystem plugin: %w" []
      (some err)), b, log)
  | none =>
    if b.client = none ∨ configGet config "cloud" ≠ "" then
      let region :=
        match host.lookupEnv "OS_REGION_NAME" with
        | some r => r
        | none =>
          if configGet config "region" ≠ "" then configGet config "region" else "RegionOne"
      match host.newSharedFileSystemV2 region with
      | (c, some err) =>
        some (some (fmtErrorf "failed to create manila storage client: %w" [] (some err)),
          { b with client := c }, log)
      | (none, none) => none
      | (some c, none) =>
        let c1 := { c with Microversion := minSupportedMicroversion }
        match getManilaMicroversion env log with
        | (.error _, log1) => some (none, { b with client := some c1 }, log1)
        | (.ok mv, log1) =>
          let ok := (CompareMicroversions "lte" getAccessRulesMicroversion mv).1
          let c2 := if ok then { c1 with Microversion := getAccessRulesMicroversion } else c1
          some (none, { b with client := some c2 }, log1)
    else some (none, b, log)

/-- A sample environment: a resource is reported `creating` to the first
request and `available` to the later ones, every share has one access rule,
and one second passes per request. -/
def sampleEnv : Env where
  snapshotsGet := fun k id =>
    .ok { ID := id, ShareID := "share-1", ShareProto := "NFS", Size := 1,
          Status := if k = 0 then "creating" else "available" }
  sharesGet := fun k id =>
    .ok { ID := id, Status := if k = 0 then "creating" else "available",
          VolumeType := "default", Metadata := [("owner", "velero")] }
  listAccessRights := fun _ id =>
    .ok [{ ID := "rule-1", ShareID := id, AccessKey := "", AccessLevel := "rw",
           AccessTo := "10.0.0.0/8", AccessType := "ip", State := "active" }]
  shareAccessRulesList := fun _ id =>
    .ok [{ ID := "rule-1", ShareID := id, AccessKey := "", AccessLevel := "rw",
           AccessTo := "10.0.0.0/8", AccessType := "ip", State := "active" }]
  sharesCreate := fun _ opts =>
    .ok { ID := "share-2", Status := "creating", VolumeType := "default",
          Metadata := opts.Metadata }
  grantAccess := fun _ id opts =>
    .ok { ID := "rule-2", ShareID := id, AccessKey := "", AccessLevel := opts.AccessLevel,
          AccessTo := opts.AccessTo, AccessType := opts.AccessType, State := "new" }
  apiversionsGet := fun _ _ => .ok "2.65"
  snapshotsGetPartial := fun _ _ => none
  sharesGetPartial := fun _ _ => none
  elapsed := fun k => (k : Int)
  randUint64 := fun _ => 42

/-- The sample environment with a service that answers the first request and
fails every later fetch of a share or a snapshot. -/
def brokenEnv : Env :=
  { sampleEnv with
    snapshotsGet := fun k id =>
      if k = 0 then sampleEnv.snapshotsGet k id else .error (.backend "503")
    sharesGet := fun k id =>
      if k = 0 then sampleEnv.sharesGet k id else .error (.backend "503") }

/-- The sample environment with a service that lists no access rule for any
share. -/
def emptyRulesEnv : Env :=
  { sampleEnv with
    listAccessRights := fun _ _ => .ok []
    shareAccessRulesList := fun _ _ => .ok [] }

/-- A client whose microversion has been raised by `Init`. -/
def sampleClient : ServiceClient := { Endpoint := "https://manila.example", Microversion := "2.45" }

/-- The requests of `CreateVolumeFromSnapshot` for snapshot `snap-1` in the
sample environment, starting from an empty log. -/
def sampleCalls : List Call :=
  match CreateVolumeFromSnapshot sampleEnv sampleClient "snap-1" "" "az-2" 5 [] with
  | some (_, calls) => calls
  | none => []

/-- A sample host: authentication succeeds, `OS_REGION_NAME` is not set, and
a client is handed out for every region. -/
def sampleHost : Host where
  authenticate := none
  lookupEnv := fun _ => none
  newSharedFileSystemV2 := fun region =>
    (some { Endpoint := "https://manila." ++ region, Microversion := "" }, none)

/-- A store fresh from `NewFSStore`. -/
def newStore : FSStore :=
  { client := none, config := [], csiDriverName := "nfs.manila.csi.openstack.org" }

end Manila

/-! ## `main.go`: the test driver -/

namespace Driver

/-- The command line flags of `main.go`.  `nSnap` is a Go `uint`. -/
structure Flags where
  nSnap : Nat
  sync : Bool
  region : String
  az : String
  debug : Bool
  volID : String
  method : String
  storageType : String
  deriving DecidableEq, Repr

/-- Number of values of a 64-bit Go `uint`. -/
def uintSize : Nat := 2 ^ 64

/-- How a call of a library function ended: it returned, with its error
result, or it panicked. -/
inductive Outcome where
  | returned (err : Option GoError)
  | panicked
  deriving DecidableEq, Repr

/-- One operation the driver issued, with its result: the methods of the
`Snapshotter` interface, the calls the clone flows make with `store.Client()`,
and the pause of `processCinderClone`. -/
inductive Op where
  | Init (config : List (String × String)) (err : Option GoError)
  | CreateSnapshot (volumeID volumeAZ : String) (res : Except GoError String)
  | CreateVolumeFromSnapshot (snapshotID volumeType volumeAZ : String)
      (res : Except GoError String)
  | DeleteSnapshot (snapshotID : String) (err : Option GoError)
  | WaitForSnapshotStatus (id : String) (err : Option GoError)
  | WaitForReplicaStatus (id : String) (err : Option GoError)
  | WaitForReplicaSyncState (id : String) (err : Option GoError)
  | WaitForReplicaActiveState (id : String) (err : Option GoError)
  | snapshotsCreate (name shareID : String) (res : Except GoError String)
  | vsnapshotsCreate (name volumeID : String) (res : Except GoError String)
  | replicasCreate (shareID az : String) (res : Except GoError String)
  | replicasResync (id : String) (err : Option GoError)
  | replicasPromote (id : String) (out : Outcome)
  | sleep (seconds : Nat)
  deriving DecidableEq, Repr

/-- The store behind the `Snapshotter` interface together with the service
behind `store.Client()`: the result of every operation, given the number of
operations issued before it.  A create operation gives the identifier of the
new resource or an error.  The promotion of a replica has no field: the call
the driver makes sends no request (`replicasPromoteNil`). -/
structure Snapshotter where
  Init : Nat → List (String × String) → Option GoError
  CreateVolumeFromSnapshot : Nat → String → String → String → Except GoError String
  CreateSnapshot : Nat → String → String → Except GoError String
  DeleteSnapshot : Nat → String → Option GoError
  WaitForSnapshotStatus : Nat → String → Option GoError
  WaitForReplicaStatus : Nat → String → Option GoError
  WaitForReplicaSyncState : Nat → String → Option GoError
  WaitForReplicaActiveState : Nat → String → Option GoError
  snapshotsCreate : Nat → String → String → Except GoError String
  vsnapshotsCreate : Nat → String → String → Except GoError String
  replicasCreate : Nat → String → String → Except GoError String
  replicasResync : Nat → String → Option GoError

/-- The first loop of `processManilaClone` and of `processCinderClone`, which
differ in the create request only (`create` sends it, `mk` is its log entry):
`for i = 1; i <= *nSnap; i++` over a `uint`, from the state `i`, `snapIDs`.
The result is `none` when `fuel` rounds did not end the loop; otherwise the
log, with `some snapIDs` when the loop ran to its end and `none` when a create
request failed and the function returned. -/
def createSnapshots (create : Nat → String → String → Except GoError String)
    (mk : String → String → Except GoError String → Op) (nSnap : Nat) (snapID : String) :
    Nat → Nat → List String → List Op → Option (Option (List String) × List Op)
  | 0, _, _, _ => none
  | fuel + 1, i, snapIDs, log =>
    if i ≤ nSnap then
      let name := "test snapshot from " ++ snapID ++ " " ++ toString i
      let res := create log.length name snapID
      let log1 := log ++ [mk name snapID res]
      match res with
      | .error _ => some (none, log1)
      | .ok id => createSnapshots create mk nSnap snapID fuel ((i + 1) % uintSize)
          (snapIDs ++ [id]) log1
    else some (some snapIDs, log)

/-- The second loop of both clone flows, `for _, id := range snapIDs`: `true`
when every wait succeeded, `false` when one failed and the function
returned. -/
def waitSnapshots (store : Snapshotter) : List String → List Op → Bool × List Op
  | [], log => (true, log)
  | id :: rest, log =>
    let err := store.WaitForSnapshotStatus log.length id
    let log1 := log ++ [.WaitForSnapshotStatus id err]
    match err with
    | some _ => (false, log1)
    | none => waitSnapshots store rest log1

/-- The call `replicas.Promote(client, id, nil)` of the OpenStack client
library, as `processManilaClone` makes it: with nil for the options.  The
library starts by calling a method of the options to build the body of the
request; on the nil interface value that call panics, so no request is sent and
the call does not return. -/
def replicasPromoteNil (_id : String) : Outcome := .panicked

/-- Embedding of `processManilaClone`: the log when the function is left, by a
`return` or by a panic (the deferred calls of `main` run in both cases).  The
last two statements of the source are there, after the promotion, but the
promotion as the source calls it never returns. -/
def processManilaClone (store : Snapshotter) (flags : Flags) (snapID : String) (fuel : Nat)
    (log : List Op) : Option (List Op) :=
  match createSnapshots store.snapshotsCreate Op.snapshotsCreate flags.nSnap snapID fuel 1 []
      log with
  | none => none
  | some (none, log1) => some log1
  | some (some snapIDs, log1) =>
    match waitSnapshots store snapIDs log1 with
    | (false, log2) => some log2
    | (true, log2) =>
      let res := store.replicasCreate log2.length snapID flags.az
      let log3 := log2 ++ [.replicasCreate snapID flags.az res]
      match res with
      | .error _ => some log3
      | .ok replicaID =>
        let err := store.WaitForReplicaStatus log3.length replicaID
        let log4 := log3 ++ [.WaitForReplicaStatus replicaID err]
        match err with
        | some _ => some log4
        | none =>
          if !flags.sync then some log4
          else
            let err := store.replicasResync log4.length replicaID
            let log5 := log4 ++ [.replicasResync replicaID err]
            match err with
            | some _ => some log5
            | none =>
              let err := store.WaitForReplicaSyncState log5.length replicaID
              let log6 := log5 ++ [.WaitForReplicaSyncState replicaID err]
              match err with
              | some _ => some log6
              | none =>
                let out := replicasPromoteNil replicaID
                let log7 := log6 ++ [.replicasPromote replicaID out]
                match out with
                | .panicked => some log7
                | .returned (some _) => some log7
                | .returned none =>
                  let err := store.WaitForReplicaActiveState log7.length replicaID
                  some (log7 ++ [.WaitForReplicaActiveState replicaID err])

/-- Embedding of `processCinderClone`: the log after it returned. -/
def processCinderClone (store : Snapshotter) (flags : Flags) (snapID : String) (fuel : Nat)
    (log : List Op) : Option (List Op) :=
  match createSnapshots store.vsnapshotsCreate Op.vsnapshotsCreate flags.nSnap snapID fuel 1 []
      log with
  | none => none
  | some (none, log1) => some log1
  | some (some snapIDs, log1) =>
    match waitSnapshots store snapIDs log1 with
    | (false, log2) => some log2
    | (true, log2) => some (log2 ++ [.sleep 5])

/-- The configuration map that `main` passes to `Init`. -/
def mainConfig (flags : Flags) : List (String × String) :=
  [("cascadeDelete", "true"), ("cloneTimeout", "20m"), ("enforceAZ", "true"),
   ("ensureDeleted", "true"), ("ensureDeletedDelay", "10s"), ("method", flags.method),
   ("region", flags.region), ("replicaTimeout", "20m"), ("shareTimeout", "20m"),
   ("snapshotTimeout", "20m"), ("backupTimeout", "20m"), ("imageTimeout", "20m")]

/-- The deferred call `store.DeleteSnapshot(id)` (a failure is logged only). -/
def deferredDelete (store : Snapshotter) (id : String) (log : List Op) : List Op :=
  log ++ [.DeleteSnapshot id (store.DeleteSnapshot log.length id)]

/-- The part of `main` after the second `defer`. -/
def mainClone (store : Snapshotter) (flags : Flags) (newVolID : String) (fuel : Nat)
    (log : List Op) : Option (List Op) :=
  if flags.method ≠ "clone" then some log
  else if flags.storageType = "manila" then processManilaClone store flags newVolID fuel log
  else if flags.storageType = "cinder" then processCinderClone store flags newVolID fuel log
  else some log

/-- The part of `main` after the first `defer`; the deferred deletion of the
new volume runs when the rest has returned, and also when the clone flow has
panicked (deferred calls run while a panic unwinds). -/
def mainVolume (store : Snapshotter) (flags : Flags) (snapID : String) (fuel : Nat)
    (log : List Op) : Option (List Op) :=
  let res := store.CreateVolumeFromSnapshot log.length snapID "" flags.az
  let log1 := log ++ [.CreateVolumeFromSnapshot snapID "" flags.az res]
  match res with
  | .error _ => some log1
  | .ok newVolID =>
    match mainClone store flags newVolID fuel log1 with
    | none => none
    | some log2 => some (deferredDelete store newVolID log2)

/-- Embedding of `main`: the operations issued, in order, `none` when the run
did not end within `fuel` rounds of a creation loop.  `log.Fatalf` ends the
process at once; no operation has been issued at that point. -/
def main (store : Snapshotter) (flags : Flags) (fuel : Nat) : Option (List Op) :=
  if flags.volID = "" then some []
  else if flags.storageType ≠ "manila" ∧ flags.storageType ≠ "cinder" then some []
  else
    let err := store.Init 0 (mainConfig flags)
    let log1 := [Op.Init (mainConfig flags) err]
    match err with
    | some _ => some log1
    | none =>
      let res := store.CreateSnapshot log1.length flags.volID ""
      let log2 := log1 ++ [.CreateSnapshot flags.volID "" res]
      match res with
      | .error _ => some log2
      | .ok snapID =>
        match mainVolume store flags snapID fuel log2 with
        | none => none
        | some log3 => some (deferredDelete store snapID log3)

/-! ### Reading a log -/

/-- The result of a snapshot creation request, for the log entries that are
one. -/
def Op.creation : Op → Option (Except GoError String)
  | .snapshotsCreate _ _ res => some res
  | .vsnapshotsCreate _ _ res => some res
  | _ => none

/-- The results of the snapshot creation requests of a log, in order. -/
def creations (ops : List Op) : List (Except GoError String) := ops.filterMap Op.creation

/-- The identifier a creation returned, when it succeeded. -/
def createdID : Except GoError String → Option String
  | .ok id => some id
  | .error _ => none

/-- The identifiers of the snapshots created in a log, in creation order. -/
def createdIDs (ops : List Op) : List String := (creations ops).filterMap createdID

/-- The argument and the result of a `WaitForSnapshotStatus` entry. -/
def Op.snapshotWait : Op → Option (String × Option GoError)
  | .WaitForSnapshotStatus id err => some (id, err)
  | _ => none

/-- The snapshot waits of a log, in order. -/
def snapshotWaits (ops : List Op) : List (String × Option GoError) :=
  ops.filterMap Op.snapshotWait

/-- The argument of a `DeleteSnapshot` entry. -/
def Op.deletion : Op → Option String
  | .DeleteSnapshot id _ => some id
  | _ => none

/-- The identifiers of the deletion attempts of a log, in order. -/
def deletions (ops : List Op) : List String := ops.filterMap Op.deletion

/-- The operation did not succeed: it returned an error, or it panicked. -/
def Op.failed : Op → Bool
  | .Init _ err => err.isSome
  | .CreateSnapshot _ _ res => !res.toBool
  | .CreateVolumeFromSnapshot _ _ _ res => !res.toBool
  | .DeleteSnapshot _ err => err.isSome
  | .WaitForSnapshotStatus _ err => err.isSome
  | .WaitForReplicaStatus _ err => err.isSome
  | .WaitForReplicaSyncState _ err => err.isSome
  | .WaitForReplicaActiveState _ err => err.isSome
  | .snapshotsCreate _ _ res => !res.toBool
  | .vsnapshotsCreate _ _ res => !res.toBool
  | .replicasCreate _ _ res => !res.toBool
  | .replicasResync _ err => err.isSome
  | .replicasPromote _ (.returned err) => err.isSome
  | .replicasPromote _ .panicked => true
  | .sleep _ => false

/-- The operation is the first one after the wait phase of a clone flow: the
replica creation of `processManilaClone`, the pause of `processCinderClone`. -/
def Op.pastWaitPhase : Op → Bool
  | .replicasCreate _ _ _ => true
  | .sleep _ => true
  | _ => false

/-- The operation is one that the clone flows issue. -/
def Op.cloneFlow : Op → Bool
  | .WaitForSnapshotStatus _ _ => true
  | .WaitForReplicaStatus _ _ => true
  | .WaitForReplicaSyncState _ _ => true
  | .WaitForReplicaActiveState _ _ => true
  | .snapshotsCreate _ _ _ => true
  | .vsnapshotsCreate _ _ _ => true
  | .replicasCreate _ _ _ => true
  | .replicasResync _ _ => true
  | .replicasPromote _ _ => true
  | .sleep _ => true
  | _ => false

/-- The order of the snapshot phase of a clone flow, read off the operations
`ops` it issued, for `nSnap` requested snapshots:
* when a snapshot wait is issued, the creations before it are `nSnap` in
  number and all succeeded, and no creation follows it;
* the identifiers waited on are, in order, the first of the created ones;
* a wait that fails is the last wait;
* an operation past the wait phase is issued exactly when `nSnap` snapshots
  were created and every one of them was waited on with success;
* when the creations are `nSnap` in number and all succeeded, the waits are
  issued: either one wait without error on each created identifier, in
  creation order, or such waits on the identifiers before some created
  identifier `id`, then a wait on `id` that fails, and no wait on the
  identifiers created after `id`;
* when a creation failed, or fewer than `nSnap` were made, no wait is issued. -/
def SnapshotPhaseOrdered (nSnap : Nat) (ops : List Op) : Prop :=
  (∀ pre id err post, ops = pre ++ Op.WaitForSnapshotStatus id err :: post →
    creations pre = (createdIDs pre).map .ok ∧ (createdIDs pre).length = nSnap ∧
      creations post = []) ∧
  (snapshotWaits ops).map Prod.fst = (createdIDs ops).take (snapshotWaits ops).length ∧
  (∀ pre id e post, snapshotWaits ops = pre ++ (id, some e) :: post → post = []) ∧
  ((∃ op ∈ ops, op.pastWaitPhase = true) ↔
    (creations ops = (createdIDs ops).map .ok ∧ (createdIDs ops).length = nSnap ∧
      snapshotWaits ops = (createdIDs ops).map (fun id => (id, none)))) ∧
  ((creations ops = (createdIDs ops).map .ok ∧ (createdIDs ops).length = nSnap) →
    (snapshotWaits ops = (createdIDs ops).map (fun id => (id, none)) ∨
     ∃ done id e rest, createdIDs ops = done ++ id :: rest ∧
       snapshotWaits ops = done.map (fun id => (id, none)) ++ [(id, some e)])) ∧
  (¬ (creations ops = (createdIDs ops).map .ok ∧ (createdIDs ops).length = nSnap) →
    snapshotWaits ops = [])

/-- A sample store: every operation succeeds, and a created resource is named
after the number of operations issued before it. -/
def sampleStore : Snapshotter where
  Init := fun _ _ => none
  CreateVolumeFromSnapshot := fun _ _ _ _ => .ok "share-2"
  CreateSnapshot := fun _ _ _ => .ok "snap-1"
  DeleteSnapshot := fun _ _ => none
  WaitForSnapshotStatus := fun _ _ => none
  WaitForReplicaStatus := fun _ _ => none
  WaitForReplicaSyncState := fun _ _ => none
  WaitForReplicaActiveState := fun _ _ => none
  snapshotsCreate := fun k _ _ => .ok ("snap-test-" ++ toString k)
  vsnapshotsCreate := fun k _ _ => .ok ("snap-test-" ++ toString k)
  replicasCreate := fun _ _ _ => .ok "repl-1"
  replicasResync := fun _ _ => none

/-- Sample flags: two test snapshots of a share, with the sync flag set. -/
def sampleFlags : Flags :=
  { nSnap := 2, sync := true, region := "eu-1", az := "az-2", debug := false,
    volID := "share-1", method := "clone", storageType := "manila" }

/-- The operations of `processManilaClone` on `share-2` with the sample store
and flags. -/
def sampleManilaOps : List Op :=
  (processManilaClone sampleStore sampleFlags "share-2" 3 []).getD []

/-- The operations of `main` with the sample store and flags. -/
def sampleMainOps : List Op := (main sampleStore sampleFlags 3).getD []

/-- The sample store with a service that refuses every deletion. -/
def refusingStore : Snapshotter :=
  { sampleStore with DeleteSnapshot := fun _ _ => some (.backend "409") }

/-- The operations of `main` with the refusing store and the sample flags. -/
def refusedMainOps : List Op := (main refusingStore sampleFlags 3).getD []

end Driver

/-! ## Theorems: lists -/

theorem mem_splitsOf {α : Type} (x : α) (post : List α) :
    ∀ (l pre : List α), (pre, x, post) ∈ splitsOf l ↔ l = pre ++ x :: post := by
  intro l
  induction l with
  | nil =>
    intro pre
    simp [splitsOf]
  | cons a rest ih =>
    intro pre
    cases pre with
    | nil =>
      simp only [splitsOf, List.mem_cons, Prod.mk.injEq, true_and, List.mem_map, List.nil_append,
        List.cons.injEq]
      constructor
      · rintro (⟨h1, h2⟩ | ⟨t, _, h⟩)
        · exact ⟨h1.symm, h2.symm⟩
        · simp at h
      · rintro ⟨h1, h2⟩
        exact Or.inl ⟨h1.symm, h2.symm⟩
    | cons p ps =>
      simp only [splitsOf, List.mem_cons, Prod.mk.injEq, List.mem_map, List.cons_append,
        List.cons.injEq]
      constructor
      · rintro (⟨h1, _⟩ | ⟨t, ht, h1, h2, h3⟩)
        · cases h1
        · obtain ⟨t1, t2, t3⟩ := t
          simp only at h1 h2 h3
          obtain ⟨h1a, h1b⟩ := h1
          subst h1a h1b h2 h3
          exact ⟨rfl, (ih _).mp ht⟩
      · rintro ⟨h1, h2⟩
        right
        exact ⟨(ps, x, post), (ih ps).mpr h2, by simp [h1]⟩

/-- A statement about every cut of a list is a statement about the members
of `splitsOf`. -/
theorem forall_splits {α : Type} (l : List α) (P : List α → α → List α → Prop) :
    (∀ pre x post, l = pre ++ x :: post → P pre x post) ↔
      ∀ t ∈ splitsOf l, P t.1 t.2.1 t.2.2 := by
  constructor
  · intro h t ht
    obtain ⟨t1, t2, t3⟩ := t
    exact h t1 t2 t3 ((mem_splitsOf t2 t3 l t1).mp ht)
  · intro h pre x post hl
    exact h (pre, x, post) ((mem_splitsOf x post l pre).mpr hl)

/-- A cut of `front ++ back` falls in `front` or in `back`. -/
theorem split_append_cases {α : Type} (x : α) :
    ∀ (front back pre post : List α), front ++ back = pre ++ x :: post →
    (∃ post1, front = pre ++ x :: post1 ∧ post = post1 ++ back) ∨
    (∃ pre1, pre = front ++ pre1 ∧ back = pre1 ++ x :: post) := by
  intro front
  induction front with
  | nil => intro back pre post h; exact Or.inr ⟨pre, by simp, by simpa using h⟩
  | cons a rest ih =>
    intro back pre post h
    cases pre with
    | nil =>
      simp only [List.cons_append, List.nil_append, List.cons.injEq] at h
      exact Or.inl ⟨rest, by simp [h.1], h.2.symm⟩
    | cons p ps =>
      simp only [List.cons_append, List.cons.injEq] at h
      rcases ih back ps post h.2 with ⟨post1, h1, h2⟩ | ⟨pre1, h1, h2⟩
      · exact Or.inl ⟨post1, by simp [h.1, h1], h2⟩
      · exact Or.inr ⟨pre1, by simp [h.1, h1], h2⟩

/-! ## Theorems: microversions -/

theorem mvReFrom_dotted (a : List Char) : ∀ (pre b : List Char),
    pre ++ a ≠ [] → a.all isDigit = true → b ≠ [] → b.all isDigit = true →
    mvReFrom pre (a ++ '.' :: b) = some (pre ++ a, b) := by
  induction a with
  | nil =>
    intro pre b hne _ hb hbd
    have hpre : pre ≠ [] := by simpa using hne
    have hdot : isDigit '.' = false := by decide
    simp [mvReFrom, hdot, hpre, hb, hbd]
  | cons x xs ih =>
    intro pre b _ ha hb hbd
    simp only [List.all_cons, Bool.and_eq_true] at ha
    have h := ih (pre ++ [x]) b (by simp) ha.2 hb hbd
    have hstep : mvReFrom pre (x :: (xs ++ '.' :: b)) = some (pre ++ [x] ++ xs, b) := by
      rw [mvReFrom]
      simp only [ha.1, if_true, h]
    simpa using hstep

theorem microversionToInt_dotted (a b : List Char)
    (ha : a ≠ []) (had : a.all isDigit = true) (hb : b ≠ []) (hbd : b.all isDigit = true) :
    microversionToInt (String.mk (a ++ '.' :: b)) = .ok (atoi a, atoi b) := by
  have h := mvReFrom_dotted a [] b (by simpa using ha) had hb hbd
  simp only [List.nil_append] at h
  simp [microversionToInt, mvReFind, h]

theorem atoi_of_fits (ds : List Char) (h : (decimalValue ds : Int) ≤ maxInt) :
    atoi ds = (decimalValue ds : Int) := by
  simp [atoi, h]

theorem compare_dotted (op : String) (a b c d : List Char)
    (ha : IsIntLiteral a) (hb : IsIntLiteral b) (hc : IsIntLiteral c) (hd : IsIntLiteral d)
    (hop : op = "lte" ∨ op = "gte") :
    CompareMicroversions op (String.mk (a ++ '.' :: b)) (String.mk (c ++ '.' :: d)) =
      (if op = "lte" then
        (if (decimalValue a : Int) < decimalValue c then (true, none)
         else (decide ((decimalValue a : Int) ≤ decimalValue c) &&
               decide ((decimalValue b : Int) ≤ decimalValue d), none))
       else
        (if (decimalValue a : Int) > decimalValue c then (true, none)
         else (decide ((decimalValue a : Int) ≥ decimalValue c) &&
               decide ((decimalValue b : Int) ≥ decimalValue d), none))) := by
  have hw := microversionToInt_dotted a b ha.1 ha.2.1 hb.1 hb.2.1
  have hh := microversionToInt_dotted c d hc.1 hc.2.1 hd.1 hd.2.1
  rw [atoi_of_fits a ha.2.2, atoi_of_fits b hb.2.2] at hw
  rw [atoi_of_fits c hc.2.2, atoi_of_fits d hd.2.2] at hh
  have hnot : ¬ (op ≠ "lte" ∧ op ≠ "gte") := by
    rcases hop with h | h <;> simp [h]
  simp only [CompareMicroversions, hnot, if_false, hw, hh]

/-- C1: for `want = a.b` and `have = c.d`, with `a`, `b`, `c`, `d` non-empty runs
of decimal digits whose values fit in an `int`, `CompareMicroversions "lte"`
returns `true` without error exactly when `(a, b)` is at most `(c, d)` in the
lexicographic order on (major, minor), and `false` without error otherwise;
`"gte"` returns `true` exactly when `(a, b)` is at least `(c, d)`.  The five
listed cases evaluate as stated. -/
theorem compareMicroversions_lexicographic (a b c d : List Char)
    (ha : IsIntLiteral a) (hb : IsIntLiteral b) (hc : IsIntLiteral c) (hd : IsIntLiteral d) :
    CompareMicroversions "lte" (String.mk (a ++ '.' :: b)) (String.mk (c ++ '.' :: d)) =
        (decide (decimalValue a < decimalValue c ∨
          (decimalValue a = decimalValue c ∧ decimalValue b ≤ decimalValue d)), none) ∧
    CompareMicroversions "gte" (String.mk (a ++ '.' :: b)) (String.mk (c ++ '.' :: d)) =
        (decide (decimalValue c < decimalValue a ∨
          (decimalValue a = decimalValue c ∧ decimalValue d ≤ decimalValue b)), none) ∧
    CompareMicroversions "lte" "2.7" "2.50" = (true, none) ∧
    CompareMicroversions "lte" "1.7" "2.50" = (true, none) ∧
    CompareMicroversions "lte" "3.7" "2.50" = (false, none) ∧
    CompareMicroversions "gte" "2.7" "2.50" = (false, none) ∧
    CompareMicroversions "gte" "2.50" "2.50" = (true, none) := by
  refine ⟨?_, ?_, by decide, by decide, by decide, by decide, by decide⟩
  · rw [compare_dotted "lte" a b c d ha hb hc hd (Or.inl rfl)]
    simp only [if_true]
    by_cases h1 : (decimalValue a : Int) < decimalValue c
    · have h1n : decimalValue a < decimalValue c := by exact_mod_cast h1
      simp [h1, h1n]
    · have h1n : ¬ decimalValue a < decimalValue c := by exact_mod_cast h1
      simp only [h1, if_false, h1n, false_or, Prod.mk.injEq, and_true]
      rw [Bool.eq_iff_iff]
      simp only [Bool.and_eq_true, decide_eq_true_eq, Nat.cast_le]
      constructor
      · rintro ⟨h2, h3⟩; exact ⟨by omega, h3⟩
      · rintro ⟨h2, h3⟩; exact ⟨by omega, h3⟩
  · rw [compare_dotted "gte" a b c d ha hb hc hd (Or.inr rfl)]
    have hne : ¬ ("gte" = "lte") := by decide
    simp only [hne, if_false]
    by_cases h1 : (decimalValue a : Int) > decimalValue c
    · have h1n : decimalValue c < decimalValue a := by exact_mod_cast h1
      simp [h1, h1n]
    · have h1n : ¬ decimalValue c < decimalValue a := by exact_mod_cast h1
      simp only [h1, if_false, h1n, false_or, Prod.mk.injEq, and_true]
      rw [Bool.eq_iff_iff]
      simp only [Bool.and_eq_true, decide_eq_true_eq, ge_iff_le, Nat.cast_le]
      constructor
      · rintro ⟨h2, h3⟩; exact ⟨by omega, h3⟩
      · rintro ⟨h2, h3⟩; exact ⟨by omega, h3⟩

theorem compareMicroversions_lexicographic_witness :
    CompareMicroversions "lte" (String.mk (['2'] ++ '.' :: ['7']))
        (String.mk (['2'] ++ '.' :: ['5', '0'])) =
      (decide (decimalValue ['2'] < decimalValue ['2'] ∨
        (decimalValue ['2'] = decimalValue ['2'] ∧
          decimalValue ['7'] ≤ decimalValue ['5', '0'])), none) :=
  (compareMicroversions_lexicographic ['2'] ['7'] ['2'] ['5', '0']
    (by decide) (by decide) (by decide) (by decide)).1

/-- C2: for every operator other than `"lte"` and `"gte"` and all strings
`want` and `have`, `CompareMicroversions` returns `false` together with an
error. -/
theorem compareMicroversions_invalid_operator (operator want have_ : String)
    (hop : operator ≠ "lte" ∧ operator ≠ "gte") :
    CompareMicroversions operator want have_ =
      (false, some (.errorf
        "invalid microversions comparison %q operator, must be lte or gte" [operator])) := by
  simp [CompareMicroversions, hop]

theorem compareMicroversions_invalid_operator_witness :
    CompareMicroversions "eq" "2.7" "not a version" =
      (false, some (.errorf
        "invalid microversions comparison %q operator, must be lte or gte" ["eq"])) :=
  compareMicroversions_invalid_operator "eq" "2.7" "not a version" (by decide)

/-! ## Theorems: status waiters -/

namespace Manila

/-- Shape of a finished share wait: some polls that found another status,
then the deadline, a failed fetch or a fetch with the status asked for. -/
theorem waitFor_share_shape (env : Env) (id status : String) (secs : Int) :
    ∀ (fuel : Nat) (s s1 : Option Share × List Call) (err : Option GoError),
    WaitFor (fun s => env.elapsed s.2.length) secs (shareStatusPredicate env id status)
      fuel s = some (err, s1) →
    ∃ others : List Share, (∀ r ∈ others, r.Status ≠ status) ∧
      ((err = some .timeout ∧
          s1.2 = s.2 ++ others.map (fun r => Call.sharesGet id (.ok r)) ∧
          secs ≤ env.elapsed s1.2.length) ∨
       (∃ e, err = some e ∧ s1.1 = env.sharesGetPartial (s.2.length + others.length) id ∧
          s1.2 = s.2 ++ others.map (fun r => Call.sharesGet id (.ok r)) ++
            [Call.sharesGet id (.error e)]) ∨
       (∃ r, err = none ∧ s1.1 = some r ∧ r.Status = status ∧
          s1.2 = s.2 ++ others.map (fun r => Call.sharesGet id (.ok r)) ++
            [Call.sharesGet id (.ok r)])) := by
  intro fuel
  induction fuel with
  | zero => intro s s1 err h; simp [WaitFor] at h
  | succ n ih =>
    intro s s1 err h
    rw [WaitFor] at h
    by_cases hd : secs ≤ env.elapsed s.2.length
    · simp only [hd, if_true, Option.some.injEq, Prod.mk.injEq] at h
      obtain ⟨h1, h2⟩ := h
      subst h1 h2
      exact ⟨[], by simp, Or.inl ⟨rfl, by simp, hd⟩⟩
    · simp only [hd, if_false] at h
      cases hres : env.sharesGet s.2.length id with
      | error e =>
        simp only [shareStatusPredicate, sharesGet, hres, Option.some.injEq,
          Prod.mk.injEq] at h
        obtain ⟨h1, h2⟩ := h
        subst h1 h2
        exact ⟨[], by simp, Or.inr (Or.inl ⟨e, rfl, by simp, by simp⟩)⟩
      | ok r =>
        by_cases hst : r.Status = status
        · simp only [shareStatusPredicate, sharesGet, hres, hst, if_true, Option.some.injEq,
            Prod.mk.injEq] at h
          obtain ⟨h1, h2⟩ := h
          subst h1 h2
          exact ⟨[], by simp, Or.inr (Or.inr ⟨r, rfl, rfl, hst, by simp⟩)⟩
        · simp only [shareStatusPredicate, sharesGet, hres, hst, if_false] at h
          obtain ⟨others, hall, hcases⟩ := ih _ _ _ h
          refine ⟨r :: others, ?_, ?_⟩
          · intro x hx
            rcases List.mem_cons.mp hx with hx | hx
            · subst hx; exact hst
            · exact hall x hx
          · rcases hcases with ⟨h1, h2, h3⟩ | ⟨e, h1, h2, h3⟩ | ⟨r2, h1, h2, h3, h4⟩
            · exact Or.inl ⟨h1, by simp [h2], h3⟩
            · refine Or.inr (Or.inl ⟨e, h1, h2.trans ?_, by simp [h3]⟩)
              simp only [List.length_append, List.length_singleton, List.length_cons,
                List.length_nil]
              rw [show ∀ a b : Nat, a + 1 + b = a + (b + 1) by omega]
            · exact Or.inr (Or.inr ⟨r2, h1, h2, h3, by simp [h4]⟩)

/-- A share wait returns as soon as the deadline shows within the rounds
allowed. -/
theorem waitFor_share_returns (env : Env) (id status : String) (secs : Int) :
    ∀ (j fuel : Nat) (s : Option Share × List Call), j < fuel →
    secs ≤ env.elapsed (s.2.length + j) →
    ∃ out, WaitFor (fun s => env.elapsed s.2.length) secs (shareStatusPredicate env id status)
      fuel s = some out := by
  intro j
  induction j with
  | zero =>
    intro fuel s hj hd
    obtain ⟨n, rfl⟩ : ∃ n, fuel = n + 1 := ⟨fuel - 1, by omega⟩
    rw [WaitFor]
    simp only [Nat.add_zero] at hd
    simp [hd]
  | succ k ih =>
    intro fuel s hj hd
    obtain ⟨n, rfl⟩ : ∃ n, fuel = n + 1 := ⟨fuel - 1, by omega⟩
    rw [WaitFor]
    by_cases hnow : secs ≤ env.elapsed s.2.length
    · simp [hnow]
    · simp only [hnow, if_false]
      cases hres : env.sharesGet s.2.length id with
      | error e => simp [shareStatusPredicate, sharesGet, hres]
      | ok r =>
        by_cases hst : r.Status = status
        · simp [shareStatusPredicate, sharesGet, hres, hst]
        · simp only [shareStatusPredicate, sharesGet, hres, hst, if_false]
          apply ih n _ (by omega)
          simp only [List.length_append, List.length_singleton]
          rw [show s.2.length + 1 + k = s.2.length + (k + 1) by omega]
          exact hd

/-- A share wait that meets `k` polls with another status before the
deadline and then a failed fetch returns the error of that fetch. -/
theorem waitFor_share_reaches_failure (env : Env) (id status : String) (secs : Int)
    (e : GoError) :
    ∀ (k fuel : Nat) (s : Option Share × List Call), k < fuel →
    (∀ j, j < k → ¬ secs ≤ env.elapsed (s.2.length + j) ∧
      ∃ r, env.sharesGet (s.2.length + j) id = .ok r ∧ r.Status ≠ status) →
    ¬ secs ≤ env.elapsed (s.2.length + k) →
    env.sharesGet (s.2.length + k) id = .error e →
    WaitFor (fun s => env.elapsed s.2.length) secs (shareStatusPredicate env id status)
      fuel s =
      some (some e, (env.sharesGetPartial (s.2.length + k) id, s.2 ++
        (List.range k).map (fun j => Call.sharesGet id (env.sharesGet (s.2.length + j) id)) ++
        [Call.sharesGet id (.error e)])) := by
  intro k
  induction k with
  | zero =>
    intro fuel s hk _ hd hres
    obtain ⟨n, rfl⟩ : ∃ n, fuel = n + 1 := ⟨fuel - 1, by omega⟩
    simp only [Nat.add_zero] at hd hres
    rw [WaitFor]
    simp [hd, shareStatusPredicate, sharesGet, hres]
  | succ k ih =>
    intro fuel s hk hpre hd hres
    obtain ⟨n, rfl⟩ : ∃ n, fuel = n + 1 := ⟨fuel - 1, by omega⟩
    obtain ⟨hd0, r, hr, hst⟩ := hpre 0 (by omega)
    simp only [Nat.add_zero] at hd0 hr
    rw [WaitFor]
    simp only [hd0, if_false, shareStatusPredicate, sharesGet, hr, hst]
    have hlen : (s.2 ++ [Call.sharesGet id (Except.ok r)]).length = s.2.length + 1 := by simp
    rw [ih n (some r, s.2 ++ [Call.sharesGet id (.ok r)]) (by omega)]
    · simp only [hlen, List.range_succ_eq_map, List.map_cons, List.map_map, Nat.add_zero, hr]
      have hfun : ((fun j => Call.sharesGet id (env.sharesGet (s.2.length + j) id)) ∘ Nat.succ) =
          (fun j => Call.sharesGet id (env.sharesGet (s.2.length + 1 + j) id)) := by
        funext j
        simp only [Function.comp, Nat.succ_eq_add_one]
        rw [show s.2.length + (j + 1) = s.2.length + 1 + j by omega]
      rw [hfun]
      simp only [List.append_assoc, List.singleton_append, List.cons_append, List.nil_append]
      rw [Nat.add_assoc, Nat.add_comm 1 k]
    · intro j hj
      have := hpre (j + 1) (by omega)
      simp only [hlen]
      rw [show s.2.length + 1 + j = s.2.length + (j + 1) by omega]
      exact this
    · simp only [hlen]
      rw [show s.2.length + 1 + k = s.2.length + (k + 1) by omega]
      exact hd
    · simp only [hlen]
      rw [show s.2.length + 1 + k = s.2.length + (k + 1) by omega]
      exact hres

/-- Shape of a finished `waitForShareStatus`. -/
theorem waitForShareStatus_shape (env : Env) (id status : String) (secs : Int) (fuel : Nat)
    (log log1 : List Call) (cur : Option Share) (err : Option GoError)
    (h : waitForShareStatus env id status secs fuel log = some ((cur, err), log1)) :
    ∃ others : List Share, (∀ r ∈ others, r.Status ≠ status) ∧
      ((err = some .timeout ∧
          log1 = log ++ others.map (fun r => Call.sharesGet id (.ok r))) ∨
       (∃ e, err = some e ∧ cur = env.sharesGetPartial (log.length + others.length) id ∧
          log1 = log ++ others.map (fun r => Call.sharesGet id (.ok r)) ++
            [Call.sharesGet id (.error e)]) ∨
       (∃ r, err = none ∧ cur = some r ∧ r.Status = status ∧
          log1 = log ++ others.map (fun r => Call.sharesGet id (.ok r)) ++
            [Call.sharesGet id (.ok r)])) := by
  unfold waitForShareStatus at h
  cases hw : WaitFor (fun s => env.elapsed s.2.length) secs (shareStatusPredicate env id status)
      fuel (none, log) with
  | none => simp [hw] at h
  | some out =>
    obtain ⟨err0, cur0, log0⟩ := out
    simp only [hw, Option.some.injEq, Prod.mk.injEq] at h
    obtain ⟨⟨h1, h2⟩, h3⟩ := h
    subst h1 h2 h3
    obtain ⟨others, hall, hc⟩ := waitFor_share_shape env id status secs fuel _ _ _ hw
    refine ⟨others, hall, ?_⟩
    rcases hc with ⟨h1, h2, _⟩ | ⟨e, h1, h2, h3⟩ | ⟨r, h1, h2, h3, h4⟩
    · exact Or.inl ⟨h1, h2⟩
    · exact Or.inr (Or.inl ⟨e, h1, h2, h3⟩)
    · exact Or.inr (Or.inr ⟨r, h1, h2, h3, h4⟩)

/-- `waitForShareStatus` returns once the deadline shows within the rounds
allowed. -/
theorem waitForShareStatus_returns (env : Env) (id status : String) (secs : Int)
    (j fuel : Nat) (log : List Call) (hj : j < fuel)
    (hd : secs ≤ env.elapsed (log.length + j)) :
    ∃ out, waitForShareStatus env id status secs fuel log = some out := by
  obtain ⟨out, hout⟩ := waitFor_share_returns env id status secs j fuel (none, log) hj hd
  obtain ⟨err0, cur0, log0⟩ := out
  exact ⟨((cur0, err0), log0), by simp [waitForShareStatus, hout]⟩

/-- Shape of a finished snapshot wait: some polls that found another status,
then the deadline, a failed fetch or a fetch with the status asked for. -/
theorem waitFor_snapshot_shape (env : Env) (id status : String) (secs : Int) :
    ∀ (fuel : Nat) (s s1 : Option Snapshot × List Call) (err : Option GoError),
    WaitFor (fun s => env.elapsed s.2.length) secs (snapshotStatusPredicate env id status)
      fuel s = some (err, s1) →
    ∃ others : List Snapshot, (∀ r ∈ others, r.Status ≠ status) ∧
      ((err = some .timeout ∧
          s1.2 = s.2 ++ others.map (fun r => Call.snapshotsGet id (.ok r)) ∧
          secs ≤ env.elapsed s1.2.length) ∨
       (∃ e, err = some e ∧ s1.1 = env.snapshotsGetPartial (s.2.length + others.length) id ∧
          s1.2 = s.2 ++ others.map (fun r => Call.snapshotsGet id (.ok r)) ++
            [Call.snapshotsGet id (.error e)]) ∨
       (∃ r, err = none ∧ s1.1 = some r ∧ r.Status = status ∧
          s1.2 = s.2 ++ others.map (fun r => Call.snapshotsGet id (.ok r)) ++
            [Call.snapshotsGet id (.ok r)])) := by
  intro fuel
  induction fuel with
  | zero => intro s s1 err h; simp [WaitFor] at h
  | succ n ih =>
    intro s s1 err h
    rw [WaitFor] at h
    by_cases hd : secs ≤ env.elapsed s.2.length
    · simp only [hd, if_true, Option.some.injEq, Prod.mk.injEq] at h
      obtain ⟨h1, h2⟩ := h
      subst h1 h2
      exact ⟨[], by simp, Or.inl ⟨rfl, by simp, hd⟩⟩
    · simp only [hd, if_false] at h
      cases hres : env.snapshotsGet s.2.length id with
      | error e =>
        simp only [snapshotStatusPredicate, snapshotsGet, hres, Option.some.injEq,
          Prod.mk.injEq] at h
        obtain ⟨h1, h2⟩ := h
        subst h1 h2
        exact ⟨[], by simp, Or.inr (Or.inl ⟨e, rfl, by simp, by simp⟩)⟩
      | ok r =>
        by_cases hst : r.Status = status
        · simp only [snapshotStatusPredicate, snapshotsGet, hres, hst, if_true, Option.some.injEq,
            Prod.mk.injEq] at h
          obtain ⟨h1, h2⟩ := h
          subst h1 h2
          exact ⟨[], by simp, Or.inr (Or.inr ⟨r, rfl, rfl, hst, by simp⟩)⟩
        · simp only [snapshotStatusPredicate, snapshotsGet, hres, hst, if_false] at h
          obtain ⟨others, hall, hcases⟩ := ih _ _ _ h
          refine ⟨r :: others, ?_, ?_⟩
          · intro x hx
            rcases List.mem_cons.mp hx with hx | hx
            · subst hx; exact hst
            · exact hall x hx
          · rcases hcases with ⟨h1, h2, h3⟩ | ⟨e, h1, h2, h3⟩ | ⟨r2, h1, h2, h3, h4⟩
            · exact Or.inl ⟨h1, by simp [h2], h3⟩
            · refine Or.inr (Or.inl ⟨e, h1, h2.trans ?_, by simp [h3]⟩)
              simp only [List.length_append, List.length_singleton, List.length_cons,
                List.length_nil]
              rw [show ∀ a b : Nat, a + 1 + b = a + (b + 1) by omega]
            · exact Or.inr (Or.inr ⟨r2, h1, h2, h3, by simp [h4]⟩)

/-- A snapshot wait returns as soon as the deadline shows within the rounds
allowed. -/
theorem waitFor_snapshot_returns (env : Env) (id status : String) (secs : Int) :
    ∀ (j fuel : Nat) (s : Option Snapshot × List Call), j < fuel →
    secs ≤ env.elapsed (s.2.length + j) →
    ∃ out, WaitFor (fun s => env.elapsed s.2.length) secs (snapshotStatusPredicate env id status)
      fuel s = some out := by
  intro j
  induction j with
  | zero =>
    intro fuel s hj hd
    obtain ⟨n, rfl⟩ : ∃ n, fuel = n + 1 := ⟨fuel - 1, by omega⟩
    rw [WaitFor]
    simp only [Nat.add_zero] at hd
    simp [hd]
  | succ k ih =>
    intro fuel s hj hd
    obtain ⟨n, rfl⟩ : ∃ n, fuel = n + 1 := ⟨fuel - 1, by omega⟩
    rw [WaitFor]
    by_cases hnow : secs ≤ env.elapsed s.2.length
    · simp [hnow]
    · simp only [hnow, if_false]
      cases hres : env.snapshotsGet s.2.length id with
      | error e => simp [snapshotStatusPredicate, snapshotsGet, hres]
      | ok r =>
        by_cases hst : r.Status = status
        · simp [snapshotStatusPredicate, snapshotsGet, hres, hst]
        · simp only [snapshotStatusPredicate, snapshotsGet, hres, hst, if_false]
          apply ih n _ (by omega)
          simp only [List.length_append, List.length_singleton]
          rw [show s.2.length + 1 + k = s.2.length + (k + 1) by omega]
          exact hd

/-- A snapshot wait that meets `k` polls with another status before the
deadline and then a failed fetch returns the error of that fetch. -/
theorem waitFor_snapshot_reaches_failure (env : Env) (id status : String) (secs : Int)
    (e : GoError) :
    ∀ (k fuel : Nat) (s : Option Snapshot × List Call), k < fuel →
    (∀ j, j < k → ¬ secs ≤ env.elapsed (s.2.length + j) ∧
      ∃ r, env.snapshotsGet (s.2.length + j) id = .ok r ∧ r.Status ≠ status) →
    ¬ secs ≤ env.elapsed (s.2.length + k) →
    env.snapshotsGet (s.2.length + k) id = .error e →
    WaitFor (fun s => env.elapsed s.2.length) secs (snapshotStatusPredicate env id status)
      fuel s =
      some (some e, (env.snapshotsGetPartial (s.2.length + k) id, s.2 ++
        (List.range k).map (fun j => Call.snapshotsGet id (env.snapshotsGet (s.2.length + j) id)) ++
        [Call.snapshotsGet id (.error e)])) := by
  intro k
  induction k with
  | zero =>
    intro fuel s hk _ hd hres
    obtain ⟨n, rfl⟩ : ∃ n, fuel = n + 1 := ⟨fuel - 1, by omega⟩
    simp only [Nat.add_zero] at hd hres
    rw [WaitFor]
    simp [hd, snapshotStatusPredicate, snapshotsGet, hres]
  | succ k ih =>
    intro fuel s hk hpre hd hres
    obtain ⟨n, rfl⟩ : ∃ n, fuel = n + 1 := ⟨fuel - 1, by omega⟩
    obtain ⟨hd0, r, hr, hst⟩ := hpre 0 (by omega)
    simp only [Nat.add_zero] at hd0 hr
    rw [WaitFor]
    simp only [hd0, if_false, snapshotStatusPredicate, snapshotsGet, hr, hst]
    have hlen : (s.2 ++ [Call.snapshotsGet id (Except.ok r)]).length = s.2.length + 1 := by simp
    rw [ih n (some r, s.2 ++ [Call.snapshotsGet id (.ok r)]) (by omega)]
    · simp only [hlen, List.range_succ_eq_map, List.map_cons, List.map_map, Nat.add_zero, hr]
      have hfun : ((fun j => Call.snapshotsGet id (env.snapshotsGet (s.2.length + j) id)) ∘ Nat.succ) =
          (fun j => Call.snapshotsGet id (env.snapshotsGet (s.2.length + 1 + j) id)) := by
        funext j
        simp only [Function.comp, Nat.succ_eq_add_one]
        rw [show s.2.length + (j + 1) = s.2.length + 1 + j by omega]
      rw [hfun]
      simp only [List.append_assoc, List.singleton_append, List.cons_append, List.nil_append]
      rw [Nat.add_assoc, Nat.add_comm 1 k]
    · intro j hj
      have := hpre (j + 1) (by omega)
      simp only [hlen]
      rw [show s.2.length + 1 + j = s.2.length + (j + 1) by omega]
      exact this
    · simp only [hlen]
      rw [show s.2.length + 1 + k = s.2.length + (k + 1) by omega]
      exact hd
    · simp only [hlen]
      rw [show s.2.length + 1 + k = s.2.length + (k + 1) by omega]
      exact hres

/-- Shape of a finished `waitForSnapshotStatus`. -/
theorem waitForSnapshotStatus_shape (env : Env) (id status : String) (secs : Int) (fuel : Nat)
    (log log1 : List Call) (cur : Option Snapshot) (err : Option GoError)
    (h : waitForSnapshotStatus env id status secs fuel log = some ((cur, err), log1)) :
    ∃ others : List Snapshot, (∀ r ∈ others, r.Status ≠ status) ∧
      ((err = some .timeout ∧
          log1 = log ++ others.map (fun r => Call.snapshotsGet id (.ok r))) ∨
       (∃ e, err = some e ∧ cur = env.snapshotsGetPartial (log.length + others.length) id ∧
          log1 = log ++ others.map (fun r => Call.snapshotsGet id (.ok r)) ++
            [Call.snapshotsGet id (.error e)]) ∨
       (∃ r, err = none ∧ cur = some r ∧ r.Status = status ∧
          log1 = log ++ others.map (fun r => Call.snapshotsGet id (.ok r)) ++
            [Call.snapshotsGet id (.ok r)])) := by
  unfold waitForSnapshotStatus at h
  cases hw : WaitFor (fun s => env.elapsed s.2.length) secs (snapshotStatusPredicate env id status)
      fuel (none, log) with
  | none => simp [hw] at h
  | some out =>
    obtain ⟨err0, cur0, log0⟩ := out
    simp only [hw, Option.some.injEq, Prod.mk.injEq] at h
    obtain ⟨⟨h1, h2⟩, h3⟩ := h
    subst h1 h2 h3
    obtain ⟨others, hall, hc⟩ := waitFor_snapshot_shape env id status secs fuel _ _ _ hw
    refine ⟨others, hall, ?_⟩
    rcases hc with ⟨h1, h2, _⟩ | ⟨e, h1, h2, h3⟩ | ⟨r, h1, h2, h3, h4⟩
    · exact Or.inl ⟨h1, h2⟩
    · exact Or.inr (Or.inl ⟨e, h1, h2, h3⟩)
    · exact Or.inr (Or.inr ⟨r, h1, h2, h3, h4⟩)

/-- `waitForSnapshotStatus` returns once the deadline shows within the rounds
allowed. -/
theorem waitForSnapshotStatus_returns (env : Env) (id status : String) (secs : Int)
    (j fuel : Nat) (log : List Call) (hj : j < fuel)
    (hd : secs ≤ env.elapsed (log.length + j)) :
    ∃ out, waitForSnapshotStatus env id status secs fuel log = some out := by
  obtain ⟨out, hout⟩ := waitFor_snapshot_returns env id status secs j fuel (none, log) hj hd
  obtain ⟨err0, cur0, log0⟩ := out
  exact ⟨((cur0, err0), log0), by simp [waitForSnapshotStatus, hout]⟩

theorem split_at_last {α : Type} (x b : α) :
    ∀ (front pre post : List α), x ∉ front → pre ++ x :: post = front ++ [b] →
      post = [] ∧ x = b := by
  intro front
  induction front with
  | nil =>
    intro pre post _ h
    cases pre with
    | nil => simp at h; exact ⟨h.2, h.1⟩
    | cons p ps => simp at h
  | cons a rest ih =>
    intro pre post hx h
    cases pre with
    | nil =>
      simp only [List.nil_append, List.cons_append, List.cons.injEq] at h
      exact absurd (List.mem_cons.mpr (Or.inl h.1)) hx
    | cons p ps =>
      simp only [List.cons_append, List.cons.injEq] at h
      exact ih ps post (fun hm => hx (List.mem_cons_of_mem _ hm)) h.2

/-- C3: a share wait and a snapshot wait that return the nil error have
performed, as their last fetch, a successful one whose resource has the status
asked for, and that resource is the one they return. -/
theorem status_waiter_match_sound :
    (∀ (env : Env) (id status : String) (secs : Int) (fuel : Nat) (log log1 : List Call)
        (cur : Option Share),
        waitForShareStatus env id status secs fuel log = some ((cur, none), log1) →
        ∃ calls r, log1 = log ++ calls ++ [Call.sharesGet id (.ok r)] ∧
          r.Status = status ∧ cur = some r) ∧
    (∀ (env : Env) (id status : String) (secs : Int) (fuel : Nat) (log log1 : List Call)
        (cur : Option Snapshot),
        waitForSnapshotStatus env id status secs fuel log = some ((cur, none), log1) →
        ∃ calls r, log1 = log ++ calls ++ [Call.snapshotsGet id (.ok r)] ∧
          r.Status = status ∧ cur = some r) := by
  constructor
  · intro env id status secs fuel log log1 cur h
    obtain ⟨others, _, hc⟩ := waitForShareStatus_shape env id status secs fuel log log1 cur none h
    rcases hc with ⟨h1, _⟩ | ⟨e, h1, _⟩ | ⟨r, _, h2, h3, h4⟩
    · simp at h1
    · simp at h1
    · exact ⟨_, r, h4, h3, h2⟩
  · intro env id status secs fuel log log1 cur h
    obtain ⟨others, _, hc⟩ :=
      waitForSnapshotStatus_shape env id status secs fuel log log1 cur none h
    rcases hc with ⟨h1, _⟩ | ⟨e, h1, _⟩ | ⟨r, _, h2, h3, h4⟩
    · simp at h1
    · simp at h1
    · exact ⟨_, r, h4, h3, h2⟩

theorem status_waiter_match_sound_witness :
    ∃ calls r, [Call.sharesGet "share-2" (sampleEnv.sharesGet 0 "share-2"),
        Call.sharesGet "share-2" (sampleEnv.sharesGet 1 "share-2")] =
        [] ++ calls ++ [Call.sharesGet "share-2" (.ok r)] ∧
      r.Status = "available" ∧
      (match sampleEnv.sharesGet 1 "share-2" with
        | .ok r1 => some r1
        | .error _ => none) = some r :=
  status_waiter_match_sound.1 sampleEnv "share-2" "available" 300 5 [] _ _ (by decide)

/-- In a finished `waitForShareStatus` a failed fetch is the last request and
its error is the result. -/
theorem waitForShareStatus_failure_last (env : Env) (id status : String) (secs : Int)
    (fuel : Nat) (log log1 : List Call) (cur : Option Share) (err : Option GoError)
    (h : waitForShareStatus env id status secs fuel log = some ((cur, err), log1))
    (pre post : List Call) (e : GoError)
    (hsplit : log1 = log ++ pre ++ Call.sharesGet id (.error e) :: post) :
    post = [] ∧ err = some e ∧ cur = env.sharesGetPartial (log.length + pre.length) id := by
  obtain ⟨others, _, hc⟩ := waitForShareStatus_shape env id status secs fuel log log1 cur err h
  have hnot : Call.sharesGet id (.error e) ∉
      others.map (fun r => Call.sharesGet id (.ok r)) := by
    simp
  rcases hc with ⟨_, h2⟩ | ⟨e1, h1, h2, h3⟩ | ⟨r, _, _, _, h4⟩
  · rw [hsplit, List.append_assoc] at h2
    have h5 := List.append_cancel_left h2
    have : Call.sharesGet id (.error e) ∈ others.map (fun r => Call.sharesGet id (.ok r)) := by
      rw [← h5]; simp
    exact absurd this hnot
  · rw [hsplit, List.append_assoc, List.append_assoc] at h3
    have h5 := List.append_cancel_left h3
    obtain ⟨h6, h7⟩ := split_at_last _ _ _ pre post hnot h5
    simp only [Call.sharesGet.injEq, Except.error.injEq, true_and] at h7
    subst h6
    have h8 := (List.append_inj' h5 rfl).1
    have h9 : pre.length = others.length := by rw [h8, List.length_map]
    exact ⟨rfl, by rw [h1, h7], by rw [h2, h9]⟩
  · rw [hsplit, List.append_assoc, List.append_assoc] at h4
    have h5 := List.append_cancel_left h4
    obtain ⟨_, h7⟩ := split_at_last _ _ _ pre post hnot h5
    simp at h7

/-- `waitForShareStatus` that meets `k` polls with another status before the
deadline and then a failed fetch returns the error of that fetch after exactly
those `k + 1` requests. -/
theorem waitForShareStatus_reaches_failure (env : Env) (id status : String) (secs : Int)
    (e : GoError) (k fuel : Nat) (log : List Call) (hk : k < fuel)
    (hpre : ∀ j, j < k → ¬ secs ≤ env.elapsed (log.length + j) ∧
      ∃ r, env.sharesGet (log.length + j) id = .ok r ∧ r.Status ≠ status)
    (hd : ¬ secs ≤ env.elapsed (log.length + k))
    (hres : env.sharesGet (log.length + k) id = .error e) :
    waitForShareStatus env id status secs fuel log =
      some ((env.sharesGetPartial (log.length + k) id, some e), log ++
        (List.range k).map (fun j => Call.sharesGet id (env.sharesGet (log.length + j) id)) ++
        [Call.sharesGet id (.error e)]) := by
  have h := waitFor_share_reaches_failure env id status secs e k fuel (none, log) hk hpre hd hres
  simp [waitForShareStatus, h]

/-- In a finished `waitForSnapshotStatus` a failed fetch is the last request and
its error is the result. -/
theorem waitForSnapshotStatus_failure_last (env : Env) (id status : String) (secs : Int)
    (fuel : Nat) (log log1 : List Call) (cur : Option Snapshot) (err : Option GoError)
    (h : waitForSnapshotStatus env id status secs fuel log = some ((cur, err), log1))
    (pre post : List Call) (e : GoError)
    (hsplit : log1 = log ++ pre ++ Call.snapshotsGet id (.error e) :: post) :
    post = [] ∧ err = some e ∧ cur = env.snapshotsGetPartial (log.length + pre.length) id := by
  obtain ⟨others, _, hc⟩ := waitForSnapshotStatus_shape env id status secs fuel log log1 cur err h
  have hnot : Call.snapshotsGet id (.error e) ∉
      others.map (fun r => Call.snapshotsGet id (.ok r)) := by
    simp
  rcases hc with ⟨_, h2⟩ | ⟨e1, h1, h2, h3⟩ | ⟨r, _, _, _, h4⟩
  · rw [hsplit, List.append_assoc] at h2
    have h5 := List.append_cancel_left h2
    have : Call.snapshotsGet id (.error e) ∈ others.map (fun r => Call.snapshotsGet id (.ok r)) := by
      rw [← h5]; simp
    exact absurd this hnot
  · rw [hsplit, List.append_assoc, List.append_assoc] at h3
    have h5 := List.append_cancel_left h3
    obtain ⟨h6, h7⟩ := split_at_last _ _ _ pre post hnot h5
    simp only [Call.snapshotsGet.injEq, Except.error.injEq, true_and] at h7
    subst h6
    have h8 := (List.append_inj' h5 rfl).1
    have h9 : pre.length = others.length := by rw [h8, List.length_map]
    exact ⟨rfl, by rw [h1, h7], by rw [h2, h9]⟩
  · rw [hsplit, List.append_assoc, List.append_assoc] at h4
    have h5 := List.append_cancel_left h4
    obtain ⟨_, h7⟩ := split_at_last _ _ _ pre post hnot h5
    simp at h7

/-- `waitForSnapshotStatus` that meets `k` polls with another status before the
deadline and then a failed fetch returns the error of that fetch after exactly
those `k + 1` requests. -/
theorem waitForSnapshotStatus_reaches_failure (env : Env) (id status : String) (secs : Int)
    (e : GoError) (k fuel : Nat) (log : List Call) (hk : k < fuel)
    (hpre : ∀ j, j < k → ¬ secs ≤ env.elapsed (log.length + j) ∧
      ∃ r, env.snapshotsGet (log.length + j) id = .ok r ∧ r.Status ≠ status)
    (hd : ¬ secs ≤ env.elapsed (log.length + k))
    (hres : env.snapshotsGet (log.length + k) id = .error e) :
    waitForSnapshotStatus env id status secs fuel log =
      some ((env.snapshotsGetPartial (log.length + k) id, some e), log ++
        (List.range k).map (fun j => Call.snapshotsGet id (env.snapshotsGet (log.length + j) id)) ++
        [Call.snapshotsGet id (.error e)]) := by
  have h := waitFor_snapshot_reaches_failure env id status secs e k fuel (none, log) hk hpre hd hres
  simp [waitForSnapshotStatus, h]

/-- C4: in a share wait and in a snapshot wait a fetch that fails is the last
request of the wait, and the wait returns the error of that fetch itself (not a
match, not a timeout), next to the resource that `Extract` handed back with
that error; whenever the polls met before the deadline are `k` fetches with
another status followed by a failing fetch, the wait does return, with that
error, after exactly those `k + 1` requests. -/
theorem status_waiter_fetch_error :
    (∀ (env : Env) (id status : String) (secs : Int) (fuel : Nat) (log log1 : List Call)
        (cur : Option Share) (err : Option GoError) (pre post : List Call) (e : GoError),
        waitForShareStatus env id status secs fuel log = some ((cur, err), log1) →
        log1 = log ++ pre ++ Call.sharesGet id (.error e) :: post →
        post = [] ∧ err = some e ∧ cur = env.sharesGetPartial (log.length + pre.length) id) ∧
    (∀ (env : Env) (id status : String) (secs : Int) (fuel : Nat) (log log1 : List Call)
        (cur : Option Snapshot) (err : Option GoError) (pre post : List Call) (e : GoError),
        waitForSnapshotStatus env id status secs fuel log = some ((cur, err), log1) →
        log1 = log ++ pre ++ Call.snapshotsGet id (.error e) :: post →
        post = [] ∧ err = some e ∧ cur = env.snapshotsGetPartial (log.length + pre.length) id) ∧
    (∀ (env : Env) (id status : String) (secs : Int) (e : GoError) (k fuel : Nat)
        (log : List Call), k < fuel →
        (∀ j, j < k → ¬ secs ≤ env.elapsed (log.length + j) ∧
          ∃ r, env.sharesGet (log.length + j) id = .ok r ∧ r.Status ≠ status) →
        ¬ secs ≤ env.elapsed (log.length + k) →
        env.sharesGet (log.length + k) id = .error e →
        waitForShareStatus env id status secs fuel log =
          some ((env.sharesGetPartial (log.length + k) id, some e), log ++
            (List.range k).map
              (fun j => Call.sharesGet id (env.sharesGet (log.length + j) id)) ++
            [Call.sharesGet id (.error e)])) ∧
    (∀ (env : Env) (id status : String) (secs : Int) (e : GoError) (k fuel : Nat)
        (log : List Call), k < fuel →
        (∀ j, j < k → ¬ secs ≤ env.elapsed (log.length + j) ∧
          ∃ r, env.snapshotsGet (log.length + j) id = .ok r ∧ r.Status ≠ status) →
        ¬ secs ≤ env.elapsed (log.length + k) →
        env.snapshotsGet (log.length + k) id = .error e →
        waitForSnapshotStatus env id status secs fuel log =
          some ((env.snapshotsGetPartial (log.length + k) id, some e), log ++
            (List.range k).map
              (fun j => Call.snapshotsGet id (env.snapshotsGet (log.length + j) id)) ++
            [Call.snapshotsGet id (.error e)])) := by
  refine ⟨?_, ?_, ?_, ?_⟩
  · intro env id status secs fuel log log1 cur err pre post e h hs
    exact waitForShareStatus_failure_last env id status secs fuel log log1 cur err h pre post e hs
  · intro env id status secs fuel log log1 cur err pre post e h hs
    exact waitForSnapshotStatus_failure_last env id status secs fuel log log1 cur err h
      pre post e hs
  · intro env id status secs e k fuel log hk hpre hd hres
    exact waitForShareStatus_reaches_failure env id status secs e k fuel log hk hpre hd hres
  · intro env id status secs e k fuel log hk hpre hd hres
    exact waitForSnapshotStatus_reaches_failure env id status secs e k fuel log hk hpre hd hres

theorem status_waiter_fetch_error_witness :
    waitForSnapshotStatus brokenEnv "snap-1" "available" 300 2 [] =
      some ((none, some (.backend "503")), [] ++
        (List.range 1).map
          (fun j => Call.snapshotsGet "snap-1" (brokenEnv.snapshotsGet (([] : List Call).length + j) "snap-1")) ++
        [Call.snapshotsGet "snap-1" (.error (.backend "503"))]) :=
  status_waiter_fetch_error.2.2.2 brokenEnv "snap-1" "available" 300 (.backend "503") 1 2 []
    (by decide)
    (by
      intro j hj
      obtain rfl : j = 0 := by omega
      exact ⟨by decide, _, rfl, by decide⟩)
    (by decide) rfl

/-! ## Theorems: `CreateVolumeFromSnapshot` -/

theorem chain_self (e : GoError) : e ∈ e.chain := by
  cases e <;> simp [GoError.chain]

/-- What `fmt.Errorf` builds around a non-nil operand of `%w` wraps it. -/
theorem fmtErrorf_wraps (format : String) (args : List String) (e : GoError) :
    (fmtErrorf format args (some e)).wraps e := by
  simp only [fmtErrorf, GoError.wraps]
  exact chain_self e

/-- What `fmt.Errorf` builds around a nil operand of `%w` wraps nothing. -/
theorem fmtErrorf_nil_wraps_nothing (format : String) (args : List String) (target : GoError) :
    ¬ (fmtErrorf format args none).wraps target := by
  simp [fmtErrorf, GoError.wraps]

/-- The decision tree of `CreateVolumeFromSnapshot`: which step failed, or all
six succeeded, with the result and the log in each case. -/
theorem createVolumeFromSnapshot_cases (env : Env) (client : ServiceClient)
    (snapshotID volumeType volumeAZ : String) (fuel : Nat) (log log1 : List Call)
    (id : String) (err : Option GoError)
    (h : CreateVolumeFromSnapshot env client snapshotID volumeType volumeAZ fuel log =
      some ((id, err), log1)) :
    (∃ cur e, waitForSnapshotStatus env snapshotID "available" 300 fuel log =
        some ((cur, some e), log1) ∧ id = "" ∧ ∃ e1, err = some e1 ∧ e1.wraps e) ∨
    (∃ snapshot l1, waitForSnapshotStatus env snapshotID "available" 300 fuel log =
        some ((some snapshot, none), l1) ∧
      ((∃ e, sharesGet env snapshot.ShareID l1 = (.error e, log1) ∧ id = "" ∧
          ∃ e1, err = some e1 ∧ e1.wraps e) ∨
       (∃ originShare l2, sharesGet env snapshot.ShareID l1 = (.ok originShare, l2) ∧
        ((∃ e, getShareAccessRule env client snapshot.ShareID l2 = (.error e, log1) ∧ id = "" ∧
            err = some e) ∨
         (∃ rule l3, getShareAccessRule env client snapshot.ShareID l2 = (.ok rule, l3) ∧
          ((∃ e, sharesCreate env
                { ShareProto := snapshot.ShareProto, Size := snapshot.Size,
                  AvailabilityZone := volumeAZ,
                  Name := snapshotID ++ ".backup." ++
                    toString (env.randUint64 log.length % 2 ^ 64),
                  SnapshotID := snapshotID, Metadata := originShare.Metadata } l3 =
                (.error e, log1) ∧ id = "" ∧ ∃ e1, err = some e1 ∧ e1.wraps e) ∨
           (∃ share l4, sharesCreate env
                { ShareProto := snapshot.ShareProto, Size := snapshot.Size,
                  AvailabilityZone := volumeAZ,
                  Name := snapshotID ++ ".backup." ++
                    toString (env.randUint64 log.length % 2 ^ 64),
                  SnapshotID := snapshotID, Metadata := originShare.Metadata } l3 =
                (.ok share, l4) ∧
            ((∃ cur e, waitForShareStatus env share.ID "available" 300 fuel l4 =
                  some ((cur, some e), log1) ∧ id = "" ∧ ∃ e1, err = some e1 ∧ e1.wraps e) ∨
             (∃ cur l5, waitForShareStatus env share.ID "available" 300 fuel l4 =
                  some ((cur, none), l5) ∧
              ((∃ e, grantAccess env share.ID
                    { AccessType := rule.AccessType, AccessTo := rule.AccessTo,
                      AccessLevel := rule.AccessLevel } l5 = (.error e, log1) ∧ id = "" ∧
                  ∃ e1, err = some e1 ∧ e1.wraps e) ∨
               (∃ access, grantAccess env share.ID
                    { AccessType := rule.AccessType, AccessTo := rule.AccessTo,
                      AccessLevel := rule.AccessLevel } l5 = (.ok access, log1) ∧
                  id = share.ID ∧ err = none))))))))))) := by
  unfold CreateVolumeFromSnapshot at h
  cases h1 : waitForSnapshotStatus env snapshotID "available" 300 fuel log with
  | none => simp [h1] at h
  | some out1 =>
    obtain ⟨⟨cur1, err1⟩, l1⟩ := out1
    cases err1 with
    | some e =>
      simp only [h1, Option.some.injEq, Prod.mk.injEq] at h
      obtain ⟨⟨h2, h3⟩, h4⟩ := h
      subst h4
      exact Or.inl ⟨cur1, e, rfl, h2.symm, _, h3.symm, fmtErrorf_wraps _ _ e⟩
    | none =>
      cases cur1 with
      | none => simp [h1] at h
      | some snapshot =>
        right
        refine ⟨snapshot, l1, rfl, ?_⟩
        simp only [h1] at h
        cases h2 : sharesGet env snapshot.ShareID l1 with
        | mk res2 l2 =>
          cases res2 with
          | error e =>
            simp only [h2, Option.some.injEq, Prod.mk.injEq] at h
            obtain ⟨⟨h3, h4⟩, h5⟩ := h
            subst h5
            exact Or.inl ⟨e, rfl, h3.symm, _, h4.symm, fmtErrorf_wraps _ _ e⟩
          | ok originShare =>
            right
            refine ⟨originShare, l2, rfl, ?_⟩
            simp only [h2] at h
            cases h3 : getShareAccessRule env client snapshot.ShareID l2 with
            | mk res3 l3 =>
              cases res3 with
              | error e =>
                simp only [h3, Option.some.injEq, Prod.mk.injEq] at h
                obtain ⟨⟨h4, h5⟩, h6⟩ := h
                subst h6
                exact Or.inl ⟨e, rfl, h4.symm, h5.symm⟩
              | ok rule =>
                right
                refine ⟨rule, l3, rfl, ?_⟩
                simp only [h3] at h
                cases h4 : sharesCreate env
                  { ShareProto := snapshot.ShareProto, Size := snapshot.Size,
                    AvailabilityZone := volumeAZ,
                    Name := snapshotID ++ ".backup." ++
                      toString (env.randUint64 log.length % 2 ^ 64),
                    SnapshotID := snapshotID, Metadata := originShare.Metadata } l3 with
                | mk res4 l4 =>
                  cases res4 with
                  | error e =>
                    simp only [h4, Option.some.injEq, Prod.mk.injEq] at h
                    obtain ⟨⟨h5, h6⟩, h7⟩ := h
                    subst h7
                    exact Or.inl ⟨e, rfl, h5.symm, _, h6.symm, fmtErrorf_wraps _ _ e⟩
                  | ok share =>
                    right
                    refine ⟨share, l4, rfl, ?_⟩
                    simp only [h4] at h
                    cases h5 : waitForShareStatus env share.ID "available" 300 fuel l4 with
                    | none => simp [h5] at h
                    | some out5 =>
                      obtain ⟨⟨cur5, err5⟩, l5⟩ := out5
                      cases err5 with
                      | some e =>
                        simp only [h5, Option.some.injEq, Prod.mk.injEq] at h
                        obtain ⟨⟨h6, h7⟩, h8⟩ := h
                        subst h8
                        exact Or.inl ⟨cur5, e, rfl, h6.symm, _, h7.symm, fmtErrorf_wraps _ _ e⟩
                      | none =>
                        right
                        refine ⟨cur5, l5, rfl, ?_⟩
                        simp only [h5] at h
                        cases h6 : grantAccess env share.ID
                          { AccessType := rule.AccessType, AccessTo := rule.AccessTo,
                            AccessLevel := rule.AccessLevel } l5 with
                        | mk res6 l6 =>
                          cases res6 with
                          | error e =>
                            simp only [h6, Option.some.injEq, Prod.mk.injEq] at h
                            obtain ⟨⟨h7, h8⟩, h9⟩ := h
                            subst h9
                            exact Or.inl ⟨e, rfl, h7.symm, _, h8.symm, fmtErrorf_wraps _ _ e⟩
                          | ok access =>
                            simp only [h6, Option.some.injEq, Prod.mk.injEq] at h
                            obtain ⟨⟨h7, h8⟩, h9⟩ := h
                            subst h9
                            exact Or.inr ⟨access, rfl, h7.symm, h8.symm⟩

/-- `getShareAccessRule` sends exactly one request, a listing of the access
rules of the share. -/
theorem getShareAccessRule_log (env : Env) (client : ServiceClient) (volumeID : String)
    (log : List Call) :
    ∃ c, (getShareAccessRule env client volumeID log).2 = log ++ [c] ∧
      ((∃ res, c = Call.listAccessRights volumeID res) ∨
       (∃ res, c = Call.shareAccessRulesList volumeID res)) := by
  unfold getShareAccessRule
  by_cases hmv : client.Microversion = minSupportedMicroversion
  · simp only [hmv, if_true, listAccessRights]
    cases hres : env.listAccessRights log.length volumeID with
    | error e => exact ⟨_, rfl, Or.inl ⟨_, rfl⟩⟩
    | ok rs =>
      cases rs with
      | nil => exact ⟨_, rfl, Or.inl ⟨_, rfl⟩⟩
      | cons r rest => exact ⟨_, rfl, Or.inl ⟨_, rfl⟩⟩
  · simp only [hmv, if_false, shareAccessRulesList]
    cases hres : env.shareAccessRulesList log.length volumeID with
    | error e => exact ⟨_, rfl, Or.inr ⟨_, rfl⟩⟩
    | ok rs =>
      cases rs with
      | nil => exact ⟨_, rfl, Or.inr ⟨_, rfl⟩⟩
      | cons r rest => exact ⟨_, rfl, Or.inr ⟨_, rfl⟩⟩

/-- A finished `waitForSnapshotStatus` has sent fetches of the snapshot only. -/
theorem waitForSnapshotStatus_log (env : Env) (id status : String) (secs : Int) (fuel : Nat)
    (log log1 : List Call) (cur : Option Snapshot) (err : Option GoError)
    (h : waitForSnapshotStatus env id status secs fuel log = some ((cur, err), log1)) :
    ∃ calls, log1 = log ++ calls ∧ ∀ c ∈ calls, ∃ res, c = Call.snapshotsGet id res := by
  obtain ⟨others, _, hc⟩ :=
    waitForSnapshotStatus_shape env id status secs fuel log log1 cur err h
  rcases hc with ⟨_, h2⟩ | ⟨e, _, _, h3⟩ | ⟨r, _, _, _, h4⟩
  · refine ⟨_, h2, ?_⟩
    intro c hc
    obtain ⟨r, _, hr⟩ := List.mem_map.mp hc
    exact ⟨_, hr.symm⟩
  · refine ⟨others.map (fun r => Call.snapshotsGet id (.ok r)) ++
      [Call.snapshotsGet id (.error e)], by rw [h3, List.append_assoc], ?_⟩
    intro c hc
    rcases List.mem_append.mp hc with hc | hc
    · obtain ⟨r, _, hr⟩ := List.mem_map.mp hc
      exact ⟨_, hr.symm⟩
    · exact ⟨_, List.mem_singleton.mp hc⟩
  · refine ⟨others.map (fun r => Call.snapshotsGet id (.ok r)) ++
      [Call.snapshotsGet id (.ok r)], by rw [h4, List.append_assoc], ?_⟩
    intro c hc
    rcases List.mem_append.mp hc with hc | hc
    · obtain ⟨r, _, hr⟩ := List.mem_map.mp hc
      exact ⟨_, hr.symm⟩
    · exact ⟨_, List.mem_singleton.mp hc⟩

/-- A `waitForSnapshotStatus` that returns the nil error returns a snapshot. -/
theorem waitForSnapshotStatus_matched (env : Env) (id status : String) (secs : Int)
    (fuel : Nat) (log log1 : List Call) (cur : Option Snapshot)
    (h : waitForSnapshotStatus env id status secs fuel log = some ((cur, none), log1)) :
    ∃ r, cur = some r ∧ r.Status = status := by
  obtain ⟨others, _, hc⟩ :=
    waitForSnapshotStatus_shape env id status secs fuel log log1 cur none h
  rcases hc with ⟨h1, _⟩ | ⟨e, h1, _⟩ | ⟨r, _, h2, h3, _⟩
  · simp at h1
  · simp at h1
  · exact ⟨r, h2, h3⟩

/-- A `waitForShareStatus` that returns the nil error returns a share. -/
theorem waitForShareStatus_matched (env : Env) (id status : String) (secs : Int)
    (fuel : Nat) (log log1 : List Call) (cur : Option Share)
    (h : waitForShareStatus env id status secs fuel log = some ((cur, none), log1)) :
    ∃ r, cur = some r ∧ r.Status = status := by
  obtain ⟨others, _, hc⟩ :=
    waitForShareStatus_shape env id status secs fuel log log1 cur none h
  rcases hc with ⟨h1, _⟩ | ⟨e, h1, _⟩ | ⟨r, _, h2, h3, _⟩
  · simp at h1
  · simp at h1
  · exact ⟨r, h2, h3⟩

/-- A finished `waitForShareStatus` has sent fetches of the share only. -/
theorem waitForShareStatus_log (env : Env) (id status : String) (secs : Int) (fuel : Nat)
    (log log1 : List Call) (cur : Option Share) (err : Option GoError)
    (h : waitForShareStatus env id status secs fuel log = some ((cur, err), log1)) :
    ∃ calls, log1 = log ++ calls ∧ ∀ c ∈ calls, ∃ res, c = Call.sharesGet id res := by
  obtain ⟨others, _, hc⟩ :=
    waitForShareStatus_shape env id status secs fuel log log1 cur err h
  rcases hc with ⟨_, h2⟩ | ⟨e, _, _, h3⟩ | ⟨r, _, _, _, h4⟩
  · refine ⟨_, h2, ?_⟩
    intro c hc
    obtain ⟨r, _, hr⟩ := List.mem_map.mp hc
    exact ⟨_, hr.symm⟩
  · refine ⟨others.map (fun r => Call.sharesGet id (.ok r)) ++
      [Call.sharesGet id (.error e)], by rw [h3, List.append_assoc], ?_⟩
    intro c hc
    rcases List.mem_append.mp hc with hc | hc
    · obtain ⟨r, _, hr⟩ := List.mem_map.mp hc
      exact ⟨_, hr.symm⟩
    · exact ⟨_, List.mem_singleton.mp hc⟩
  · refine ⟨others.map (fun r => Call.sharesGet id (.ok r)) ++
      [Call.sharesGet id (.ok r)], by rw [h4, List.append_assoc], ?_⟩
    intro c hc
    rcases List.mem_append.mp hc with hc | hc
    · obtain ⟨r, _, hr⟩ := List.mem_map.mp hc
      exact ⟨_, hr.symm⟩
    · exact ⟨_, List.mem_singleton.mp hc⟩

/-- In a finished `CreateVolumeFromSnapshot` the share is created only when
the first three steps have succeeded. -/
theorem createVolumeFromSnapshot_create_guard (env : Env) (client : ServiceClient)
    (snapshotID volumeType volumeAZ : String) (fuel : Nat) (log calls : List Call)
    (id : String) (err : Option GoError)
    (h : CreateVolumeFromSnapshot env client snapshotID volumeType volumeAZ fuel log =
      some ((id, err), log ++ calls))
    (opts : CreateOpts) (res : Except GoError Share)
    (hm : Call.sharesCreate opts res ∈ calls) :
    ∃ snapshot l1 originShare l2 rule l3,
      waitForSnapshotStatus env snapshotID "available" 300 fuel log =
        some ((some snapshot, none), l1) ∧
      sharesGet env snapshot.ShareID l1 = (.ok originShare, l2) ∧
      getShareAccessRule env client snapshot.ShareID l2 = (.ok rule, l3) := by
  rcases createVolumeFromSnapshot_cases env client snapshotID volumeType volumeAZ fuel log _
      id err h with
    ⟨cur, e, h1, _⟩ | ⟨snapshot, l1, h1, hrest⟩
  · exfalso
    obtain ⟨c1, hc1, hall⟩ := waitForSnapshotStatus_log _ _ _ _ _ _ _ _ _ h1
    have hc := List.append_cancel_left hc1
    subst hc
    obtain ⟨r, hr⟩ := hall _ hm
    simp at hr
  · obtain ⟨c1, hc1, hall⟩ := waitForSnapshotStatus_log _ _ _ _ _ _ _ _ _ h1
    rcases hrest with ⟨e, h2, _⟩ | ⟨originShare, l2, h2, hrest⟩
    · exfalso
      simp only [sharesGet, Prod.mk.injEq] at h2
      rw [hc1, List.append_assoc] at h2
      have hc := List.append_cancel_left h2.2
      subst hc
      rcases List.mem_append.mp hm with hm | hm
      · obtain ⟨r, hr⟩ := hall _ hm
        simp at hr
      · simp at hm
    · rcases hrest with ⟨e, h3, _⟩ | ⟨rule, l3, h3, _⟩
      · exfalso
        obtain ⟨c3, hc3, hkind⟩ := getShareAccessRule_log env client snapshot.ShareID l2
        rw [h3] at hc3
        simp only [sharesGet, Prod.mk.injEq] at h2
        rw [← h2.2, hc1, List.append_assoc, List.append_assoc] at hc3
        have hc := List.append_cancel_left hc3
        subst hc
        rcases List.mem_append.mp hm with hm | hm
        · obtain ⟨r, hr⟩ := hall _ hm
          simp at hr
        · simp only [List.cons_append, List.nil_append, List.mem_cons, List.mem_singleton,
            List.not_mem_nil, or_false] at hm
          rcases hm with hm | hm
          · simp at hm
          · rcases hkind with ⟨r, hr⟩ | ⟨r, hr⟩ <;> simp [hr] at hm
      · exact ⟨snapshot, l1, originShare, l2, rule, l3, h1, h2, h3⟩

/-- In a finished `CreateVolumeFromSnapshot` access is granted only when the
new share has been created and the wait for it has found it `available`. -/
theorem createVolumeFromSnapshot_grant_guard (env : Env) (client : ServiceClient)
    (snapshotID volumeType volumeAZ : String) (fuel : Nat) (log calls : List Call)
    (id : String) (err : Option GoError)
    (h : CreateVolumeFromSnapshot env client snapshotID volumeType volumeAZ fuel log =
      some ((id, err), log ++ calls))
    (sid : String) (o : GrantAccessOpts) (res : Except GoError AccessRight)
    (hm : Call.grantAccess sid o res ∈ calls) :
    ∃ share l4 r l5 opts, Call.sharesCreate opts (.ok share) ∈ calls ∧
      waitForShareStatus env share.ID "available" 300 fuel l4 = some ((some r, none), l5) ∧
      r.Status = "available" := by
  rcases createVolumeFromSnapshot_cases env client snapshotID volumeType volumeAZ fuel log _
      id err h with
    ⟨cur, e, h1, _⟩ | ⟨snapshot, l1, h1, hrest⟩
  · exfalso
    obtain ⟨c1, hc1, hall⟩ := waitForSnapshotStatus_log _ _ _ _ _ _ _ _ _ h1
    have hc := List.append_cancel_left hc1
    subst hc
    obtain ⟨r, hr⟩ := hall _ hm
    simp at hr
  · obtain ⟨c1, hc1, hall⟩ := waitForSnapshotStatus_log _ _ _ _ _ _ _ _ _ h1
    have hno1 : Call.grantAccess sid o res ∉ c1 := by
      intro hin
      obtain ⟨r, hr⟩ := hall _ hin
      simp at hr
    rcases hrest with ⟨e, h2, _⟩ | ⟨originShare, l2, h2, hrest⟩
    · exfalso
      simp only [sharesGet, Prod.mk.injEq] at h2
      rw [hc1, List.append_assoc] at h2
      have hc := List.append_cancel_left h2.2
      subst hc
      simp [hno1] at hm
    · simp only [sharesGet, Prod.mk.injEq] at h2
      obtain ⟨c3, hc3, hkind⟩ := getShareAccessRule_log env client snapshot.ShareID l2
      have hno3 : Call.grantAccess sid o res ≠ c3 := by
        rcases hkind with ⟨r, hr⟩ | ⟨r, hr⟩ <;> simp [hr]
      rcases hrest with ⟨e, h3, _⟩ | ⟨rule, l3, h3, hrest⟩
      · exfalso
        rw [h3] at hc3
        rw [← h2.2, hc1, List.append_assoc, List.append_assoc] at hc3
        have hc := List.append_cancel_left hc3
        subst hc
        simp [hno1, hno3] at hm
      · rw [h3] at hc3
        simp only at hc3
        rcases hrest with ⟨e, h4, _⟩ | ⟨share, l4, h4, hrest⟩
        · exfalso
          simp only [sharesCreate, Prod.mk.injEq] at h4
          rw [hc3, ← h2.2, hc1, List.append_assoc, List.append_assoc, List.append_assoc] at h4
          have hc := List.append_cancel_left h4.2
          subst hc
          simp [hno1, hno3] at hm
        · simp only [sharesCreate, Prod.mk.injEq] at h4
          have hl4 : l4 = log ++ (c1 ++ ([Call.sharesGet snapshot.ShareID (.ok originShare)] ++
              ([c3] ++ [Call.sharesCreate
                { ShareProto := snapshot.ShareProto, Size := snapshot.Size,
                  AvailabilityZone := volumeAZ,
                  Name := snapshotID ++ ".backup." ++
                    toString (env.randUint64 log.length % 2 ^ 64),
                  SnapshotID := snapshotID, Metadata := originShare.Metadata }
                (.ok share)]))) := by
            have h4b := h4.2
            rw [h4.1] at h4b
            have h2b := h2.2
            rw [h2.1] at h2b
            rw [← h4b, hc3, ← h2b, hc1]
            simp
          rcases hrest with ⟨cur, e, h5, _⟩ | ⟨cur, l5, h5, hrest⟩
          · exfalso
            obtain ⟨c5, hc5, hall5⟩ := waitForShareStatus_log _ _ _ _ _ _ _ _ _ h5
            rw [hl4, List.append_assoc] at hc5
            have hc := List.append_cancel_left hc5
            subst hc
            have hno5 : Call.grantAccess sid o res ∉ c5 := by
              intro hin
              obtain ⟨r, hr⟩ := hall5 _ hin
              simp at hr
            simp [hno1, hno3, hno5] at hm
          · obtain ⟨r, hr1, hr2⟩ := waitForShareStatus_matched _ _ _ _ _ _ _ _ h5
            subst hr1
            refine ⟨share, l4, r, l5,
              { ShareProto := snapshot.ShareProto, Size := snapshot.Size,
                AvailabilityZone := volumeAZ,
                Name := snapshotID ++ ".backup." ++
                  toString (env.randUint64 log.length % 2 ^ 64),
                SnapshotID := snapshotID, Metadata := originShare.Metadata }, ?_, h5, hr2⟩
            obtain ⟨c5, hc5, _⟩ := waitForShareStatus_log _ _ _ _ _ _ _ _ _ h5
            have hlog : ∃ rest, log ++ calls = l4 ++ rest := by
              rcases hrest with ⟨e, h6, _⟩ | ⟨access, h6, _⟩
              · simp only [grantAccess, Prod.mk.injEq] at h6
                exact ⟨c5 ++ [_], by rw [← h6.2, hc5, List.append_assoc]⟩
              · simp only [grantAccess, Prod.mk.injEq] at h6
                exact ⟨c5 ++ [_], by rw [← h6.2, hc5, List.append_assoc]⟩
            obtain ⟨rest, hrest2⟩ := hlog
            rw [hl4, List.append_assoc] at hrest2
            have hc := List.append_cancel_left hrest2
            rw [hc]
            simp

/-- `CreateVolumeFromSnapshot` returns when, from every point of the run, the
clock shows the deadline of 300 seconds within `fuel` requests. -/
theorem createVolumeFromSnapshot_returns (env : Env) (client : ServiceClient)
    (snapshotID volumeType volumeAZ : String) (fuel : Nat) (log : List Call)
    (hclock : ∀ k, ∃ j, j < fuel ∧ (300 : Int) ≤ env.elapsed (k + j)) :
    ∃ out, CreateVolumeFromSnapshot env client snapshotID volumeType volumeAZ fuel log =
      some out := by
  unfold CreateVolumeFromSnapshot
  obtain ⟨j1, hj1, hd1⟩ := hclock log.length
  obtain ⟨out1, h1⟩ := waitForSnapshotStatus_returns env snapshotID "available" 300 j1 fuel log
    hj1 hd1
  obtain ⟨⟨cur1, err1⟩, l1⟩ := out1
  cases err1 with
  | some e => simp [h1]
  | none =>
    obtain ⟨snapshot, hs, _⟩ := waitForSnapshotStatus_matched _ _ _ _ _ _ _ _ h1
    subst hs
    simp only [h1]
    cases h2 : sharesGet env snapshot.ShareID l1 with
    | mk res2 l2 =>
      cases res2 with
      | error e => simp
      | ok originShare =>
        simp only
        cases h3 : getShareAccessRule env client snapshot.ShareID l2 with
        | mk res3 l3 =>
          cases res3 with
          | error e => simp
          | ok rule =>
            simp only
            cases h4 : sharesCreate env
              { ShareProto := snapshot.ShareProto, Size := snapshot.Size,
                AvailabilityZone := volumeAZ,
                Name := snapshotID ++ ".backup." ++
                  toString (env.randUint64 log.length % 2 ^ 64),
                SnapshotID := snapshotID, Metadata := originShare.Metadata } l3 with
            | mk res4 l4 =>
              cases res4 with
              | error e => simp
              | ok share =>
                simp only
                obtain ⟨j5, hj5, hd5⟩ := hclock l4.length
                obtain ⟨out5, h5⟩ :=
                  waitForShareStatus_returns env share.ID "available" 300 j5 fuel l4 hj5 hd5
                obtain ⟨⟨cur5, err5⟩, l5⟩ := out5
                cases err5 with
                | some e => simp [h5]
                | none =>
                  simp only [h5]
                  cases h6 : grantAccess env share.ID
                    { AccessType := rule.AccessType, AccessTo := rule.AccessTo,
                      AccessLevel := rule.AccessLevel } l5 with
                  | mk res6 l6 =>
                    cases res6 with
                    | error e => simp
                    | ok access => simp

/-- `CreateVolumeFromSnapshot` returns the nil error exactly when all six
steps succeed, and then the identifier is that of the new share. -/
theorem createVolumeFromSnapshot_success_iff (env : Env) (client : ServiceClient)
    (snapshotID volumeType volumeAZ : String) (fuel : Nat) (log log1 : List Call)
    (id : String) (err : Option GoError)
    (h : CreateVolumeFromSnapshot env client snapshotID volumeType volumeAZ fuel log =
      some ((id, err), log1)) :
    err = none ↔
      (∃ snapshot l1 originShare l2 rule l3 share l4 cur l5 access,
        waitForSnapshotStatus env snapshotID "available" 300 fuel log =
          some ((some snapshot, none), l1) ∧
        sharesGet env snapshot.ShareID l1 = (.ok originShare, l2) ∧
        getShareAccessRule env client snapshot.ShareID l2 = (.ok rule, l3) ∧
        sharesCreate env
          { ShareProto := snapshot.ShareProto, Size := snapshot.Size,
            AvailabilityZone := volumeAZ,
            Name := snapshotID ++ ".backup." ++ toString (env.randUint64 log.length % 2 ^ 64),
            SnapshotID := snapshotID, Metadata := originShare.Metadata } l3 = (.ok share, l4) ∧
        waitForShareStatus env share.ID "available" 300 fuel l4 = some ((cur, none), l5) ∧
        grantAccess env share.ID
          { AccessType := rule.AccessType, AccessTo := rule.AccessTo,
            AccessLevel := rule.AccessLevel } l5 = (.ok access, log1) ∧
        id = share.ID) := by
  constructor
  · intro hnil
    subst hnil
    rcases createVolumeFromSnapshot_cases env client snapshotID volumeType volumeAZ fuel log
        log1 id none h with
      ⟨_, _, _, _, e1, he, _⟩ | ⟨snapshot, l1, h1, hrest⟩
    · simp at he
    rcases hrest with ⟨_, _, _, e1, he, _⟩ | ⟨originShare, l2, h2, hrest⟩
    · simp at he
    rcases hrest with ⟨_, _, _, he⟩ | ⟨rule, l3, h3, hrest⟩
    · simp at he
    rcases hrest with ⟨_, _, _, e1, he, _⟩ | ⟨share, l4, h4, hrest⟩
    · simp at he
    rcases hrest with ⟨_, _, _, _, e1, he, _⟩ | ⟨cur, l5, h5, hrest⟩
    · simp at he
    rcases hrest with ⟨_, _, _, e1, he, _⟩ | ⟨access, h6, hid, _⟩
    · simp at he
    exact ⟨snapshot, l1, originShare, l2, rule, l3, share, l4, cur, l5, access,
      h1, h2, h3, h4, h5, h6, hid⟩
  · rintro ⟨snapshot, l1, originShare, l2, rule, l3, share, l4, cur, l5, access,
      h1, h2, h3, h4, h5, h6, _⟩
    simp only [CreateVolumeFromSnapshot, h1, h2, h3, h4, h5, h6, Option.some.injEq,
      Prod.mk.injEq] at h
    exact h.1.2.symm

/-- C9, where the code departs from it: when the service lists no access rule
for the origin share, the access-rule step fails with an error that
`getShareAccessRule` built without an operand for `%w`, and
`CreateVolumeFromSnapshot` returns that very error with the empty string.  The
error returned is the error of the step, not an error that wraps it, and it
wraps nothing at all. -/
theorem access_rule_error_returned_unwrapped :
    ∃ snapshot l1 originShare l2 log1,
      waitForSnapshotStatus emptyRulesEnv "snap-1" "available" 300 5 [] =
        some ((some snapshot, none), l1) ∧
      sharesGet emptyRulesEnv snapshot.ShareID l1 = (.ok originShare, l2) ∧
      getShareAccessRule emptyRulesEnv sampleClient snapshot.ShareID l2 =
        (.error (.errorf "failed to find volume %v access rules from manila: %w" ["share-1"]),
          log1) ∧
      CreateVolumeFromSnapshot emptyRulesEnv sampleClient "snap-1" "" "az-2" 5 [] =
        some (("", some
          (.errorf "failed to find volume %v access rules from manila: %w" ["share-1"])),
          log1) ∧
      ¬ (GoError.errorf "failed to find volume %v access rules from manila: %w"
          ["share-1"]).wraps
        (.errorf "failed to find volume %v access rules from manila: %w" ["share-1"]) ∧
      ∀ target, ¬ (GoError.errorf "failed to find volume %v access rules from manila: %w"
          ["share-1"]).wraps target :=
  ⟨{ ID := "snap-1", ShareID := "share-1", ShareProto := "NFS", Size := 1,
     Status := "available" },
    [.snapshotsGet "snap-1"
       (.ok { ID := "snap-1", ShareID := "share-1", ShareProto := "NFS", Size := 1,
              Status := "creating" }),
     .snapshotsGet "snap-1"
       (.ok { ID := "snap-1", ShareID := "share-1", ShareProto := "NFS", Size := 1,
              Status := "available" })],
    { ID := "share-1", Status := "available", VolumeType := "default",
      Metadata := [("owner", "velero")] },
    [.snapshotsGet "snap-1"
       (.ok { ID := "snap-1", ShareID := "share-1", ShareProto := "NFS", Size := 1,
              Status := "creating" }),
     .snapshotsGet "snap-1"
       (.ok { ID := "snap-1", ShareID := "share-1", ShareProto := "NFS", Size := 1,
              Status := "available" }),
     .sharesGet "share-1"
       (.ok { ID := "share-1", Status := "available", VolumeType := "default",
              Metadata := [("owner", "velero")] })],
    [.snapshotsGet "snap-1"
       (.ok { ID := "snap-1", ShareID := "share-1", ShareProto := "NFS", Size := 1,
              Status := "creating" }),
     .snapshotsGet "snap-1"
       (.ok { ID := "snap-1", ShareID := "share-1", ShareProto := "NFS", Size := 1,
              Status := "available" }),
     .sharesGet "share-1"
       (.ok { ID := "share-1", Status := "available", VolumeType := "default",
              Metadata := [("owner", "velero")] }),
     .shareAccessRulesList "share-1" (.ok [])],
    by decide, by decide, by decide, by decide, by decide, fun _ h => h⟩

/-- C9, amended: `CreateVolumeFromSnapshot` runs six steps in order: wait for the
snapshot, fetch the origin share, fetch its access rule, create the share, wait
for the share, grant access.  A finished run either failed at one step, the
earlier ones having succeeded, and then it returns the empty string with a
non-nil error and its log ends with that step; or all six succeeded and it
returns the identifier of the new share with the nil error.  The error returned
wraps the error of the failed step, except at the access-rule step, whose error
is returned as it is, without wrapping.  The nil error is returned exactly when
all six succeed.  The share is created only when the first three steps have
succeeded, access is granted only when the wait has found the new share
`available`, and the run does finish whenever the clock reaches the deadline
within `fuel` requests. -/
theorem createVolumeFromSnapshot_steps (env : Env) (client : ServiceClient)
    (snapshotID volumeType volumeAZ : String) (fuel : Nat) (log : List Call) :
    (∀ (log1 : List Call) (id : String) (err : Option GoError),
      CreateVolumeFromSnapshot env client snapshotID volumeType volumeAZ fuel log =
        some ((id, err), log1) →
      ((∃ cur e, waitForSnapshotStatus env snapshotID "available" 300 fuel log =
        some ((cur, some e), log1) ∧ id = "" ∧ ∃ e1, err = some e1 ∧ e1.wraps e) ∨
    (∃ snapshot l1, waitForSnapshotStatus env snapshotID "available" 300 fuel log =
        some ((some snapshot, none), l1) ∧
      ((∃ e, sharesGet env snapshot.ShareID l1 = (.error e, log1) ∧ id = "" ∧
          ∃ e1, err = some e1 ∧ e1.wraps e) ∨
       (∃ originShare l2, sharesGet env snapshot.ShareID l1 = (.ok originShare, l2) ∧
        ((∃ e, getShareAccessRule env client snapshot.ShareID l2 = (.error e, log1) ∧ id = "" ∧
            err = some e) ∨
         (∃ rule l3, getShareAccessRule env client snapshot.ShareID l2 = (.ok rule, l3) ∧
          ((∃ e, sharesCreate env
                { ShareProto := snapshot.ShareProto, Size := snapshot.Size,
                  AvailabilityZone := volumeAZ,
                  Name := snapshotID ++ ".backup." ++
                    toString (env.randUint64 log.length % 2 ^ 64),
                  SnapshotID := snapshotID, Metadata := originShare.Metadata } l3 =
                (.error e, log1) ∧ id = "" ∧ ∃ e1, err = some e1 ∧ e1.wraps e) ∨
           (∃ share l4, sharesCreate env
                { ShareProto := snapshot.ShareProto, Size := snapshot.Size,
                  AvailabilityZone := volumeAZ,
                  Name := snapshotID ++ ".backup." ++
                    toString (env.randUint64 log.length % 2 ^ 64),
                  SnapshotID := snapshotID, Metadata := originShare.Metadata } l3 =
                (.ok share, l4) ∧
            ((∃ cur e, waitForShareStatus env share.ID "available" 300 fuel l4 =
                  some ((cur, some e), log1) ∧ id = "" ∧ ∃ e1, err = some e1 ∧ e1.wraps e) ∨
             (∃ cur l5, waitForShareStatus env share.ID "available" 300 fuel l4 =
                  some ((cur, none), l5) ∧
              ((∃ e, grantAccess env share.ID
                    { AccessType := rule.AccessType, AccessTo := rule.AccessTo,
                      AccessLevel := rule.AccessLevel } l5 = (.error e, log1) ∧ id = "" ∧
                  ∃ e1, err = some e1 ∧ e1.wraps e) ∨
               (∃ access, grantAccess env share.ID
                    { AccessType := rule.AccessType, AccessTo := rule.AccessTo,
                      AccessLevel := rule.AccessLevel } l5 = (.ok access, log1) ∧
                  id = share.ID ∧ err = none)))))))))))) ∧
      (err = none ↔
      (∃ snapshot l1 originShare l2 rule l3 share l4 cur l5 access,
        waitForSnapshotStatus env snapshotID "available" 300 fuel log =
          some ((some snapshot, none), l1) ∧
        sharesGet env snapshot.ShareID l1 = (.ok originShare, l2) ∧
        getShareAccessRule env client snapshot.ShareID l2 = (.ok rule, l3) ∧
        sharesCreate env
          { ShareProto := snapshot.ShareProto, Size := snapshot.Size,
            AvailabilityZone := volumeAZ,
            Name := snapshotID ++ ".backup." ++ toString (env.randUint64 log.length % 2 ^ 64),
            SnapshotID := snapshotID, Metadata := originShare.Metadata } l3 = (.ok share, l4) ∧
        waitForShareStatus env share.ID "available" 300 fuel l4 = some ((cur, none), l5) ∧
        grantAccess env share.ID
          { AccessType := rule.AccessType, AccessTo := rule.AccessTo,
            AccessLevel := rule.AccessLevel } l5 = (.ok access, log1) ∧
        id = share.ID))) ∧
    (∀ (calls : List Call) (id : String) (err : Option GoError),
      CreateVolumeFromSnapshot env client snapshotID volumeType volumeAZ fuel log =
        some ((id, err), log ++ calls) →
      (∀ opts res, Call.sharesCreate opts res ∈ calls →
        ∃ snapshot l1 originShare l2 rule l3,
          waitForSnapshotStatus env snapshotID "available" 300 fuel log =
            some ((some snapshot, none), l1) ∧
          sharesGet env snapshot.ShareID l1 = (.ok originShare, l2) ∧
          getShareAccessRule env client snapshot.ShareID l2 = (.ok rule, l3)) ∧
      (∀ sid o res, Call.grantAccess sid o res ∈ calls →
        ∃ share l4 r l5 opts, Call.sharesCreate opts (.ok share) ∈ calls ∧
          waitForShareStatus env share.ID "available" 300 fuel l4 =
            some ((some r, none), l5) ∧
          r.Status = "available")) ∧
    ((∀ k, ∃ j, j < fuel ∧ (300 : Int) ≤ env.elapsed (k + j)) →
      ∃ out, CreateVolumeFromSnapshot env client snapshotID volumeType volumeAZ fuel log =
        some out) := by
  refine ⟨?_, ?_, ?_⟩
  · intro log1 id err h
    exact ⟨createVolumeFromSnapshot_cases env client snapshotID volumeType volumeAZ fuel log
        log1 id err h,
      createVolumeFromSnapshot_success_iff env client snapshotID volumeType volumeAZ fuel log
        log1 id err h⟩
  · intro calls id err h
    exact ⟨fun opts res hm => createVolumeFromSnapshot_create_guard env client snapshotID
        volumeType volumeAZ fuel log calls id err h opts res hm,
      fun sid o res hm => createVolumeFromSnapshot_grant_guard env client snapshotID
        volumeType volumeAZ fuel log calls id err h sid o res hm⟩
  · exact createVolumeFromSnapshot_returns env client snapshotID volumeType volumeAZ fuel log

theorem createVolumeFromSnapshot_steps_witness :
    ∃ share l4 r l5 opts, Call.sharesCreate opts (.ok share) ∈ sampleCalls ∧
      waitForShareStatus sampleEnv share.ID "available" 300 5 l4 = some ((some r, none), l5) ∧
      r.Status = "available" :=
  ((createVolumeFromSnapshot_steps sampleEnv sampleClient "snap-1" "" "az-2" 5 []).2.1
    sampleCalls "share-2" none (by decide)).2 "share-2"
    { AccessType := "ip", AccessTo := "10.0.0.0/8", AccessLevel := "rw" }
    (.ok { ID := "rule-2", ShareID := "share-2", AccessKey := "", AccessLevel := "rw",
           AccessTo := "10.0.0.0/8", AccessType := "ip", State := "new" })
    (by decide)

/-! ## Theorems: `Init` -/

theorem compare_true_no_error (operator want have_ : String)
    (h : (CompareMicroversions operator want have_).1 = true) :
    CompareMicroversions operator want have_ = (true, none) := by
  unfold CompareMicroversions at h ⊢
  split
  · rename_i hop
    simp [hop] at h
  · rename_i hop
    simp only [hop, if_false] at h
    cases hw : microversionToInt want with
    | error e => simp [hw] at h
    | ok w =>
      cases hh : microversionToInt have_ with
      | error e => simp [hw, hh] at h
      | ok v =>
        simp only [hw, hh] at h ⊢
        by_cases hlte : operator = "lte"
        · simp only [hlte, if_true] at h ⊢
          by_cases h1 : w.1 < v.1
          · simp [h1]
          · simp only [h1, if_false] at h ⊢
            rw [h]
        · simp only [hlte, if_false] at h ⊢
          by_cases h1 : w.1 > v.1
          · simp [h1]
          · simp only [h1, if_false] at h ⊢
            rw [h]

/-- The result of an `Init` that authenticates and gets a new client. -/
theorem init_new_client (b : FSStore) (host : Host) (env : Env)
    (config : List (String × String)) (log : List Call) (c : ServiceClient)
    (hauth : host.authenticate = none)
    (hnew : b.client = none ∨ configGet config "cloud" ≠ "")
    (hclient : host.newSharedFileSystemV2
      (match host.lookupEnv "OS_REGION_NAME" with
        | some r => r
        | none =>
          if configGet config "region" ≠ "" then configGet config "region" else "RegionOne") =
      (some c, none)) :
    b.Init host env config log =
      some (none,
        { b with
          config := config
          client := some { c with
            Microversion :=
              match env.apiversionsGet log.length "v2" with
              | .ok mv =>
                if CompareMicroversions "lte" getAccessRulesMicroversion mv = (true, none)
                then getAccessRulesMicroversion else minSupportedMicroversion
              | .error _ => minSupportedMicroversion } },
        log ++ [Call.apiversionsGet "v2" (env.apiversionsGet log.length "v2")]) := by
  unfold FSStore.Init
  simp only [hauth]
  rw [if_pos hnew]
  simp only [hclient, getManilaMicroversion, apiversionsGet]
  cases hq : env.apiversionsGet log.length "v2" with
  | error e => rfl
  | ok mv =>
    simp only
    by_cases hok : (CompareMicroversions "lte" getAccessRulesMicroversion mv).1 = true
    · have h2 := compare_true_no_error _ _ _ hok
      simp [hok, h2]
    · have h2 : CompareMicroversions "lte" getAccessRulesMicroversion mv ≠ (true, none) := by
        intro h3
        rw [h3] at hok
        exact hok rfl
      simp [hok, h2]

/-- C10: when `Init` authenticates and establishes a new client, it returns the
nil error, and the microversion of the client afterwards is `"2.45"` exactly
when the version query succeeds with a version `mv` for which
`CompareMicroversions "lte" "2.45" mv` is true, and `"2.7"` in every other case
(failed query, lower version, comparison error).  For a version `major.minor`
of digits that fit in an `int` this is the case exactly when `(major, minor)`
is at least `(2, 45)`. -/
theorem init_microversion (b : FSStore) (host : Host) (env : Env)
    (config : List (String × String)) (log : List Call) (c : ServiceClient)
    (hauth : host.authenticate = none)
    (hnew : b.client = none ∨ configGet config "cloud" ≠ "")
    (hclient : host.newSharedFileSystemV2
      (match host.lookupEnv "OS_REGION_NAME" with
        | some r => r
        | none =>
          if configGet config "region" ≠ "" then configGet config "region" else "RegionOne") =
      (some c, none)) :
    ∃ b1 c1, b.Init host env config log =
        some (none, b1, log ++ [Call.apiversionsGet "v2" (env.apiversionsGet log.length "v2")]) ∧
      b1.client = some c1 ∧
      (c1.Microversion = "2.45" ↔
        ∃ mv, env.apiversionsGet log.length "v2" = .ok mv ∧
          CompareMicroversions "lte" "2.45" mv = (true, none)) ∧
      (c1.Microversion ≠ "2.45" → c1.Microversion = "2.7") ∧
      (∀ major minor : List Char, IsIntLiteral major → IsIntLiteral minor →
        env.apiversionsGet log.length "v2" = .ok (String.mk (major ++ '.' :: minor)) →
        (c1.Microversion = "2.45" ↔
          (2 < decimalValue major ∨ (decimalValue major = 2 ∧ 45 ≤ decimalValue minor)))) := by
  have hne : ¬ ("2.7" = "2.45") := by decide
  have hg : getAccessRulesMicroversion = "2.45" := rfl
  have hm : minSupportedMicroversion = "2.7" := rfl
  have hinit := init_new_client b host env config log c hauth hnew hclient
  simp only [hg, hm] at hinit
  refine ⟨_, _, hinit, rfl, ?_, ?_, ?_⟩
  · cases hq : env.apiversionsGet log.length "v2" with
    | error e => simp [hne]
    | ok mv =>
      by_cases hcmp : CompareMicroversions "lte" "2.45" mv = (true, none)
      · simp only [hcmp, if_true, true_iff]
        exact ⟨mv, rfl, hcmp⟩
      · simp only [hcmp, if_false, hne, false_iff]
        rintro ⟨mv2, h1, h2⟩
        simp only [Except.ok.injEq] at h1
        subst h1
        exact hcmp h2
  · cases hq : env.apiversionsGet log.length "v2" with
    | error e => simp
    | ok mv =>
      by_cases hcmp : CompareMicroversions "lte" "2.45" mv = (true, none)
      · simp [hcmp]
      · simp [hcmp]
  · intro major minor hmaj hmin hq
    have h245 : IsIntLiteral ['2'] ∧ IsIntLiteral ['4', '5'] := by decide
    have hcmp := compare_dotted "lte" ['2'] ['4', '5'] major minor h245.1 h245.2 hmaj hmin
      (Or.inl rfl)
    have hv2 : decimalValue ['2'] = 2 := by decide
    have hv45 : decimalValue ['4', '5'] = 45 := by decide
    have hstr : String.mk (['2'] ++ '.' :: ['4', '5']) = "2.45" := by decide
    rw [hstr, hv2, hv45] at hcmp
    simp only [if_true] at hcmp
    simp only [hq]
    by_cases h1 : ((2 : Nat) : Int) < decimalValue major
    · have h1n : 2 < decimalValue major := by exact_mod_cast h1
      rw [if_pos h1] at hcmp
      simp [hcmp, h1n]
    · have h1n : ¬ 2 < decimalValue major := by exact_mod_cast h1
      rw [if_neg h1] at hcmp
      by_cases h2 : decimalValue major = 2 ∧ 45 ≤ decimalValue minor
      · have hb : (decide (((2 : Nat) : Int) ≤ decimalValue major) &&
            decide (((45 : Nat) : Int) ≤ decimalValue minor)) = true := by
          simp only [Bool.and_eq_true, decide_eq_true_eq, Nat.cast_le]
          exact ⟨by omega, h2.2⟩
        rw [hb] at hcmp
        simp [hcmp, h2]
      · have hb : (decide (((2 : Nat) : Int) ≤ decimalValue major) &&
            decide (((45 : Nat) : Int) ≤ decimalValue minor)) = false := by
          rw [Bool.eq_false_iff]
          simp only [ne_eq, Bool.and_eq_true, decide_eq_true_eq, Nat.cast_le]
          rintro ⟨h3, h4⟩
          exact h2 ⟨by omega, h4⟩
        rw [hb] at hcmp
        simp only [hcmp, Prod.mk.injEq, Bool.false_eq_true, false_and, if_false,
          hne, false_iff]
        rintro (h5 | h5)
        · exact h1n h5
        · exact h2 h5

theorem init_microversion_witness :
    ∃ b1 c1, newStore.Init sampleHost sampleEnv [("region", "eu-1")] [] =
        some (none, b1, [] ++ [Call.apiversionsGet "v2" (sampleEnv.apiversionsGet 0 "v2")]) ∧
      b1.client = some c1 ∧
      (c1.Microversion = "2.45" ↔
        ∃ mv, sampleEnv.apiversionsGet 0 "v2" = .ok mv ∧
          CompareMicroversions "lte" "2.45" mv = (true, none)) ∧
      (c1.Microversion ≠ "2.45" → c1.Microversion = "2.7") ∧
      (∀ major minor : List Char, IsIntLiteral major → IsIntLiteral minor →
        sampleEnv.apiversionsGet 0 "v2" = .ok (String.mk (major ++ '.' :: minor)) →
        (c1.Microversion = "2.45" ↔
          (2 < decimalValue major ∨ (decimalValue major = 2 ∧ 45 ≤ decimalValue minor)))) :=
  init_microversion newStore sampleHost sampleEnv [("region", "eu-1")] []
    { Endpoint := "https://manila.eu-1", Microversion := "" }
    rfl (Or.inl rfl) (by decide)

end Manila

/-! ## Theorems: the clone flows of the driver -/

namespace Driver

/-- The log entries of creations that returned the given identifiers. -/
theorem createSnapshots_shape (create : Nat → String → String → Except GoError String)
    (mk : String → String → Except GoError String → Op) (nSnap : Nat) (snapID : String) :
    ∀ (fuel i : Nat) (snapIDs : List String) (log : List Op)
      (out : Option (List String) × List Op),
    createSnapshots create mk nSnap snapID fuel i snapIDs log = some out →
    ∃ names newIDs : List String, names.length = newIDs.length ∧
      ((out.1 = some (snapIDs ++ newIDs) ∧
        out.2 = log ++ List.zipWith (fun n id => mk n snapID (.ok id)) names newIDs) ∨
       (∃ n e, out.1 = none ∧
        out.2 = log ++ List.zipWith (fun n id => mk n snapID (.ok id)) names newIDs ++
          [mk n snapID (.error e)])) := by
  intro fuel
  induction fuel with
  | zero => intro i snapIDs log out h; simp [createSnapshots] at h
  | succ k ih =>
    intro i snapIDs log out h
    rw [createSnapshots] at h
    by_cases hi : i ≤ nSnap
    · simp only [hi, if_true] at h
      cases hres : create log.length ("test snapshot from " ++ snapID ++ " " ++ toString i)
          snapID with
      | error e =>
        simp only [hres, Option.some.injEq] at h
        subst h
        exact ⟨[], [], rfl, Or.inr
          ⟨"test snapshot from " ++ snapID ++ " " ++ toString i, e, rfl, by simp⟩⟩
      | ok id =>
        simp only [hres] at h
        obtain ⟨names, newIDs, hlen, hc⟩ := ih _ _ _ _ h
        refine ⟨("test snapshot from " ++ snapID ++ " " ++ toString i) :: names, id :: newIDs,
          by simp [hlen], ?_⟩
        rcases hc with ⟨h1, h2⟩ | ⟨n, e, h1, h2⟩
        · exact Or.inl ⟨by simp [h1], by simp [h2]⟩
        · exact Or.inr ⟨n, e, h1, by simp [h2]⟩
    · simp only [hi, if_false, Option.some.injEq] at h
      subst h
      exact ⟨[], [], rfl, Or.inl ⟨by simp, by simp⟩⟩

/-- The creation loop does not run to its end when `nSnap` is the largest
`uint`: the counter wraps around before it exceeds `nSnap`. -/
theorem createSnapshots_never_done (create : Nat → String → String → Except GoError String)
    (mk : String → String → Except GoError String → Op) (nSnap : Nat) (snapID : String)
    (hbig : uintSize ≤ nSnap + 1) :
    ∀ (fuel i : Nat) (snapIDs : List String) (log : List Op) (ids : List String)
      (log1 : List Op), i < uintSize →
    createSnapshots create mk nSnap snapID fuel i snapIDs log ≠ some (some ids, log1) := by
  intro fuel
  induction fuel with
  | zero => intro i snapIDs log ids log1 _ h; simp [createSnapshots] at h
  | succ k ih =>
    intro i snapIDs log ids log1 hi h
    rw [createSnapshots] at h
    have hle : i ≤ nSnap := by omega
    simp only [hle, if_true] at h
    cases hres : create log.length ("test snapshot from " ++ snapID ++ " " ++ toString i)
        snapID with
    | error e => simp [hres] at h
    | ok id =>
      simp only [hres] at h
      exact ih _ _ _ _ _ (Nat.mod_lt _ (by decide)) h

/-- Number of identifiers collected by a creation loop that ran to its end. -/
theorem createSnapshots_count (create : Nat → String → String → Except GoError String)
    (mk : String → String → Except GoError String → Op) (nSnap : Nat) (snapID : String)
    (hsmall : nSnap + 1 < uintSize) :
    ∀ (fuel i : Nat) (snapIDs : List String) (log : List Op) (ids : List String)
      (log1 : List Op), i ≤ nSnap + 1 →
    createSnapshots create mk nSnap snapID fuel i snapIDs log = some (some ids, log1) →
    ids.length = snapIDs.length + (nSnap + 1 - i) := by
  intro fuel
  induction fuel with
  | zero => intro i snapIDs log ids log1 _ h; simp [createSnapshots] at h
  | succ k ih =>
    intro i snapIDs log ids log1 hi h
    rw [createSnapshots] at h
    by_cases hle : i ≤ nSnap
    · simp only [hle, if_true] at h
      cases hres : create log.length ("test snapshot from " ++ snapID ++ " " ++ toString i)
          snapID with
      | error e => simp [hres] at h
      | ok id =>
        simp only [hres] at h
        have hmod : (i + 1) % uintSize = i + 1 := Nat.mod_eq_of_lt (by omega)
        rw [hmod] at h
        have := ih _ _ _ _ _ (by omega) h
        simp only [List.length_append, List.length_singleton] at this
        omega
    · simp only [hle, if_false, Option.some.injEq, Prod.mk.injEq] at h
      obtain ⟨h1, _⟩ := h
      subst h1
      omega

/-- The creation loop ends within `nSnap + 2 - i` rounds. -/
theorem createSnapshots_returns (create : Nat → String → String → Except GoError String)
    (mk : String → String → Except GoError String → Op) (nSnap : Nat) (snapID : String)
    (hsmall : nSnap + 1 < uintSize) :
    ∀ (fuel i : Nat) (snapIDs : List String) (log : List Op), i ≤ nSnap + 1 →
    nSnap + 1 - i < fuel →
    ∃ out, createSnapshots create mk nSnap snapID fuel i snapIDs log = some out := by
  intro fuel
  induction fuel with
  | zero => intro i snapIDs log _ h; omega
  | succ k ih =>
    intro i snapIDs log hi hf
    rw [createSnapshots]
    by_cases hle : i ≤ nSnap
    · simp only [hle, if_true]
      cases hres : create log.length ("test snapshot from " ++ snapID ++ " " ++ toString i)
          snapID with
      | error e => exact ⟨_, rfl⟩
      | ok id =>
        simp only
        have hmod : (i + 1) % uintSize = i + 1 := Nat.mod_eq_of_lt (by omega)
        rw [hmod]
        exact ih _ _ _ (by omega) (by omega)
    · simp only [hle, if_false]
      exact ⟨_, rfl⟩

/-- Shape of the wait loop: waits without error on the identifiers in order,
up to the end or up to a first wait that fails. -/
theorem waitSnapshots_shape (store : Snapshotter) :
    ∀ (ids : List String) (log : List Op),
    ((waitSnapshots store ids log).1 = true ∧
      (waitSnapshots store ids log).2 =
        log ++ ids.map (fun id => Op.WaitForSnapshotStatus id none)) ∨
    (∃ done id e rest, ids = done ++ id :: rest ∧
      (waitSnapshots store ids log).1 = false ∧
      (waitSnapshots store ids log).2 =
        log ++ done.map (fun id => Op.WaitForSnapshotStatus id none) ++
          [Op.WaitForSnapshotStatus id (some e)]) := by
  intro ids
  induction ids with
  | nil => intro log; left; simp [waitSnapshots]
  | cons id rest ih =>
    intro log
    rw [waitSnapshots]
    cases herr : store.WaitForSnapshotStatus log.length id with
    | some e =>
      right
      exact ⟨[], id, e, rest, rfl, rfl, by simp⟩
    | none =>
      simp only
      rcases ih (log ++ [Op.WaitForSnapshotStatus id none]) with ⟨h1, h2⟩ |
        ⟨done, id2, e, rest2, h1, h2, h3⟩
      · left
        exact ⟨h1, by simp [h2]⟩
      · right
        exact ⟨id :: done, id2, e, rest2, by simp [h1], h2, by simp [h3]⟩

/-- The creation loop as the clone flows start it: either a creation failed
after some successful ones, or exactly `nSnap` snapshots were created. -/
theorem createSnapshots_phase (create : Nat → String → String → Except GoError String)
    (mk : String → String → Except GoError String → Op) (nSnap : Nat) (snapID : String)
    (fuel : Nat) (log : List Op) (out : Option (List String) × List Op)
    (h : createSnapshots create mk nSnap snapID fuel 1 [] log = some out) :
    ∃ names ids : List String, names.length = ids.length ∧
      ((∃ n e, out = (none,
          log ++ List.zipWith (fun n id => mk n snapID (.ok id)) names ids ++
            [mk n snapID (.error e)])) ∨
       (out = (some ids, log ++ List.zipWith (fun n id => mk n snapID (.ok id)) names ids) ∧
        ids.length = nSnap)) := by
  obtain ⟨names, ids, hlen, hc⟩ := createSnapshots_shape create mk nSnap snapID fuel 1 [] log out h
  refine ⟨names, ids, hlen, ?_⟩
  obtain ⟨o1, o2⟩ := out
  rcases hc with ⟨h1, h2⟩ | ⟨n, e, h1, h2⟩
  · right
    simp only [List.nil_append] at h1
    simp only at h2
    subst h1 h2
    refine ⟨rfl, ?_⟩
    by_cases hsmall : nSnap + 1 < uintSize
    · have := createSnapshots_count create mk nSnap snapID hsmall fuel 1 [] log _ _ (by omega) h
      simpa using this
    · exact absurd h (createSnapshots_never_done create mk nSnap snapID (by omega) fuel 1 [] log
        _ _ (by decide))
  · left
    simp only at h1 h2
    subst h1 h2
    exact ⟨n, e, rfl⟩

/-- Shape of the log of a finished `processManilaClone`. -/
theorem processManilaClone_shape (store : Snapshotter) (flags : Flags) (snapID : String)
    (fuel : Nat) (log log1 : List Op)
    (h : processManilaClone store flags snapID fuel log = some log1) :
    ∃ names ids : List String, names.length = ids.length ∧
      ((∃ n e, log1 =
          log ++ List.zipWith (fun n id => Op.snapshotsCreate n snapID (.ok id)) names ids ++
            [Op.snapshotsCreate n snapID (.error e)]) ∨
       (ids.length = flags.nSnap ∧ ∃ done id e rest, ids = done ++ id :: rest ∧ log1 =
          log ++ List.zipWith (fun n id => Op.snapshotsCreate n snapID (.ok id)) names ids ++
            done.map (fun id => Op.WaitForSnapshotStatus id none) ++
            [Op.WaitForSnapshotStatus id (some e)]) ∨
       (ids.length = flags.nSnap ∧ ∃ tail, log1 =
          log ++ List.zipWith (fun n id => Op.snapshotsCreate n snapID (.ok id)) names ids ++
            ids.map (fun id => Op.WaitForSnapshotStatus id none) ++ tail ∧
          ((∃ e, tail = [Op.replicasCreate snapID flags.az (.error e)]) ∨
           (∃ rid e, tail = [Op.replicasCreate snapID flags.az (.ok rid),
              Op.WaitForReplicaStatus rid (some e)]) ∨
           (flags.sync = false ∧ ∃ rid, tail = [Op.replicasCreate snapID flags.az (.ok rid),
              Op.WaitForReplicaStatus rid none]) ∨
           (flags.sync = true ∧ ∃ rid e, tail = [Op.replicasCreate snapID flags.az (.ok rid),
              Op.WaitForReplicaStatus rid none, Op.replicasResync rid (some e)]) ∨
           (flags.sync = true ∧ ∃ rid e, tail = [Op.replicasCreate snapID flags.az (.ok rid),
              Op.WaitForReplicaStatus rid none, Op.replicasResync rid none,
              Op.WaitForReplicaSyncState rid (some e)]) ∨
           (flags.sync = true ∧ ∃ rid, tail = [Op.replicasCreate snapID flags.az (.ok rid),
              Op.WaitForReplicaStatus rid none, Op.replicasResync rid none,
              Op.WaitForReplicaSyncState rid none, Op.replicasPromote rid .panicked])))) := by
  unfold processManilaClone at h
  cases hc : createSnapshots store.snapshotsCreate Op.snapshotsCreate flags.nSnap snapID fuel 1 []
      log with
  | none => simp [hc] at h
  | some out =>
    obtain ⟨names, ids, hlen, hph⟩ := createSnapshots_phase _ _ _ _ _ _ _ hc
    refine ⟨names, ids, hlen, ?_⟩
    rcases hph with ⟨n, e, hout⟩ | ⟨hout, hN⟩
    · subst hout
      simp only [hc, Option.some.injEq] at h
      exact Or.inl ⟨n, e, h.symm⟩
    · subst hout
      simp only [hc] at h
      right
      rcases waitSnapshots_shape store ids
          (log ++ List.zipWith (fun n id => Op.snapshotsCreate n snapID (.ok id)) names ids) with
        ⟨hw1, hw2⟩ | ⟨done, id, e, rest, hids, hw1, hw2⟩
      · right
        refine ⟨hN, ?_⟩
        cases hw : waitSnapshots store ids
            (log ++ List.zipWith (fun n id => Op.snapshotsCreate n snapID (.ok id)) names ids) with
        | mk b log2 =>
          rw [hw] at hw1 hw2 h
          simp only at hw1 hw2
          subst hw1 hw2
          simp only at h
          cases hrc : store.replicasCreate
              (log ++ List.zipWith (fun n id => Op.snapshotsCreate n snapID (.ok id)) names ids ++
                ids.map (fun id => Op.WaitForSnapshotStatus id none)).length snapID flags.az with
          | error e =>
            simp only [hrc, Option.some.injEq] at h
            exact ⟨_, h.symm, Or.inl ⟨e, rfl⟩⟩
          | ok rid =>
            simp only [hrc] at h
            generalize hl3 : log ++ List.zipWith (fun n id => Op.snapshotsCreate n snapID (.ok id))
              names ids ++ ids.map (fun id => Op.WaitForSnapshotStatus id none) = l3 at h
            cases hwr : store.WaitForReplicaStatus
                (l3 ++ [Op.replicasCreate snapID flags.az (.ok rid)]).length rid with
            | some e =>
              simp only [hwr, Option.some.injEq] at h
              exact ⟨_, by rw [← h, List.append_assoc]; rfl, Or.inr (Or.inl ⟨rid, e, rfl⟩)⟩
            | none =>
              simp only [hwr] at h
              cases hsync : flags.sync with
              | false =>
                simp only [hsync, Bool.not_false, if_true, Option.some.injEq] at h
                exact ⟨_, by rw [← h, List.append_assoc]; rfl,
                  Or.inr (Or.inr (Or.inl ⟨rfl, rid, rfl⟩))⟩
              | true =>
                simp only [hsync, Bool.not_true, Bool.false_eq_true, if_false] at h
                generalize hl4 : l3 ++ [Op.replicasCreate snapID flags.az (.ok rid)] ++
                  [Op.WaitForReplicaStatus rid none] = l4 at h
                have e4 : l4 = l3 ++ [Op.replicasCreate snapID flags.az (.ok rid),
                    Op.WaitForReplicaStatus rid none] := by rw [← hl4]; simp
                cases hrs : store.replicasResync l4.length rid with
                | some e =>
                  simp only [hrs, Option.some.injEq] at h
                  exact ⟨_, by rw [← h, e4, List.append_assoc]; rfl,
                    Or.inr (Or.inr (Or.inr (Or.inl ⟨rfl, rid, e, rfl⟩)))⟩
                | none =>
                  simp only [hrs] at h
                  cases hws : store.WaitForReplicaSyncState
                      (l4 ++ [Op.replicasResync rid none]).length rid with
                  | some e =>
                    simp only [hws, Option.some.injEq] at h
                    exact ⟨_, by rw [← h, e4]; simp only [List.append_assoc]; rfl,
                      Or.inr (Or.inr (Or.inr (Or.inr (Or.inl ⟨rfl, rid, e, rfl⟩))))⟩
                  | none =>
                    simp only [hws, replicasPromoteNil, Option.some.injEq] at h
                    exact ⟨_, by rw [← h, e4]; simp only [List.append_assoc]; rfl,
                      Or.inr (Or.inr (Or.inr (Or.inr (Or.inr ⟨rfl, rid, rfl⟩))))⟩
      · left
        refine ⟨hN, done, id, e, rest, hids, ?_⟩
        cases hw : waitSnapshots store ids
            (log ++ List.zipWith (fun n id => Op.snapshotsCreate n snapID (.ok id)) names ids) with
        | mk b log2 =>
          rw [hw] at hw1 hw2 h
          simp only at hw1 hw2
          subst hw1 hw2
          simp only [Option.some.injEq] at h
          exact h.symm

/-- Shape of the log of a finished `processCinderClone`. -/
theorem processCinderClone_shape (store : Snapshotter) (flags : Flags) (snapID : String)
    (fuel : Nat) (log log1 : List Op)
    (h : processCinderClone store flags snapID fuel log = some log1) :
    ∃ names ids : List String, names.length = ids.length ∧
      ((∃ n e, log1 =
          log ++ List.zipWith (fun n id => Op.vsnapshotsCreate n snapID (.ok id)) names ids ++
            [Op.vsnapshotsCreate n snapID (.error e)]) ∨
       (ids.length = flags.nSnap ∧ ∃ done id e rest, ids = done ++ id :: rest ∧ log1 =
          log ++ List.zipWith (fun n id => Op.vsnapshotsCreate n snapID (.ok id)) names ids ++
            done.map (fun id => Op.WaitForSnapshotStatus id none) ++
            [Op.WaitForSnapshotStatus id (some e)]) ∨
       (ids.length = flags.nSnap ∧ log1 =
          log ++ List.zipWith (fun n id => Op.vsnapshotsCreate n snapID (.ok id)) names ids ++
            ids.map (fun id => Op.WaitForSnapshotStatus id none) ++ [Op.sleep 5])) := by
  unfold processCinderClone at h
  cases hc : createSnapshots store.vsnapshotsCreate Op.vsnapshotsCreate flags.nSnap snapID fuel
      1 [] log with
  | none => simp [hc] at h
  | some out =>
    obtain ⟨names, ids, hlen, hph⟩ := createSnapshots_phase _ _ _ _ _ _ _ hc
    refine ⟨names, ids, hlen, ?_⟩
    rcases hph with ⟨n, e, hout⟩ | ⟨hout, hN⟩
    · subst hout
      simp only [hc, Option.some.injEq] at h
      exact Or.inl ⟨n, e, h.symm⟩
    · subst hout
      simp only [hc] at h
      right
      rcases waitSnapshots_shape store ids
          (log ++ List.zipWith (fun n id => Op.vsnapshotsCreate n snapID (.ok id)) names ids) with
        ⟨hw1, hw2⟩ | ⟨done, id, e, rest, hids, hw1, hw2⟩
      · right
        refine ⟨hN, ?_⟩
        cases hw : waitSnapshots store ids
            (log ++ List.zipWith (fun n id => Op.vsnapshotsCreate n snapID (.ok id)) names ids) with
        | mk b log2 =>
          rw [hw] at hw1 hw2 h
          simp only at hw1 hw2
          subst hw1 hw2
          simp only [Option.some.injEq] at h
          exact h.symm
      · left
        refine ⟨hN, done, id, e, rest, hids, ?_⟩
        cases hw : waitSnapshots store ids
            (log ++ List.zipWith (fun n id => Op.vsnapshotsCreate n snapID (.ok id)) names ids) with
        | mk b log2 =>
          rw [hw] at hw1 hw2 h
          simp only at hw1 hw2
          subst hw1 hw2
          simp only [Option.some.injEq] at h
          exact h.symm

/-! ### Reading the entries of the two loops -/

theorem mem_created (mk : String → String → Except GoError String → Op) (snapID : String) :
    ∀ (names ids : List String) (op : Op),
    op ∈ List.zipWith (fun n id => mk n snapID (.ok id)) names ids →
    ∃ n id, op = mk n snapID (.ok id) := by
  intro names
  induction names with
  | nil => intro ids op h; simp at h
  | cons n ns ih =>
    intro ids op h
    cases ids with
    | nil => simp at h
    | cons id rest =>
      simp only [List.zipWith_cons_cons, List.mem_cons] at h
      rcases h with h | h
      · exact ⟨n, id, h⟩
      · exact ih rest op h

theorem creations_created (mk : String → String → Except GoError String → Op)
    (hmk : mk = Op.snapshotsCreate ∨ mk = Op.vsnapshotsCreate) (snapID : String) :
    ∀ (names ids : List String), names.length = ids.length →
    creations (List.zipWith (fun n id => mk n snapID (.ok id)) names ids) = ids.map .ok := by
  intro names
  induction names with
  | nil =>
    intro ids h
    cases ids with
    | nil => rfl
    | cons id rest => simp at h
  | cons n ns ih =>
    intro ids h
    cases ids with
    | nil => simp at h
    | cons id rest =>
      simp only [List.length_cons, Nat.add_right_cancel_iff] at h
      have := ih rest h
      rcases hmk with rfl | rfl <;>
        simpa [creations, Op.creation, List.filterMap_cons] using this

theorem snapshotWaits_created (mk : String → String → Except GoError String → Op)
    (hmk : mk = Op.snapshotsCreate ∨ mk = Op.vsnapshotsCreate) (snapID : String) :
    ∀ (names ids : List String),
    snapshotWaits (List.zipWith (fun n id => mk n snapID (.ok id)) names ids) = [] := by
  intro names
  induction names with
  | nil => intro ids; simp [snapshotWaits]
  | cons n ns ih =>
    intro ids
    cases ids with
    | nil => simp [snapshotWaits]
    | cons id rest =>
      have := ih rest
      rcases hmk with rfl | rfl <;>
        simpa [snapshotWaits, Op.snapshotWait, List.filterMap_cons] using this

theorem creations_waits (ids : List String) (f : String → Option GoError) :
    creations (ids.map (fun id => Op.WaitForSnapshotStatus id (f id))) = [] := by
  induction ids with
  | nil => rfl
  | cons id rest ih => simp [creations, Op.creation, List.filterMap_cons]

theorem snapshotWaits_waits (ids : List String) :
    snapshotWaits (ids.map (fun id => Op.WaitForSnapshotStatus id none)) =
      ids.map (fun id => (id, none)) := by
  induction ids with
  | nil => rfl
  | cons id rest ih => simpa [snapshotWaits, Op.snapshotWait, List.filterMap_cons] using ih

theorem createdIDs_map_ok (ids : List String) :
    (ids.map (Except.ok : String → Except GoError String)).filterMap createdID = ids := by
  induction ids with
  | nil => rfl
  | cons id rest ih => simp [createdID, List.filterMap_cons, ih]

theorem creations_append (a b : List Op) : creations (a ++ b) = creations a ++ creations b := by
  simp [creations, List.filterMap_append]

theorem createdIDs_append (a b : List Op) :
    createdIDs (a ++ b) = createdIDs a ++ createdIDs b := by
  simp [createdIDs, creations, List.filterMap_append]

theorem snapshotWaits_append (a b : List Op) :
    snapshotWaits (a ++ b) = snapshotWaits a ++ snapshotWaits b := by
  simp [snapshotWaits, List.filterMap_append]

/-- A split of `front ++ back` at an element that is not in `front` falls in
`back`. -/
theorem split_in_back {α : Type} (x : α) :
    ∀ (front back pre post : List α), x ∉ front → front ++ back = pre ++ x :: post →
    ∃ mid, pre = front ++ mid ∧ back = mid ++ x :: post := by
  intro front
  induction front with
  | nil => intro back pre post _ h; exact ⟨pre, by simp, by simpa using h⟩
  | cons a rest ih =>
    intro back pre post hx h
    cases pre with
    | nil =>
      simp only [List.cons_append, List.nil_append, List.cons.injEq] at h
      exact absurd (List.mem_cons.mpr (Or.inl h.1.symm)) hx
    | cons p ps =>
      simp only [List.cons_append, List.cons.injEq] at h
      obtain ⟨mid, h1, h2⟩ := ih back ps post (fun hm => hx (List.mem_cons_of_mem _ hm)) h.2
      exact ⟨mid, by rw [h.1, h1]; rfl, h2⟩

theorem take_succ_append (done : List String) (id : String) (rest : List String) :
    (done ++ id :: rest).take (done.length + 1) = done ++ [id] := by
  induction done with
  | nil => simp
  | cons d ds ih => simpa using ih

theorem map_fst_none (ids : List String) :
    (ids.map (fun id => ((id, none) : String × Option GoError))).map Prod.fst = ids := by
  induction ids with
  | nil => rfl
  | cons d ds ih => simpa using ih

/-- The order of the snapshot phase, from the three shapes of a log. -/
theorem snapshotPhaseOrdered_of_shape (mk : String → String → Except GoError String → Op)
    (hmk : mk = Op.snapshotsCreate ∨ mk = Op.vsnapshotsCreate) (nSnap : Nat) (snapID : String)
    (names ids : List String) (hlen : names.length = ids.length) (ops : List Op)
    (hshape :
      (∃ n e, ops = List.zipWith (fun n id => mk n snapID (.ok id)) names ids ++
          [mk n snapID (.error e)]) ∨
      (ids.length = nSnap ∧ ∃ done id e rest, ids = done ++ id :: rest ∧
        ops = List.zipWith (fun n id => mk n snapID (.ok id)) names ids ++
          done.map (fun id => Op.WaitForSnapshotStatus id none) ++
          [Op.WaitForSnapshotStatus id (some e)]) ∨
      (ids.length = nSnap ∧ ∃ tail,
        ops = List.zipWith (fun n id => mk n snapID (.ok id)) names ids ++
          ids.map (fun id => Op.WaitForSnapshotStatus id none) ++ tail ∧
        creations tail = [] ∧ snapshotWaits tail = [] ∧
        ∃ op ∈ tail, op.pastWaitPhase = true)) :
    SnapshotPhaseOrdered nSnap ops := by
  have hC1 := creations_created mk hmk snapID names ids hlen
  have hC2 := snapshotWaits_created mk hmk snapID names ids
  have hC3 : createdIDs (List.zipWith (fun n id => mk n snapID (.ok id)) names ids) = ids := by
    rw [createdIDs, hC1, createdIDs_map_ok]
  have hC4 : ∀ id err, Op.WaitForSnapshotStatus id err ∉
      List.zipWith (fun n id => mk n snapID (.ok id)) names ids := by
    intro id err hin
    obtain ⟨n, i, h⟩ := mem_created mk snapID names ids _ hin
    rcases hmk with rfl | rfl <;> simp at h
  have hC5 : ∀ op ∈ List.zipWith (fun n id => mk n snapID (.ok id)) names ids,
      op.pastWaitPhase = false := by
    intro op hin
    obtain ⟨n, i, h⟩ := mem_created mk snapID names ids _ hin
    rcases hmk with rfl | rfl <;> simp [h, Op.pastWaitPhase]
  have hE1 : ∀ n e, creations [mk n snapID (.error e)] = [.error e] := by
    intro n e
    rcases hmk with rfl | rfl <;> simp [creations, Op.creation, List.filterMap_cons]
  have hE2 : ∀ n e, snapshotWaits [mk n snapID (.error e)] = [] := by
    intro n e
    rcases hmk with rfl | rfl <;> simp [snapshotWaits, Op.snapshotWait, List.filterMap_cons]
  have hnone : ∀ (l : List String) (i : String) (e : GoError),
      ((i, some e) : String × Option GoError) ∉ l.map (fun id => (id, none)) := by
    intro l i e hin
    obtain ⟨x, _, hx⟩ := List.mem_map.mp hin
    simp at hx
  generalize hCdef : List.zipWith (fun n id => mk n snapID (.ok id)) names ids = C at *
  rcases hshape with ⟨n, e, hops⟩ | ⟨hN, done, id, e, rest, hids, hops⟩ |
    ⟨hN, tail, hops, ht1, ht2, op, hop1, hop2⟩
  · -- a creation failed
    have hw : snapshotWaits ops = [] := by rw [hops, snapshotWaits_append, hC2, hE2]; rfl
    have hcr : creations ops = ids.map .ok ++ [.error e] := by
      rw [hops, creations_append, hC1, hE1]
    have hid : createdIDs ops = ids := by
      rw [createdIDs, hcr, List.filterMap_append, createdIDs_map_ok]
      simp [createdID, List.filterMap_cons]
    refine ⟨?_, ?_, ?_, ?_, ?_, ?_⟩
    · intro pre i err post hsplit
      exfalso
      have hin : (i, err) ∈ snapshotWaits ops := by
        rw [hsplit, snapshotWaits_append]
        simp [snapshotWaits, Op.snapshotWait, List.filterMap_cons]
      rw [hw] at hin
      simp at hin
    · rw [hw]; simp
    · intro pre i e1 post hsplit
      rw [hw] at hsplit
      simp at hsplit
    · constructor
      · rintro ⟨o, ho1, ho2⟩
        exfalso
        rw [hops] at ho1
        rcases List.mem_append.mp ho1 with ho | ho
        · rw [hC5 o ho] at ho2; simp at ho2
        · rw [List.mem_singleton] at ho
          rcases hmk with rfl | rfl <;> simp [ho, Op.pastWaitPhase] at ho2
      · rintro ⟨h1, _, _⟩
        exfalso
        rw [hcr, hid] at h1
        have := congrArg List.length h1
        simp at this
    · rintro ⟨h1, _⟩
      exfalso
      rw [hcr, hid] at h1
      have := congrArg List.length h1
      simp at this
    · intro _
      exact hw
  · -- a wait failed
    have hw : snapshotWaits ops = done.map (fun id => (id, none)) ++ [(id, some e)] := by
      rw [hops, snapshotWaits_append, snapshotWaits_append, hC2, snapshotWaits_waits]
      simp [snapshotWaits, Op.snapshotWait, List.filterMap_cons]
    have hcr : creations ops = ids.map .ok := by
      rw [hops, creations_append, creations_append, hC1,
        creations_waits done (fun _ => none)]
      simp [creations, Op.creation, List.filterMap_cons]
    have hid : createdIDs ops = ids := by rw [createdIDs, hcr, createdIDs_map_ok]
    refine ⟨?_, ?_, ?_, ?_, ?_, ?_⟩
    · intro pre i err post hsplit
      rw [hops, List.append_assoc] at hsplit
      obtain ⟨mid, hpre, hback⟩ := split_in_back _ _ _ _ _ (hC4 i err) hsplit
      have hb := congrArg creations hback
      rw [creations_append, creations_waits done (fun _ => none), creations_append] at hb
      simp only [creations, Op.creation, List.filterMap_cons, List.filterMap_nil,
        List.nil_append] at hb
      have hb2 := List.append_eq_nil.mp hb.symm
      have hmid : creations mid = [] := hb2.1
      have hpost : creations post = [] := by
        have := hb2.2
        simpa [creations] using this
      have hcp : creations pre = ids.map .ok := by
        rw [hpre, creations_append, hC1, hmid, List.append_nil]
      have hip : createdIDs pre = ids := by rw [createdIDs, hcp, createdIDs_map_ok]
      exact ⟨by rw [hcp, hip], by rw [hip, hN], hpost⟩
    · rw [hw, hid, hids, List.map_append, map_fst_none, List.length_append, List.length_map]
      simp only [List.map_cons, List.map_nil, List.length_singleton]
      rw [take_succ_append]
    · intro pre i e1 post hsplit
      rw [hw] at hsplit
      exact (Manila.split_at_last _ _ _ pre post (hnone done i e1) hsplit.symm).1
    · constructor
      · rintro ⟨o, ho1, ho2⟩
        exfalso
        rw [hops] at ho1
        rcases List.mem_append.mp ho1 with ho | ho
        · rcases List.mem_append.mp ho with ho | ho
          · rw [hC5 o ho] at ho2; simp at ho2
          · obtain ⟨x, _, hx⟩ := List.mem_map.mp ho
            simp [← hx, Op.pastWaitPhase] at ho2
        · rw [List.mem_singleton] at ho
          simp [ho, Op.pastWaitPhase] at ho2
      · rintro ⟨_, _, h3⟩
        exfalso
        rw [hw, hid] at h3
        have hin : ((id, some e) : String × Option GoError) ∈
            ids.map (fun id => (id, none)) := by
          rw [← h3]; simp
        exact hnone ids id e hin
    · intro _
      exact Or.inr ⟨done, id, e, rest, by rw [hid, hids], hw⟩
    · intro hn
      exact absurd ⟨by rw [hcr, hid], by rw [hid, hN]⟩ hn
  · -- every wait succeeded
    have hw : snapshotWaits ops = ids.map (fun id => (id, none)) := by
      rw [hops, snapshotWaits_append, snapshotWaits_append, hC2, snapshotWaits_waits, ht2]
      simp
    have hcr : creations ops = ids.map .ok := by
      rw [hops, creations_append, creations_append, hC1,
        creations_waits ids (fun _ => none), ht1]
      simp
    have hid : createdIDs ops = ids := by rw [createdIDs, hcr, createdIDs_map_ok]
    refine ⟨?_, ?_, ?_, ?_, ?_, ?_⟩
    · intro pre i err post hsplit
      rw [hops, List.append_assoc] at hsplit
      obtain ⟨mid, hpre, hback⟩ := split_in_back _ _ _ _ _ (hC4 i err) hsplit
      have hb := congrArg creations hback
      rw [creations_append, creations_waits ids (fun _ => none), ht1, creations_append] at hb
      simp only [creations, Op.creation, List.filterMap_cons, List.filterMap_nil,
        List.nil_append] at hb
      have hb2 := List.append_eq_nil.mp hb.symm
      have hmid : creations mid = [] := hb2.1
      have hpost : creations post = [] := by
        have := hb2.2
        simpa [creations] using this
      have hcp : creations pre = ids.map .ok := by
        rw [hpre, creations_append, hC1, hmid, List.append_nil]
      have hip : createdIDs pre = ids := by rw [createdIDs, hcp, createdIDs_map_ok]
      exact ⟨by rw [hcp, hip], by rw [hip, hN], hpost⟩
    · rw [hw, hid, map_fst_none, List.length_map, List.take_length]
    · intro pre i e1 post hsplit
      exfalso
      rw [hw] at hsplit
      have hin : ((i, some e1) : String × Option GoError) ∈
          ids.map (fun id => (id, none)) := by
        rw [hsplit]; simp
      exact hnone ids i e1 hin
    · constructor
      · intro _
        exact ⟨by rw [hcr, hid], by rw [hid, hN], by rw [hw, hid]⟩
      · intro _
        exact ⟨op, by rw [hops]; exact List.mem_append_right _ hop1, hop2⟩
    · intro _
      exact Or.inl (by rw [hw, hid])
    · intro hn
      exact absurd ⟨by rw [hcr, hid], by rw [hid, hN]⟩ hn

/-- `processManilaClone` returns when the creation loop is given `nSnap + 1`
rounds. -/
theorem processManilaClone_returns (store : Snapshotter) (flags : Flags) (snapID : String)
    (fuel : Nat) (log : List Op) (hsmall : flags.nSnap + 1 < uintSize)
    (hfuel : flags.nSnap < fuel) :
    ∃ log1, processManilaClone store flags snapID fuel log = some log1 := by
  obtain ⟨out, hc⟩ := createSnapshots_returns store.snapshotsCreate Op.snapshotsCreate
    flags.nSnap snapID hsmall fuel 1 [] log (by omega) (by omega)
  unfold processManilaClone
  rw [hc]
  obtain ⟨o1, l1⟩ := out
  cases o1 with
  | none => exact ⟨_, rfl⟩
  | some ids =>
    simp only
    cases hw : waitSnapshots store ids l1 with
    | mk b l2 =>
      cases b with
      | false => exact ⟨_, rfl⟩
      | true =>
        simp only
        cases h1 : store.replicasCreate l2.length snapID flags.az with
        | error e => exact ⟨_, rfl⟩
        | ok rid =>
          simp only
          cases h2 : store.WaitForReplicaStatus
              (l2 ++ [Op.replicasCreate snapID flags.az (.ok rid)]).length rid with
          | some e => exact ⟨_, rfl⟩
          | none =>
            simp only
            cases hs : flags.sync with
            | false => exact ⟨_, rfl⟩
            | true =>
              simp only [Bool.not_true, Bool.false_eq_true, if_false]
              cases h3 : store.replicasResync
                  (l2 ++ [Op.replicasCreate snapID flags.az (.ok rid)] ++
                    [Op.WaitForReplicaStatus rid none]).length rid with
              | some e => exact ⟨_, rfl⟩
              | none =>
                simp only
                cases h4 : store.WaitForReplicaSyncState
                    (l2 ++ [Op.replicasCreate snapID flags.az (.ok rid)] ++
                      [Op.WaitForReplicaStatus rid none] ++
                      [Op.replicasResync rid none]).length rid with
                | some e => exact ⟨_, rfl⟩
                | none => exact ⟨_, rfl⟩

/-- `processCinderClone` returns when the creation loop is given `nSnap + 1`
rounds. -/
theorem processCinderClone_returns (store : Snapshotter) (flags : Flags) (snapID : String)
    (fuel : Nat) (log : List Op) (hsmall : flags.nSnap + 1 < uintSize)
    (hfuel : flags.nSnap < fuel) :
    ∃ log1, processCinderClone store flags snapID fuel log = some log1 := by
  obtain ⟨out, hc⟩ := createSnapshots_returns store.vsnapshotsCreate Op.vsnapshotsCreate
    flags.nSnap snapID hsmall fuel 1 [] log (by omega) (by omega)
  unfold processCinderClone
  rw [hc]
  obtain ⟨o1, l1⟩ := out
  cases o1 with
  | none => exact ⟨_, rfl⟩
  | some ids =>
    simp only
    cases hw : waitSnapshots store ids l1 with
    | mk b l2 =>
      cases b with
      | false => exact ⟨_, rfl⟩
      | true => exact ⟨_, rfl⟩

/-- Creations that are not followed by any wait are not in the order of the
snapshot phase. -/
theorem snapshotPhaseOrdered_needs_waits :
    ¬ SnapshotPhaseOrdered 2
      [Op.snapshotsCreate "one" "share-2" (.ok "a"),
       Op.snapshotsCreate "two" "share-2" (.ok "b")] := by
  intro h
  rcases h.2.2.2.2.1 ⟨by decide, by decide⟩ with h1 | ⟨done, id, e, rest, _, h2⟩
  · exact absurd h1 (by decide)
  · have h3 := congrArg List.length h2
    simp [snapshotWaits, Op.snapshotWait] at h3

/-- The snapshot phase of a finished `processManilaClone` is in order. -/
theorem processManilaClone_phase (store : Snapshotter) (flags : Flags) (snapID : String)
    (fuel : Nat) (log log1 : List Op)
    (h : processManilaClone store flags snapID fuel log = some log1) :
    ∃ ops, log1 = log ++ ops ∧ SnapshotPhaseOrdered flags.nSnap ops := by
  obtain ⟨names, ids, hlen, hc⟩ := processManilaClone_shape store flags snapID fuel log log1 h
  rcases hc with ⟨n, e, h1⟩ | ⟨hN, done, id, e, rest, hids, h1⟩ | ⟨hN, tail, h1, ht⟩
  · refine ⟨_, by rw [h1, List.append_assoc], ?_⟩
    exact snapshotPhaseOrdered_of_shape Op.snapshotsCreate (Or.inl rfl) flags.nSnap snapID
      names ids hlen _ (Or.inl ⟨n, e, rfl⟩)
  · refine ⟨_, by rw [h1, List.append_assoc, List.append_assoc], ?_⟩
    exact snapshotPhaseOrdered_of_shape Op.snapshotsCreate (Or.inl rfl) flags.nSnap snapID
      names ids hlen _
      (Or.inr (Or.inl ⟨hN, done, id, e, rest, hids, by rw [List.append_assoc]⟩))
  · refine ⟨_, by rw [h1, List.append_assoc, List.append_assoc], ?_⟩
    refine snapshotPhaseOrdered_of_shape Op.snapshotsCreate (Or.inl rfl) flags.nSnap snapID
      names ids hlen _
      (Or.inr (Or.inr ⟨hN, tail, by rw [List.append_assoc], ?_⟩))
    rcases ht with ⟨e, rfl⟩ | ⟨rid, e, rfl⟩ | ⟨_, rid, rfl⟩ | ⟨_, rid, e, rfl⟩ |
      ⟨_, rid, e, rfl⟩ | ⟨_, rid, rfl⟩ <;>
    simp [creations, snapshotWaits, Op.creation, Op.snapshotWait, Op.pastWaitPhase,
      List.filterMap_cons]

/-- The snapshot phase of a finished `processCinderClone` is in order. -/
theorem processCinderClone_phase (store : Snapshotter) (flags : Flags) (snapID : String)
    (fuel : Nat) (log log1 : List Op)
    (h : processCinderClone store flags snapID fuel log = some log1) :
    ∃ ops, log1 = log ++ ops ∧ SnapshotPhaseOrdered flags.nSnap ops := by
  obtain ⟨names, ids, hlen, hc⟩ := processCinderClone_shape store flags snapID fuel log log1 h
  rcases hc with ⟨n, e, h1⟩ | ⟨hN, done, id, e, rest, hids, h1⟩ | ⟨hN, h1⟩
  · refine ⟨_, by rw [h1, List.append_assoc], ?_⟩
    exact snapshotPhaseOrdered_of_shape Op.vsnapshotsCreate (Or.inr rfl) flags.nSnap snapID
      names ids hlen _ (Or.inl ⟨n, e, rfl⟩)
  · refine ⟨_, by rw [h1, List.append_assoc, List.append_assoc], ?_⟩
    exact snapshotPhaseOrdered_of_shape Op.vsnapshotsCreate (Or.inr rfl) flags.nSnap snapID
      names ids hlen _
      (Or.inr (Or.inl ⟨hN, done, id, e, rest, hids, by rw [List.append_assoc]⟩))
  · refine ⟨_, by rw [h1, List.append_assoc, List.append_assoc], ?_⟩
    refine snapshotPhaseOrdered_of_shape Op.vsnapshotsCreate (Or.inr rfl) flags.nSnap snapID
      names ids hlen _
      (Or.inr (Or.inr ⟨hN, [Op.sleep 5], by rw [List.append_assoc], ?_⟩))
    simp [creations, snapshotWaits, Op.creation, Op.snapshotWait, Op.pastWaitPhase,
      List.filterMap_cons]

/-- C5: in `processManilaClone` and in `processCinderClone`, for every number
of snapshots and every result of the store operations, the operations issued
by a finished run are in the order of `SnapshotPhaseOrdered`: a snapshot wait
is issued only when all `nSnap` creations have succeeded; once they have, the
waits are issued on the created identifiers in creation order, either on all
of them without error or up to and including the first whose wait fails, the
identifiers created after that one not being waited on; and the flow goes past
the wait phase exactly when all `nSnap` waits succeed.  Both flows do finish
when `nSnap` is below the largest `uint` and the creation loop is given more
than `nSnap` rounds. -/
theorem clone_snapshot_phase (store : Snapshotter) (flags : Flags) (snapID : String)
    (fuel : Nat) (log : List Op) :
    (∀ log1, processManilaClone store flags snapID fuel log = some log1 →
      ∃ ops, log1 = log ++ ops ∧ SnapshotPhaseOrdered flags.nSnap ops) ∧
    (∀ log1, processCinderClone store flags snapID fuel log = some log1 →
      ∃ ops, log1 = log ++ ops ∧ SnapshotPhaseOrdered flags.nSnap ops) ∧
    (flags.nSnap + 1 < uintSize → flags.nSnap < fuel →
      (∃ log1, processManilaClone store flags snapID fuel log = some log1) ∧
      (∃ log1, processCinderClone store flags snapID fuel log = some log1)) :=
  ⟨fun log1 h => processManilaClone_phase store flags snapID fuel log log1 h,
   fun log1 h => processCinderClone_phase store flags snapID fuel log log1 h,
   fun hsmall hfuel =>
    ⟨processManilaClone_returns store flags snapID fuel log hsmall hfuel,
     processCinderClone_returns store flags snapID fuel log hsmall hfuel⟩⟩

theorem clone_snapshot_phase_witness :
    ∃ ops, sampleManilaOps = [] ++ ops ∧ SnapshotPhaseOrdered sampleFlags.nSnap ops :=
  (clone_snapshot_phase sampleStore sampleFlags "share-2" 3 []).1 sampleManilaOps (by decide)

/-! ### The stages of `processManilaClone` -/

/-- A finished `processManilaClone` has issued successful creations and
successful snapshot waits (`front`), followed either by the one creation or
snapshot wait that failed, or by the stages of the replica (`back`). -/
theorem processManilaClone_front_back (store : Snapshotter) (flags : Flags) (snapID : String)
    (fuel : Nat) (log log1 : List Op)
    (h : processManilaClone store flags snapID fuel log = some log1) :
    ∃ front back, log1 = log ++ (front ++ back) ∧
      (∀ op ∈ front, (∃ n id, op = Op.snapshotsCreate n snapID (.ok id)) ∨
        (∃ id, op = Op.WaitForSnapshotStatus id none)) ∧
      ((∃ n e, back = [Op.snapshotsCreate n snapID (.error e)]) ∨
       (∃ id e, back = [Op.WaitForSnapshotStatus id (some e)]) ∨
       ((creations front = (createdIDs front).map .ok ∧
          (createdIDs front).length = flags.nSnap ∧
          snapshotWaits front = (createdIDs front).map (fun id => (id, none))) ∧
        ((∃ e, back = [Op.replicasCreate snapID flags.az (.error e)]) ∨
         (∃ rid e, back = [Op.replicasCreate snapID flags.az (.ok rid),
            Op.WaitForReplicaStatus rid (some e)]) ∨
         (flags.sync = false ∧ ∃ rid, back = [Op.replicasCreate snapID flags.az (.ok rid),
            Op.WaitForReplicaStatus rid none]) ∨
         (flags.sync = true ∧ ∃ rid e, back = [Op.replicasCreate snapID flags.az (.ok rid),
            Op.WaitForReplicaStatus rid none, Op.replicasResync rid (some e)]) ∨
         (flags.sync = true ∧ ∃ rid e, back = [Op.replicasCreate snapID flags.az (.ok rid),
            Op.WaitForReplicaStatus rid none, Op.replicasResync rid none,
            Op.WaitForReplicaSyncState rid (some e)]) ∨
         (flags.sync = true ∧ ∃ rid, back = [Op.replicasCreate snapID flags.az (.ok rid),
            Op.WaitForReplicaStatus rid none, Op.replicasResync rid none,
            Op.WaitForReplicaSyncState rid none, Op.replicasPromote rid .panicked])))) := by
  obtain ⟨names, ids, hlen, hc⟩ := processManilaClone_shape store flags snapID fuel log log1 h
  have hC : ∀ op ∈ List.zipWith (fun n id => Op.snapshotsCreate n snapID (.ok id)) names ids,
      (∃ n id, op = Op.snapshotsCreate n snapID (.ok id)) ∨
        (∃ id, op = Op.WaitForSnapshotStatus id none) :=
    fun op hop => Or.inl (mem_created Op.snapshotsCreate snapID names ids op hop)
  have hW : ∀ (l : List String), ∀ op ∈ l.map (fun id => Op.WaitForSnapshotStatus id none),
      (∃ n id, op = Op.snapshotsCreate n snapID (.ok id)) ∨
        (∃ id, op = Op.WaitForSnapshotStatus id none) := by
    intro l op hop
    obtain ⟨x, _, hx⟩ := List.mem_map.mp hop
    exact Or.inr ⟨x, hx.symm⟩
  rcases hc with ⟨n, e, h1⟩ | ⟨hN, done, id, e, rest, hids, h1⟩ | ⟨hN, tail, h1, ht⟩
  · exact ⟨_, _, by rw [h1, List.append_assoc], hC, Or.inl ⟨n, e, rfl⟩⟩
  · refine ⟨List.zipWith (fun n id => Op.snapshotsCreate n snapID (.ok id)) names ids ++
      done.map (fun id => Op.WaitForSnapshotStatus id none), _,
      by rw [h1]; simp only [List.append_assoc], ?_, Or.inr (Or.inl ⟨id, e, rfl⟩)⟩
    intro op hop
    rcases List.mem_append.mp hop with hop | hop
    · exact hC op hop
    · exact hW done op hop
  · refine ⟨List.zipWith (fun n id => Op.snapshotsCreate n snapID (.ok id)) names ids ++
      ids.map (fun id => Op.WaitForSnapshotStatus id none), tail,
      by rw [h1]; simp only [List.append_assoc], ?_, Or.inr (Or.inr ⟨?_, ht⟩)⟩
    · intro op hop
      rcases List.mem_append.mp hop with hop | hop
      · exact hC op hop
      · exact hW ids op hop
    · have h1 := creations_created Op.snapshotsCreate (Or.inl rfl) snapID names ids hlen
      have h2 := snapshotWaits_created Op.snapshotsCreate (Or.inl rfl) snapID names ids
      have h3 : creations (List.zipWith (fun n id => Op.snapshotsCreate n snapID (.ok id))
          names ids ++ ids.map (fun id => Op.WaitForSnapshotStatus id none)) = ids.map .ok := by
        rw [creations_append, h1, creations_waits ids (fun _ => none), List.append_nil]
      have h4 : createdIDs (List.zipWith (fun n id => Op.snapshotsCreate n snapID (.ok id))
          names ids ++ ids.map (fun id => Op.WaitForSnapshotStatus id none)) = ids := by
        rw [createdIDs, h3, createdIDs_map_ok]
      refine ⟨by rw [h3, h4], by rw [h4, hN], ?_⟩
      rw [snapshotWaits_append, h2, snapshotWaits_waits, h4, List.nil_append]

/-- C8: in a finished `processManilaClone`, for every result of the store
operations: the replica is created only after `nSnap` snapshots were created
and every one of them was waited on with success; without the sync flag no
resync and no promote is issued; a resync is issued only with the sync flag
and after the replica creation and `WaitForReplicaStatus` succeeded; the
promote is called only after the resync and `WaitForReplicaSyncState`
succeeded; `WaitForReplicaActiveState` is called only after a promote that
succeeded; and an operation that did not succeed is the last one of the flow.
The promote, called with nil options, panics and is the last operation of its
run, so that `WaitForReplicaActiveState` is in fact never called.  The flow
does finish when `nSnap` is below the largest `uint` and the creation loop is
given more than `nSnap` rounds. -/
theorem manila_clone_stage_order (store : Snapshotter) (flags : Flags) (snapID : String)
    (fuel : Nat) (log : List Op) :
    (∀ log1, processManilaClone store flags snapID fuel log = some log1 →
      ∃ ops, log1 = log ++ ops ∧
      (∀ pre s az r post, ops = pre ++ Op.replicasCreate s az r :: post →
        creations pre = (createdIDs pre).map .ok ∧ (createdIDs pre).length = flags.nSnap ∧
          snapshotWaits pre = (createdIDs pre).map (fun id => (id, none))) ∧
      (flags.sync = false →
        ∀ id e out, Op.replicasResync id e ∉ ops ∧ Op.replicasPromote id out ∉ ops) ∧
      (∀ pre id e post, ops = pre ++ Op.replicasResync id e :: post →
        flags.sync = true ∧ Op.replicasCreate snapID flags.az (.ok id) ∈ pre ∧
          Op.WaitForReplicaStatus id none ∈ pre) ∧
      (∀ pre id out post, ops = pre ++ Op.replicasPromote id out :: post →
        Op.replicasResync id none ∈ pre ∧ Op.WaitForReplicaSyncState id none ∈ pre ∧
          out = .panicked ∧ post = []) ∧
      (∀ pre id e post, ops = pre ++ Op.WaitForReplicaActiveState id e :: post →
        Op.replicasPromote id (.returned none) ∈ pre) ∧
      (∀ id e, Op.WaitForReplicaActiveState id e ∉ ops) ∧
      (∀ pre op post, ops = pre ++ op :: post → op.failed = true → post = [])) ∧
    (flags.nSnap + 1 < uintSize → flags.nSnap < fuel →
      ∃ log1, processManilaClone store flags snapID fuel log = some log1) := by
  refine ⟨?_, fun hsmall hfuel =>
    processManilaClone_returns store flags snapID fuel log hsmall hfuel⟩
  intro log1 h
  obtain ⟨front, back, hlog, hfront, hback⟩ :=
    processManilaClone_front_back store flags snapID fuel log log1 h
  have hactive : ∀ id e, Op.WaitForReplicaActiveState id e ∉ front ++ back := by
    intro id e hin
    have key : ∀ op ∈ back, ∀ id e, op ≠ Op.WaitForReplicaActiveState id e := by
      rcases hback with ⟨n, e, rfl⟩ | ⟨id, e, rfl⟩ | ⟨hfacts, ht⟩
      · simp
      · simp
      · rcases ht with ⟨e, rfl⟩ | ⟨rid, e, rfl⟩ | ⟨hs, rid, rfl⟩ | ⟨hs, rid, e, rfl⟩ |
          ⟨hs, rid, e, rfl⟩ | ⟨hs, rid, rfl⟩ <;> simp
    rcases List.mem_append.mp hin with hin | hin
    · rcases hfront _ hin with ⟨n, i, h⟩ | ⟨i, h⟩ <;> simp at h
    · exact key _ hin id e rfl
  refine ⟨front ++ back, hlog, ?_, ?_, ?_, ?_, ?_, hactive, ?_⟩
  · intro pre s az r post hsplit
    have hx : Op.replicasCreate s az r ∉ front := by
      intro hin
      rcases hfront _ hin with ⟨n, i, h⟩ | ⟨i, h⟩ <;> simp at h
    obtain ⟨mid, hpre, hb⟩ := split_in_back _ front back pre post hx hsplit
    have key : ∀ mid op post, back = mid ++ op :: post →
        ∀ s az r, op = Op.replicasCreate s az r →
        mid = [] ∧ (creations front = (createdIDs front).map .ok ∧
          (createdIDs front).length = flags.nSnap ∧
          snapshotWaits front = (createdIDs front).map (fun id => (id, none))) := by
      rcases hback with ⟨n, e, rfl⟩ | ⟨id, e, rfl⟩ | ⟨hfacts, ht⟩
      · refine (forall_splits _ _).mpr ?_
        simp [splitsOf, Op.failed, Except.toBool]
      · refine (forall_splits _ _).mpr ?_
        simp [splitsOf, Op.failed, Except.toBool]
      · rcases ht with ⟨e, rfl⟩ | ⟨rid, e, rfl⟩ | ⟨hs, rid, rfl⟩ | ⟨hs, rid, e, rfl⟩ |
          ⟨hs, rid, e, rfl⟩ | ⟨hs, rid, rfl⟩ <;>
        (refine (forall_splits _ _).mpr ?_
         first
           | simp [splitsOf, Op.failed, Except.toBool, hs, hfacts]
           | simp [splitsOf, Op.failed, Except.toBool, hfacts])
    obtain ⟨h1, h2⟩ := key mid _ post hb s az r rfl
    subst h1
    rw [List.append_nil] at hpre
    subst hpre
    exact h2
  · intro hnosync id e out
    have key : ∀ op ∈ back, ∀ id e out, op ≠ Op.replicasResync id e ∧
        op ≠ Op.replicasPromote id out := by
      rcases hback with ⟨n, e, rfl⟩ | ⟨id, e, rfl⟩ | ⟨hfacts, ht⟩
      · simp
      · simp
      · rcases ht with ⟨e, rfl⟩ | ⟨rid, e, rfl⟩ | ⟨hs, rid, rfl⟩ | ⟨hs, rid, e, rfl⟩ |
          ⟨hs, rid, e, rfl⟩ | ⟨hs, rid, rfl⟩ <;>
        first
          | (rw [hnosync] at hs; exact absurd hs (by decide))
          | simp
    constructor
    · intro hin
      rcases List.mem_append.mp hin with hin | hin
      · rcases hfront _ hin with ⟨n, i, h⟩ | ⟨i, h⟩ <;> simp at h
      · exact (key _ hin id e out).1 rfl
    · intro hin
      rcases List.mem_append.mp hin with hin | hin
      · rcases hfront _ hin with ⟨n, i, h⟩ | ⟨i, h⟩ <;> simp at h
      · exact (key _ hin id e out).2 rfl
  · intro pre id e post hsplit
    have hx : Op.replicasResync id e ∉ front := by
      intro hin
      rcases hfront _ hin with ⟨n, i, h⟩ | ⟨i, h⟩ <;> simp at h
    obtain ⟨mid, hpre, hb⟩ := split_in_back _ front back pre post hx hsplit
    have key : ∀ mid op post, back = mid ++ op :: post → ∀ id e, op = Op.replicasResync id e →
        flags.sync = true ∧ Op.replicasCreate snapID flags.az (.ok id) ∈ mid ∧
          Op.WaitForReplicaStatus id none ∈ mid := by
      rcases hback with ⟨n, e, rfl⟩ | ⟨id, e, rfl⟩ | ⟨hfacts, ht⟩
      · refine (forall_splits _ _).mpr ?_
        simp [splitsOf, Op.failed, Except.toBool]
      · refine (forall_splits _ _).mpr ?_
        simp [splitsOf, Op.failed, Except.toBool]
      · rcases ht with ⟨e, rfl⟩ | ⟨rid, e, rfl⟩ | ⟨hs, rid, rfl⟩ | ⟨hs, rid, e, rfl⟩ |
          ⟨hs, rid, e, rfl⟩ | ⟨hs, rid, rfl⟩ <;>
        (refine (forall_splits _ _).mpr ?_
         first
           | simp [splitsOf, Op.failed, Except.toBool, hs, hfacts]
           | simp [splitsOf, Op.failed, Except.toBool, hfacts])
    obtain ⟨h1, h2, h3⟩ := key mid _ post hb id e rfl
    subst hpre
    exact ⟨h1, List.mem_append_right _ h2, List.mem_append_right _ h3⟩
  · intro pre id out post hsplit
    have hx : Op.replicasPromote id out ∉ front := by
      intro hin
      rcases hfront _ hin with ⟨n, i, h⟩ | ⟨i, h⟩ <;> simp at h
    obtain ⟨mid, hpre, hb⟩ := split_in_back _ front back pre post hx hsplit
    have key : ∀ mid op post, back = mid ++ op :: post →
        ∀ id out, op = Op.replicasPromote id out →
        Op.replicasResync id none ∈ mid ∧ Op.WaitForReplicaSyncState id none ∈ mid ∧
          out = .panicked ∧ post = [] := by
      rcases hback with ⟨n, e, rfl⟩ | ⟨id, e, rfl⟩ | ⟨hfacts, ht⟩
      · refine (forall_splits _ _).mpr ?_
        simp [splitsOf, Op.failed, Except.toBool]
      · refine (forall_splits _ _).mpr ?_
        simp [splitsOf, Op.failed, Except.toBool]
      · rcases ht with ⟨e, rfl⟩ | ⟨rid, e, rfl⟩ | ⟨hs, rid, rfl⟩ | ⟨hs, rid, e, rfl⟩ |
          ⟨hs, rid, e, rfl⟩ | ⟨hs, rid, rfl⟩ <;>
        (refine (forall_splits _ _).mpr ?_
         first
           | simp [splitsOf, Op.failed, Except.toBool, hs, hfacts]
           | simp [splitsOf, Op.failed, Except.toBool, hfacts])
    obtain ⟨h1, h2, h3, h4⟩ := key mid _ post hb id out rfl
    subst hpre
    exact ⟨List.mem_append_right _ h1, List.mem_append_right _ h2, h3, h4⟩
  · intro pre id e post hsplit
    exfalso
    exact hactive id e (by rw [hsplit]; simp)
  · intro pre op post hsplit hfail
    have hx : op ∉ front := by
      intro hin
      rcases hfront op hin with ⟨n, id, rfl⟩ | ⟨id, rfl⟩ <;>
        simp [Op.failed, Except.toBool] at hfail
    obtain ⟨mid, hpre, hb⟩ := split_in_back op front back pre post hx hsplit
    have key : ∀ mid op post, back = mid ++ op :: post → op.failed = true → post = [] := by
      rcases hback with ⟨n, e, rfl⟩ | ⟨id, e, rfl⟩ | ⟨hfacts, ht⟩
      · refine (forall_splits _ _).mpr ?_
        simp [splitsOf, Op.failed, Except.toBool]
      · refine (forall_splits _ _).mpr ?_
        simp [splitsOf, Op.failed, Except.toBool]
      · rcases ht with ⟨e, rfl⟩ | ⟨rid, e, rfl⟩ | ⟨hs, rid, rfl⟩ | ⟨hs, rid, e, rfl⟩ |
          ⟨hs, rid, e, rfl⟩ | ⟨hs, rid, rfl⟩ <;>
        (refine (forall_splits _ _).mpr ?_
         first
           | simp [splitsOf, Op.failed, Except.toBool, hs, hfacts]
           | simp [splitsOf, Op.failed, Except.toBool, hfacts])
    exact key mid op post hb hfail

theorem manila_clone_stage_order_witness :
    sampleManilaOps =
        sampleManilaOps.take 8 ++ [Op.replicasPromote "repl-1" .panicked] ∧
      Op.replicasResync "repl-1" none ∈ sampleManilaOps.take 8 ∧
      Op.WaitForReplicaSyncState "repl-1" none ∈ sampleManilaOps.take 8 :=
  ((manila_clone_stage_order sampleStore sampleFlags "share-2" 3 []).1
    sampleManilaOps (by decide)).elim fun ops hops =>
    have hop : sampleManilaOps = ops := by simpa using hops.1
    have hsplit : ops = sampleManilaOps.take 8 ++
        Op.replicasPromote "repl-1" .panicked :: [] := by
      rw [← hop]
      decide
    have h := hops.2.2.2.2.1 (sampleManilaOps.take 8) "repl-1" .panicked [] hsplit
    ⟨by decide, h.1, h.2.1⟩

/-! ### The driver `main` -/

theorem processManilaClone_ops (store : Snapshotter) (flags : Flags) (snapID : String)
    (fuel : Nat) (log log1 : List Op)
    (h : processManilaClone store flags snapID fuel log = some log1) :
    ∃ ops, log1 = log ++ ops ∧ ∀ op ∈ ops, op.cloneFlow = true := by
  obtain ⟨front, back, hlog, hfront, hback⟩ :=
    processManilaClone_front_back store flags snapID fuel log log1 h
  refine ⟨front ++ back, hlog, ?_⟩
  have hb : ∀ op ∈ back, op.cloneFlow = true := by
    rcases hback with ⟨n, e, rfl⟩ | ⟨id, e, rfl⟩ | ⟨_, ht⟩
    · simp [Op.cloneFlow]
    · simp [Op.cloneFlow]
    · rcases ht with ⟨e, rfl⟩ | ⟨rid, e, rfl⟩ | ⟨_, rid, rfl⟩ | ⟨_, rid, e, rfl⟩ |
        ⟨_, rid, e, rfl⟩ | ⟨_, rid, rfl⟩ <;>
      simp [Op.cloneFlow]
  intro op hop
  rcases List.mem_append.mp hop with hop | hop
  · rcases hfront op hop with ⟨n, id, rfl⟩ | ⟨id, rfl⟩ <;> rfl
  · exact hb op hop

theorem processCinderClone_ops (store : Snapshotter) (flags : Flags) (snapID : String)
    (fuel : Nat) (log log1 : List Op)
    (h : processCinderClone store flags snapID fuel log = some log1) :
    ∃ ops, log1 = log ++ ops ∧ ∀ op ∈ ops, op.cloneFlow = true := by
  obtain ⟨names, ids, hlen, hc⟩ := processCinderClone_shape store flags snapID fuel log log1 h
  have hC : ∀ op ∈ List.zipWith (fun n id => Op.vsnapshotsCreate n snapID (.ok id)) names ids,
      op.cloneFlow = true := by
    intro op hop
    obtain ⟨n, id, rfl⟩ := mem_created Op.vsnapshotsCreate snapID names ids op hop
    rfl
  have hW : ∀ (l : List String), ∀ op ∈ l.map (fun id => Op.WaitForSnapshotStatus id none),
      op.cloneFlow = true := by
    intro l op hop
    obtain ⟨x, _, rfl⟩ := List.mem_map.mp hop
    rfl
  rcases hc with ⟨n, e, h1⟩ | ⟨hN, done, id, e, rest, hids, h1⟩ | ⟨hN, h1⟩
  · refine ⟨_, by rw [h1, List.append_assoc], ?_⟩
    intro op hop
    rcases List.mem_append.mp hop with hop | hop
    · exact hC op hop
    · simp only [List.mem_singleton] at hop; subst hop; rfl
  · refine ⟨_, by rw [h1, List.append_assoc, List.append_assoc], ?_⟩
    intro op hop
    rcases List.mem_append.mp hop with hop | hop
    · exact hC op hop
    · rcases List.mem_append.mp hop with hop | hop
      · exact hW done op hop
      · simp only [List.mem_singleton] at hop; subst hop; rfl
  · refine ⟨_, by rw [h1, List.append_assoc, List.append_assoc], ?_⟩
    intro op hop
    rcases List.mem_append.mp hop with hop | hop
    · exact hC op hop
    · rcases List.mem_append.mp hop with hop | hop
      · exact hW ids op hop
      · simp only [List.mem_singleton] at hop; subst hop; rfl

theorem mainClone_ops (store : Snapshotter) (flags : Flags) (newVolID : String)
    (fuel : Nat) (log log1 : List Op)
    (h : mainClone store flags newVolID fuel log = some log1) :
    ∃ ops, log1 = log ++ ops ∧ ∀ op ∈ ops, op.cloneFlow = true := by
  unfold mainClone at h
  by_cases hm : flags.method ≠ "clone"
  · rw [if_pos hm] at h
    simp only [Option.some.injEq] at h
    exact ⟨[], by simp [h], by simp⟩
  · rw [if_neg hm] at h
    by_cases h1 : flags.storageType = "manila"
    · rw [if_pos h1] at h
      exact processManilaClone_ops store flags newVolID fuel log log1 h
    · rw [if_neg h1] at h
      by_cases h2 : flags.storageType = "cinder"
      · rw [if_pos h2] at h
        exact processCinderClone_ops store flags newVolID fuel log log1 h
      · rw [if_neg h2] at h
        simp only [Option.some.injEq] at h
        exact ⟨[], by simp [h], by simp⟩

/-- Shape of the log of a finished `main`. -/
theorem main_shape (store : Snapshotter) (flags : Flags) (fuel : Nat) (log : List Op)
    (h : main store flags fuel = some log) :
    log = [] ∨
    (∃ e, log = [Op.Init (mainConfig flags) (some e)]) ∨
    (∃ e, log = [Op.Init (mainConfig flags) none,
      Op.CreateSnapshot flags.volID "" (.error e)]) ∨
    (∃ snapID e e2, log = [Op.Init (mainConfig flags) none,
      Op.CreateSnapshot flags.volID "" (.ok snapID),
      Op.CreateVolumeFromSnapshot snapID "" flags.az (.error e),
      Op.DeleteSnapshot snapID e2]) ∨
    (∃ snapID newVolID ops, (∀ op ∈ ops, op.cloneFlow = true) ∧
      log = [Op.Init (mainConfig flags) none,
        Op.CreateSnapshot flags.volID "" (.ok snapID),
        Op.CreateVolumeFromSnapshot snapID "" flags.az (.ok newVolID)] ++ ops ++
        [Op.DeleteSnapshot newVolID (store.DeleteSnapshot (3 + ops.length) newVolID),
         Op.DeleteSnapshot snapID (store.DeleteSnapshot (3 + ops.length + 1) snapID)]) := by
  unfold main at h
  by_cases hv : flags.volID = ""
  · rw [if_pos hv] at h
    simp only [Option.some.injEq] at h
    exact Or.inl h.symm
  · rw [if_neg hv] at h
    by_cases ht : flags.storageType ≠ "manila" ∧ flags.storageType ≠ "cinder"
    · rw [if_pos ht] at h
      simp only [Option.some.injEq] at h
      exact Or.inl h.symm
    · rw [if_neg ht] at h
      right
      cases hi : store.Init 0 (mainConfig flags) with
      | some e =>
        simp only [hi, Option.some.injEq] at h
        exact Or.inl ⟨e, h.symm⟩
      | none =>
        right
        simp only [hi] at h
        cases hs : store.CreateSnapshot [Op.Init (mainConfig flags) none].length flags.volID ""
          with
        | error e =>
          simp only [hs, Option.some.injEq] at h
          exact Or.inl ⟨e, h.symm⟩
        | ok snapID =>
          right
          simp only [hs] at h
          unfold mainVolume at h
          cases hc : store.CreateVolumeFromSnapshot
              ([Op.Init (mainConfig flags) none] ++
                [Op.CreateSnapshot flags.volID "" (.ok snapID)]).length snapID "" flags.az with
          | error e =>
            simp only [hc, Option.some.injEq] at h
            exact Or.inl ⟨snapID, e, _, by rw [← h]; rfl⟩
          | ok newVolID =>
            right
            simp only [hc] at h
            cases hcl : mainClone store flags newVolID fuel
                ([Op.Init (mainConfig flags) none] ++
                  [Op.CreateSnapshot flags.volID "" (.ok snapID)] ++
                  [Op.CreateVolumeFromSnapshot snapID "" flags.az (.ok newVolID)]) with
            | none =>
              rw [hcl] at h
              simp at h
            | some log2 =>
              rw [hcl] at h
              simp only [Option.some.injEq] at h
              obtain ⟨ops, hops, hall⟩ := mainClone_ops store flags newVolID fuel _ log2 hcl
              refine ⟨snapID, newVolID, ops, hall, ?_⟩
              have hlen : log2.length = 3 + ops.length := by rw [hops]; simp; omega
              rw [← h]
              simp only [deferredDelete, List.length_append, List.length_singleton, hlen]
              rw [hops]
              simp only [List.append_assoc, List.cons_append, List.nil_append]

theorem deletions_cloneFlow (ops : List Op) (h : ∀ op ∈ ops, op.cloneFlow = true) :
    deletions ops = [] := by
  induction ops with
  | nil => rfl
  | cons a rest ih =>
    have ha := h a (List.mem_cons_self _ _)
    have hr := ih (fun op hop => h op (List.mem_cons_of_mem _ hop))
    cases a <;> simp [Op.cloneFlow] at ha <;>
      simpa [deletions, Op.deletion, List.filterMap_cons] using hr

/-- `main` returns when the creation loop is given `nSnap + 1` rounds. -/
theorem main_returns (store : Snapshotter) (flags : Flags) (fuel : Nat)
    (hsmall : flags.nSnap + 1 < uintSize) (hfuel : flags.nSnap < fuel) :
    ∃ log, main store flags fuel = some log := by
  have hclone : ∀ newVolID log, ∃ log1, mainClone store flags newVolID fuel log = some log1 := by
    intro newVolID log
    unfold mainClone
    by_cases hm : flags.method ≠ "clone"
    · rw [if_pos hm]; exact ⟨_, rfl⟩
    · rw [if_neg hm]
      by_cases h1 : flags.storageType = "manila"
      · rw [if_pos h1]
        exact processManilaClone_returns store flags newVolID fuel log hsmall hfuel
      · rw [if_neg h1]
        by_cases h2 : flags.storageType = "cinder"
        · rw [if_pos h2]
          exact processCinderClone_returns store flags newVolID fuel log hsmall hfuel
        · rw [if_neg h2]; exact ⟨_, rfl⟩
  unfold main
  by_cases hv : flags.volID = ""
  · rw [if_pos hv]; exact ⟨_, rfl⟩
  · rw [if_neg hv]
    by_cases ht : flags.storageType ≠ "manila" ∧ flags.storageType ≠ "cinder"
    · rw [if_pos ht]; exact ⟨_, rfl⟩
    · rw [if_neg ht]
      cases hi : store.Init 0 (mainConfig flags) with
      | some e => exact ⟨_, rfl⟩
      | none =>
        simp only
        cases hs : store.CreateSnapshot [Op.Init (mainConfig flags) none].length flags.volID ""
          with
        | error e => exact ⟨_, rfl⟩
        | ok snapID =>
          simp only
          unfold mainVolume
          cases hc : store.CreateVolumeFromSnapshot
              ([Op.Init (mainConfig flags) none] ++
                [Op.CreateSnapshot flags.volID "" (.ok snapID)]).length snapID "" flags.az with
          | error e => exact ⟨_, rfl⟩
          | ok newVolID =>
            simp only
            obtain ⟨log1, h1⟩ := hclone newVolID
              ([Op.Init (mainConfig flags) none] ++
                [Op.CreateSnapshot flags.volID "" (.ok snapID)] ++
                [Op.CreateVolumeFromSnapshot snapID "" flags.az (.ok newVolID)])
            rw [h1]
            exact ⟨_, rfl⟩

/-- C7: in a finished run of `main` in which `CreateSnapshot` returned `snapID`
and `CreateVolumeFromSnapshot` returned `newVolID`, whatever the clone flow
did, the log ends with the deletion attempt for `newVolID` followed by the one
for `snapID`, and there is no other deletion attempt; the result of the first
deletion is whatever the store answers and has no bearing on the second.
`main` does finish when `nSnap` is below the largest `uint` and the creation
loop is given more than `nSnap` rounds. -/
theorem main_deletes_volume_then_snapshot (store : Snapshotter) (flags : Flags) (fuel : Nat) :
    (∀ log, main store flags fuel = some log →
      ∀ v a snapID s t z newVolID,
      Op.CreateSnapshot v a (.ok snapID) ∈ log →
      Op.CreateVolumeFromSnapshot s t z (.ok newVolID) ∈ log →
      ∃ body, deletions body = [] ∧
        log = body ++
          [Op.DeleteSnapshot newVolID (store.DeleteSnapshot body.length newVolID),
           Op.DeleteSnapshot snapID (store.DeleteSnapshot (body.length + 1) snapID)]) ∧
    (flags.nSnap + 1 < uintSize → flags.nSnap < fuel →
      ∃ log, main store flags fuel = some log) := by
  refine ⟨?_, main_returns store flags fuel⟩
  intro log h v a snapID s t z newVolID hcs hcv
  rcases main_shape store flags fuel log h with rfl | ⟨e, rfl⟩ | ⟨e, rfl⟩ |
    ⟨sid, e, e2, rfl⟩ | ⟨sid, vid, ops, hall, rfl⟩
  · simp at hcs
  · simp at hcs
  · simp at hcv
  · simp at hcv
  · have hnoCS : ∀ v a r, Op.CreateSnapshot v a r ∉ ops := by
      intro v a r hin
      have := hall _ hin
      simp [Op.cloneFlow] at this
    have hnoCV : ∀ s t z r, Op.CreateVolumeFromSnapshot s t z r ∉ ops := by
      intro s t z r hin
      have := hall _ hin
      simp [Op.cloneFlow] at this
    have h1 : snapID = sid := by
      simp only [List.cons_append, List.nil_append, List.mem_cons, List.mem_append,
        List.mem_singleton, List.not_mem_nil, or_false] at hcs
      rcases hcs with hcs | hcs | hcs | hcs | hcs | hcs
      · simp at hcs
      · simp only [Op.CreateSnapshot.injEq, Except.ok.injEq] at hcs
        exact hcs.2.2
      · simp at hcs
      · exact absurd hcs (hnoCS _ _ _)
      · simp at hcs
      · simp at hcs
    have h2 : newVolID = vid := by
      simp only [List.cons_append, List.nil_append, List.mem_cons, List.mem_append,
        List.mem_singleton, List.not_mem_nil, or_false] at hcv
      rcases hcv with hcv | hcv | hcv | hcv | hcv | hcv
      · simp at hcv
      · simp at hcv
      · simp only [Op.CreateVolumeFromSnapshot.injEq, Except.ok.injEq] at hcv
        exact hcv.2.2.2
      · exact absurd hcv (hnoCV _ _ _ _)
      · simp at hcv
      · simp at hcv
    subst h1 h2
    refine ⟨[Op.Init (mainConfig flags) none,
        Op.CreateSnapshot flags.volID "" (.ok snapID),
        Op.CreateVolumeFromSnapshot snapID "" flags.az (.ok newVolID)] ++ ops, ?_, ?_⟩
    · have := deletions_cloneFlow ops hall
      simpa [deletions, Op.deletion, List.filterMap_cons, List.filterMap_append] using this
    · have hlen : ([Op.Init (mainConfig flags) none,
          Op.CreateSnapshot flags.volID "" (.ok snapID),
          Op.CreateVolumeFromSnapshot snapID "" flags.az (.ok newVolID)] ++ ops).length =
          3 + ops.length := by simp; omega
      rw [hlen]

theorem main_deletes_volume_then_snapshot_witness :
    ∃ body, deletions body = [] ∧
      refusedMainOps = body ++
        [Op.DeleteSnapshot "share-2" (refusingStore.DeleteSnapshot body.length "share-2"),
         Op.DeleteSnapshot "snap-1" (refusingStore.DeleteSnapshot (body.length + 1) "snap-1")] :=
  (main_deletes_volume_then_snapshot refusingStore sampleFlags 3).1 refusedMainOps (by decide)
    "share-1" "" "snap-1" "snap-1" "" "az-2" "share-2" (by decide) (by decide)

/-- An auxiliary snapshot that `processManilaClone` created and that no
deletion attempt of the run names: the run of `main` with the sample store and
flags creates `snap-test-3` as its fourth operation, and the only deletion
attempts are those for `share-2` and `snap-1`. -/
theorem aux_snapshot_without_deletion :
    main sampleStore sampleFlags 3 = some sampleMainOps ∧
    sampleMainOps = sampleMainOps.take 3 ++
      Op.snapshotsCreate "test snapshot from share-2 1" "share-2" (.ok "snap-test-3") ::
      sampleMainOps.drop 4 ∧
    deletions sampleMainOps = ["share-2", "snap-1"] ∧
    "snap-test-3" ∉ deletions sampleMainOps := by
  decide

/-- C6, amended: in a finished run of `main`, for either backend and every
result of the store operations, the identifier that `CreateSnapshot` returned
for the source snapshot is the argument of a deletion attempt issued after
that creation, as the last operation of the run, also when a later step
failed; and every deletion attempt of the run names the source snapshot or
the volume that `CreateVolumeFromSnapshot` returned, so the auxiliary snapshots
of the clone flows get no deletion attempt of their own.  `main` does finish
when `nSnap` is below the largest `uint` and the creation loop is given more
than `nSnap` rounds. -/
theorem main_deletes_source_snapshot (store : Snapshotter) (flags : Flags) (fuel : Nat) :
    (∀ log, main store flags fuel = some log →
      (∀ pre v a snapID post, log = pre ++ Op.CreateSnapshot v a (.ok snapID) :: post →
        ∃ mid e, post = mid ++ [Op.DeleteSnapshot snapID e]) ∧
      (∀ id ∈ deletions log,
        (∃ v a, Op.CreateSnapshot v a (.ok id) ∈ log) ∨
        (∃ s t z, Op.CreateVolumeFromSnapshot s t z (.ok id) ∈ log))) ∧
    (flags.nSnap + 1 < uintSize → flags.nSnap < fuel →
      ∃ log, main store flags fuel = some log) := by
  refine ⟨?_, main_returns store flags fuel⟩
  intro log h
  rcases main_shape store flags fuel log h with rfl | ⟨e, rfl⟩ | ⟨e, rfl⟩ |
    ⟨sid, e, e2, rfl⟩ | ⟨sid, vid, ops, hall, rfl⟩
  · constructor
    · intro pre v a snapID post hs
      simp at hs
    · simp [deletions]
  · constructor
    · intro pre v a snapID post hs
      have key : ∀ pre x post, [Op.Init (mainConfig flags) (some e)] = pre ++ x :: post →
          ∀ v a snapID, x ≠ Op.CreateSnapshot v a (.ok snapID) := by
        refine (forall_splits _ _).mpr ?_
        simp [splitsOf]
      exact absurd rfl (key pre _ post hs v a snapID)
    · simp [deletions, Op.deletion, List.filterMap_cons]
  · constructor
    · intro pre v a snapID post hs
      have key : ∀ pre x post, [Op.Init (mainConfig flags) none,
          Op.CreateSnapshot flags.volID "" (.error e)] = pre ++ x :: post →
          ∀ v a snapID, x ≠ Op.CreateSnapshot v a (.ok snapID) := by
        refine (forall_splits _ _).mpr ?_
        simp [splitsOf]
      exact absurd rfl (key pre _ post hs v a snapID)
    · simp [deletions, Op.deletion, List.filterMap_cons]
  · constructor
    · intro pre v a snapID post hs
      have key : ∀ pre x post, [Op.Init (mainConfig flags) none,
          Op.CreateSnapshot flags.volID "" (.ok sid),
          Op.CreateVolumeFromSnapshot sid "" flags.az (.error e),
          Op.DeleteSnapshot sid e2] = pre ++ x :: post →
          ∀ v a snapID, x = Op.CreateSnapshot v a (.ok snapID) →
          post = [Op.CreateVolumeFromSnapshot sid "" flags.az (.error e)] ++
            [Op.DeleteSnapshot snapID e2] := by
        refine (forall_splits _ _).mpr ?_
        simp [splitsOf]
      exact ⟨_, _, key pre _ post hs v a snapID rfl⟩
    · simp [deletions, Op.deletion, List.filterMap_cons]
  · constructor
    · intro pre v a snapID post hs
      have hx : Op.CreateSnapshot v a (.ok snapID) ∉ ops := by
        intro hin
        have := hall _ hin
        simp [Op.cloneFlow] at this
      rw [List.append_assoc] at hs
      rcases split_append_cases _ _ _ _ _ hs with ⟨post1, h1, h2⟩ | ⟨pre1, _, h2⟩
      · have key : ∀ pre x post, [Op.Init (mainConfig flags) none,
            Op.CreateSnapshot flags.volID "" (.ok sid),
            Op.CreateVolumeFromSnapshot sid "" flags.az (.ok vid)] = pre ++ x :: post →
            ∀ v a snapID, x = Op.CreateSnapshot v a (.ok snapID) →
            snapID = sid := by
          refine (forall_splits _ _).mpr ?_
          simp [splitsOf]
        have hsid := key pre _ post1 h1 v a snapID rfl
        subst hsid
        refine ⟨post1 ++ ops ++
          [Op.DeleteSnapshot vid (store.DeleteSnapshot (3 + ops.length) vid)],
          store.DeleteSnapshot (3 + ops.length + 1) snapID, ?_⟩
        rw [h2]
        simp only [List.append_assoc, List.cons_append, List.nil_append]
      · exfalso
        obtain ⟨mid, _, h3⟩ := split_in_back _ _ _ _ _ hx h2
        have key : ∀ pre x post,
            [Op.DeleteSnapshot vid (store.DeleteSnapshot (3 + ops.length) vid),
             Op.DeleteSnapshot sid (store.DeleteSnapshot (3 + ops.length + 1) sid)] =
              pre ++ x :: post →
            ∀ v a snapID, x ≠ Op.CreateSnapshot v a (.ok snapID) := by
          refine (forall_splits _ _).mpr ?_
          simp [splitsOf]
        exact key mid _ post h3 v a snapID rfl
    · have hd := deletions_cloneFlow ops hall
      intro id hid
      simp only [deletions, List.filterMap_append, List.filterMap_cons, Op.deletion,
        List.filterMap_nil, List.nil_append, List.mem_append, List.mem_cons,
        List.not_mem_nil, or_false] at hid
      rw [deletions] at hd
      rw [hd] at hid
      simp only [List.not_mem_nil, false_or] at hid
      rcases hid with rfl | rfl
      · exact Or.inr ⟨sid, "", flags.az, by simp⟩
      · exact Or.inl ⟨flags.volID, "", by simp⟩

theorem main_deletes_source_snapshot_witness :
    ∃ mid e, sampleMainOps.drop 2 = mid ++ [Op.DeleteSnapshot "snap-1" e] :=
  ((main_deletes_source_snapshot sampleStore sampleFlags 3).1 sampleMainOps (by decide)).1
    (sampleMainOps.take 1) "share-1" "" "snap-1" (sampleMainOps.drop 2) (by decide)

end Driver

/-! ## Theorems: `ReplaceAccount` -/

theorem splitChars_ne_nil (sep : Char) (cs : List Char) : splitChars sep cs ≠ [] := by
  cases cs with
  | nil => simp [splitChars]
  | cons c rest =>
    rw [splitChars]
    by_cases hc : c = sep
    · simp [hc]
    · simp only [hc, if_false]
      cases splitChars sep rest <;> simp

theorem stringsJoin_cons_char (c : Char) (a : List Char) (rest : List String) (sep : String) :
    stringsJoin (String.mk (c :: a) :: rest) sep =
      String.mk [c] ++ stringsJoin (String.mk a :: rest) sep := by
  cases rest with
  | nil => rfl
  | cons b r =>
    simp only [stringsJoin]
    rw [show String.mk (c :: a) = String.mk [c] ++ String.mk a from rfl]
    simp only [String.append_assoc]

/-- Joining the pieces of a text with the separator gives the text back. -/
theorem stringsJoin_splitChars (cs : List Char) :
    stringsJoin ((splitChars '/' cs).map String.mk) "/" = String.mk cs := by
  induction cs with
  | nil => rfl
  | cons c rest ih =>
    rw [splitChars]
    by_cases hc : c = '/'
    · simp only [hc, if_true, List.map_cons]
      cases hs : splitChars '/' rest with
      | nil => exact absurd hs (splitChars_ne_nil _ _)
      | cons b r =>
        rw [hs] at ih
        simp only [List.map_cons] at ih ⊢
        simp only [stringsJoin]
        rw [ih]
        rfl
    · simp only [hc, if_false]
      cases hs : splitChars '/' rest with
      | nil => exact absurd hs (splitChars_ne_nil _ _)
      | cons b r =>
        rw [hs] at ih
        simp only [List.map_cons] at ih ⊢
        rw [stringsJoin_cons_char, ih]
        rfl

theorem stringsJoin_stringsSplit (path : String) :
    stringsJoin (stringsSplit path '/') "/" = path :=
  stringsJoin_splitChars path.data

theorem replaceFirst_of_none (account pfx : String) :
    ∀ parts : List String, (∀ s ∈ parts, stringsHasPrefix s pfx = false) →
    replaceFirst account pfx parts = parts := by
  intro parts
  induction parts with
  | nil => intro _; rfl
  | cons a rest ih =>
    intro h
    rw [replaceFirst]
    have ha := h a (List.mem_cons_self _ _)
    simp only [ha, Bool.false_eq_true, if_false]
    rw [ih (fun s hs => h s (List.mem_cons_of_mem _ hs))]

theorem replaceFirst_at (account pfx seg : String) (post : List String) :
    ∀ pre : List String, (∀ s ∈ pre, stringsHasPrefix s pfx = false) →
    stringsHasPrefix seg pfx = true →
    replaceFirst account pfx (pre ++ seg :: post) = pre ++ (pfx ++ account) :: post := by
  intro pre
  induction pre with
  | nil =>
    intro _ hseg
    simp [replaceFirst, hseg]
  | cons a rest ih =>
    intro h hseg
    have ha := h a (List.mem_cons_self _ _)
    have hrest := ih (fun s hs => h s (List.mem_cons_of_mem _ hs)) hseg
    rw [List.cons_append, replaceFirst]
    simp only [ha, Bool.false_eq_true, if_false, hrest, List.cons_append]

/-- C11: for a single prefix `p`, `ReplaceAccount` gives the path in which the
first segment between slashes that starts with `p` is replaced by `p` followed
by the account, every other segment being left as it is; for every list of
prefixes, a path none of whose segments starts with any of them is returned
unchanged.  The two listed cases evaluate as stated. -/
theorem replaceAccount_first_segment :
    (∀ (account path p : String) (pre : List String) (seg : String) (post : List String),
      stringsSplit path '/' = pre ++ seg :: post →
      (∀ s ∈ pre, stringsHasPrefix s p = false) →
      stringsHasPrefix seg p = true →
      ReplaceAccount account path [p] = stringsJoin (pre ++ (p ++ account) :: post) "/") ∧
    (∀ (account path : String) (prefixes : List String),
      (∀ p ∈ prefixes, ∀ s ∈ stringsSplit path '/', stringsHasPrefix s p = false) →
      ReplaceAccount account path prefixes = path) ∧
    ReplaceAccount "john-doe"
        "https://swift.openstack.domain.com:443/swift/v1/AUTH_randomstring1234"
        ["AUTH_", "SERVICE_"] =
      "https://swift.openstack.domain.com:443/swift/v1/AUTH_john-doe" ∧
    ReplaceAccount "john-doe"
        "https://swift.openstack.domain.com:443/swift/v1/AUTH_randomstring1234"
        ["IMAGE_"] =
      "https://swift.openstack.domain.com:443/swift/v1/AUTH_randomstring1234" := by
  refine ⟨?_, ?_, by decide, by decide⟩
  · intro account path p pre seg post hsplit hpre hseg
    simp only [ReplaceAccount, List.foldl_cons, List.foldl_nil]
    rw [hsplit, replaceFirst_at account p seg post pre hpre hseg]
  · intro account path prefixes h
    have hfold : ∀ (ps : List String) (parts : List String),
        (∀ p ∈ ps, ∀ s ∈ parts, stringsHasPrefix s p = false) →
        ps.foldl (fun parts pfx => replaceFirst account pfx parts) parts = parts := by
      intro ps
      induction ps with
      | nil => intro parts _; rfl
      | cons q qs ih =>
        intro parts hq
        simp only [List.foldl_cons]
        rw [replaceFirst_of_none account q parts (hq q (List.mem_cons_self _ _))]
        exact ih parts (fun p hp => hq p (List.mem_cons_of_mem _ hp))
    simp only [ReplaceAccount]
    rw [hfold prefixes _ h]
    exact stringsJoin_stringsSplit path

theorem replaceAccount_first_segment_witness :
    ReplaceAccount "john-doe" "swift.domain.com:443/swift/v1/SERVICE_randomstring1234"
        ["SERVICE_"] =
      stringsJoin (["swift.domain.com:443", "swift", "v1"] ++
        ("SERVICE_" ++ "john-doe") :: []) "/" :=
  replaceAccount_first_segment.1 "john-doe"
    "swift.domain.com:443/swift/v1/SERVICE_randomstring1234" "SERVICE_"
    ["swift.domain.com:443", "swift", "v1"] "SERVICE_randomstring1234" []
    (by decide) (by decide) (by decide)

/-! ## Theorems: `getShareAccessRule` -/

namespace Manila

/-- C12: `getShareAccessRule` sends the legacy listing exactly when the
microversion of the client is `"2.7"` and the newer listing otherwise; from a
listing that succeeded with at least one rule it returns the first rule only,
as one access-rule record with the same `ID`, `ShareID`, `AccessKey`,
`AccessLevel`, `AccessTo`, `AccessType` and `State`, whichever listing gave
it; from a listing that failed or is empty it returns an error and no rule. -/
theorem getShareAccessRule_first_rule (env : Env) (client : ServiceClient)
    (volumeID : String) (log : List Call) :
    (client.Microversion = "2.7" →
      (getShareAccessRule env client volumeID log).2 =
        log ++ [Call.listAccessRights volumeID (env.listAccessRights log.length volumeID)]) ∧
    (client.Microversion ≠ "2.7" →
      (getShareAccessRule env client volumeID log).2 =
        log ++ [Call.shareAccessRulesList volumeID
          (env.shareAccessRulesList log.length volumeID)]) ∧
    (∀ rule rest, client.Microversion = "2.7" →
      env.listAccessRights log.length volumeID = .ok (rule :: rest) →
      (getShareAccessRule env client volumeID log).1 = .ok rule) ∧
    (∀ rule rest, client.Microversion ≠ "2.7" →
      env.shareAccessRulesList log.length volumeID = .ok (rule :: rest) →
      ∃ r, (getShareAccessRule env client volumeID log).1 = .ok r ∧
        r.ID = rule.ID ∧ r.ShareID = rule.ShareID ∧ r.AccessKey = rule.AccessKey ∧
        r.AccessLevel = rule.AccessLevel ∧ r.AccessTo = rule.AccessTo ∧
        r.AccessType = rule.AccessType ∧ r.State = rule.State) ∧
    (∀ e, client.Microversion = "2.7" →
      env.listAccessRights log.length volumeID = .error e →
      (getShareAccessRule env client volumeID log).1 = .error
        (fmtErrorf "failed to list volume %v access rules from manila: %w" [volumeID]
          (some e))) ∧
    (∀ e, client.Microversion ≠ "2.7" →
      env.shareAccessRulesList log.length volumeID = .error e →
      (getShareAccessRule env client volumeID log).1 = .error
        (fmtErrorf "failed to list volume %v access rules from manila: %w" [volumeID]
          (some e))) ∧
    (client.Microversion = "2.7" →
      env.listAccessRights log.length volumeID = .ok [] →
      (getShareAccessRule env client volumeID log).1 = .error
        (fmtErrorf "failed to find volume %v access rules from manila: %w" [volumeID] none)) ∧
    (client.Microversion ≠ "2.7" →
      env.shareAccessRulesList log.length volumeID = .ok [] →
      (getShareAccessRule env client volumeID log).1 = .error
        (fmtErrorf "failed to find volume %v access rules from manila: %w" [volumeID]
          none)) := by
  have hm : minSupportedMicroversion = "2.7" := rfl
  refine ⟨?_, ?_, ?_, ?_, ?_, ?_, ?_, ?_⟩
  · intro h
    simp only [getShareAccessRule, hm, h, if_true, listAccessRights]
    cases hres : env.listAccessRights log.length volumeID with
    | error e => rfl
    | ok rs => cases rs <;> rfl
  · intro h
    simp only [getShareAccessRule, hm, h, if_false, shareAccessRulesList]
    cases hres : env.shareAccessRulesList log.length volumeID with
    | error e => rfl
    | ok rs => cases rs <;> rfl
  · intro rule rest h hres
    simp only [getShareAccessRule, hm, h, if_true, listAccessRights, hres]
  · intro rule rest h hres
    simp only [getShareAccessRule, hm, h, if_false, shareAccessRulesList, hres]
    exact ⟨_, rfl, rfl, rfl, rfl, rfl, rfl, rfl, rfl⟩
  · intro e h hres
    simp only [getShareAccessRule, hm, h, if_true, listAccessRights, hres]
  · intro e h hres
    simp only [getShareAccessRule, hm, h, if_false, shareAccessRulesList, hres]
  · intro h hres
    simp only [getShareAccessRule, hm, h, if_true, listAccessRights, hres]
  · intro h hres
    simp only [getShareAccessRule, hm, h, if_false, shareAccessRulesList, hres]

theorem getShareAccessRule_first_rule_witness :
    (getShareAccessRule sampleEnv sampleClient "share-1" []).2 =
      [] ++ [Call.shareAccessRulesList "share-1"
        (sampleEnv.shareAccessRulesList ([] : List Call).length "share-1")] :=
  (getShareAccessRule_first_rule sampleEnv sampleClient "share-1" []).2.1 (by decide)

end Manila

/-! ## Theorems: the strings `microversionToInt` accepts -/

/-- What a match of `mvRe` looks like: digits, one character that is not a
newline, digits. -/
theorem mvReFrom_sound : ∀ (s pre x y : List Char), mvReFrom pre s = some (x, y) →
    ∃ a c, s = a ++ c :: y ∧ x = pre ++ a ∧ a.all isDigit = true ∧ pre ++ a ≠ [] ∧
      c ≠ '\n' ∧ y ≠ [] ∧ y.all isDigit = true := by
  intro s
  induction s with
  | nil => intro pre x y h; simp [mvReFrom] at h
  | cons c rest ih =>
    intro pre x y h
    rw [mvReFrom] at h
    by_cases hd : isDigit c = true
    · simp only [hd, if_true] at h
      cases hrec : mvReFrom (pre ++ [c]) rest with
      | some m =>
        simp only [hrec, Option.some.injEq] at h
        subst h
        obtain ⟨a, c1, h1, h2, h3, _, h5, h6, h7⟩ := ih (pre ++ [c]) x y hrec
        refine ⟨c :: a, c1, by simp [h1], by simp [h2], by simp [hd, h3], by simp, h5, h6, h7⟩
      | none =>
        simp only [hrec] at h
        split at h
        · rename_i hcond
          simp only [Option.some.injEq, Prod.mk.injEq] at h
          obtain ⟨h1, h2⟩ := h
          subst h1 h2
          exact ⟨[], c, by simp, by simp, by simp, by simpa using hcond.1, hcond.2.1,
            hcond.2.2.1, hcond.2.2.2⟩
        · simp at h
    · simp only [hd, Bool.false_eq_true, if_false] at h
      split at h
      · rename_i hcond
        simp only [Option.some.injEq, Prod.mk.injEq] at h
        obtain ⟨h1, h2⟩ := h
        subst h1 h2
        exact ⟨[], c, by simp, by simp, by simp, by simpa using hcond.1, hcond.2.1,
          hcond.2.2.1, hcond.2.2.2⟩
      · simp at h

/-- Every text made of digits, one character that is not a newline, and digits
is matched by `mvRe`. -/
theorem mvReFrom_complete (c : Char) (b : List Char) (hc : c ≠ '\n') (hb : b ≠ [])
    (hbd : b.all isDigit = true) :
    ∀ (a pre : List Char), a.all isDigit = true → pre ++ a ≠ [] →
    ∃ m, mvReFrom pre (a ++ c :: b) = some m := by
  intro a
  induction a with
  | nil =>
    intro pre _ hne
    have hpre : pre ≠ [] := by simpa using hne
    simp only [List.nil_append]
    rw [mvReFrom]
    cases hfirst : (if isDigit c = true then mvReFrom (pre ++ [c]) b else none) with
    | some m => exact ⟨m, rfl⟩
    | none =>
      simp only
      rw [if_pos ⟨hpre, hc, hb, hbd⟩]
      exact ⟨_, rfl⟩
  | cons d rest ih =>
    intro pre had _
    simp only [List.all_cons, Bool.and_eq_true] at had
    obtain ⟨m, hm⟩ := ih (pre ++ [d]) had.2 (by simp)
    refine ⟨m, ?_⟩
    rw [List.cons_append, mvReFrom]
    simp only [had.1, if_true, hm]

/-- The strings that `microversionToInt` accepts: digits, any one character
but a newline, digits. -/
theorem microversionToInt_accepts_iff (mv : String) :
    (∃ v, microversionToInt mv = .ok v) ↔
      ∃ a c b, mv.data = a ++ c :: b ∧ a ≠ [] ∧ a.all isDigit = true ∧ c ≠ '\n' ∧
        b ≠ [] ∧ b.all isDigit = true := by
  constructor
  · rintro ⟨v, hv⟩
    unfold microversionToInt mvReFind at hv
    cases hm : mvReFrom [] mv.data with
    | none => simp [hm] at hv
    | some m =>
      obtain ⟨x, y⟩ := m
      obtain ⟨a, c, h1, _, h3, h4, h5, h6, h7⟩ := mvReFrom_sound _ _ _ _ hm
      exact ⟨a, c, y, h1, by simpa using h4, h3, h5, h6, h7⟩
  · rintro ⟨a, c, b, h1, h2, h3, h4, h5, h6⟩
    obtain ⟨m, hm⟩ := mvReFrom_complete c b h4 h5 h6 a [] h3 (by simpa using h2)
    unfold microversionToInt mvReFind
    rw [h1, hm]
    exact ⟨_, rfl⟩

/-- C13, at the inputs where the code departs from it: the dot of `mvRe` is not
escaped and stands for any character, so `"257"` and `"2x7"` are read as the
microversion `(2, 7)` and `CompareMicroversions "lte" "257" "2.50"` returns
`true` without an error; `"2.7.1"` is rejected. -/
theorem microversion_dot_matches_any_character :
    microversionToInt "257" = .ok (2, 7) ∧
    microversionToInt "2x7" = .ok (2, 7) ∧
    CompareMicroversions "lte" "257" "2.50" = (true, none) ∧
    CompareMicroversions "gte" "2.50" "2x7" = (true, none) ∧
    microversionToInt "2.7.1" =
      .error (.errorf "invalid microversion string: %v" ["2.7.1"]) := by
  decide

/-! ## Theorems: the two operators as an order -/

/-- The result of `CompareMicroversions` on two strings that parse. -/
theorem compare_parsed (op a b : String) (va vb : Int × Int)
    (hop : op = "lte" ∨ op = "gte")
    (ha : microversionToInt a = .ok va) (hb : microversionToInt b = .ok vb) :
    CompareMicroversions op a b =
      (if op = "lte" then
        (if va.1 < vb.1 then (true, none)
         else (decide (va.1 ≤ vb.1) && decide (va.2 ≤ vb.2), none))
       else
        (if va.1 > vb.1 then (true, none)
         else (decide (va.1 ≥ vb.1) && decide (va.2 ≥ vb.2), none))) := by
  have hnot : ¬ (op ≠ "lte" ∧ op ≠ "gte") := by
    rcases hop with h | h <;> simp [h]
  simp only [CompareMicroversions, hnot, if_false, ha, hb]

/-- The operator `"lte"` on `(a, b)` and the operator `"gte"` on `(b, a)` give
the same boolean, and an error together or not at all. -/
theorem compare_dual (a b : String) :
    (CompareMicroversions "lte" a b).1 = (CompareMicroversions "gte" b a).1 ∧
    (CompareMicroversions "lte" a b).2.isSome = (CompareMicroversions "gte" b a).2.isSome := by
  have hne : ¬ ("gte" = "lte") := by decide
  cases ha : microversionToInt a with
  | error ea =>
    cases hb : microversionToInt b with
    | error eb => simp [CompareMicroversions, ha, hb]
    | ok vb => simp [CompareMicroversions, ha, hb]
  | ok va =>
    cases hb : microversionToInt b with
    | error eb => simp [CompareMicroversions, ha, hb]
    | ok vb =>
      rw [compare_parsed "lte" a b va vb (Or.inl rfl) ha hb,
        compare_parsed "gte" b a vb va (Or.inr rfl) hb ha]
      simp only [if_true, hne, if_false]
      by_cases h1 : va.1 < vb.1
      · simp [h1]
      · have h2 : ¬ vb.1 > va.1 := h1
        simp only [h1, h2, if_false, ge_iff_le, and_self]

/-- C14, where the code departs from it: `9223372036854775808.0` and
`9223372036854775807.0` are both accepted by `microversionToInt`, their majors
are different numbers, and yet both `"lte"` and `"gte"` return `true` on them
without an error, because `strconv.Atoi` gives the largest `int` for a major
beyond the range of `int` and its error is dropped. -/
theorem compareMicroversions_beyond_int_range :
    CompareMicroversions "lte" "9223372036854775808.0" "9223372036854775807.0" = (true, none) ∧
    CompareMicroversions "gte" "9223372036854775808.0" "9223372036854775807.0" = (true, none) ∧
    mvReFind "9223372036854775808.0" = some ("9223372036854775808".data, "0".data) ∧
    mvReFind "9223372036854775807.0" = some ("9223372036854775807".data, "0".data) ∧
    decimalValue "9223372036854775808".data ≠ decimalValue "9223372036854775807".data ∧
    microversionToInt "9223372036854775808.0" = .ok (9223372036854775807, 0) ∧
    microversionToInt "9223372036854775807.0" = .ok (9223372036854775807, 0) := by
  decide

/-- C14, amended: `CompareMicroversions "lte" a b` and
`CompareMicroversions "gte" b a` return the same boolean and the same error
status for all strings; for strings `a` and `b` that `microversionToInt`
accepts, neither operator returns an error, at least one of `"lte"` and `"gte"`
on `(a, b)` is true, and both are true exactly when the two strings are read
as the same pair of `int` values; and for `major.minor` strings of digits whose
majors and minors fit in an `int`, both are true exactly when the majors are
the same number and the minors are the same number. -/
theorem compareMicroversions_total_order :
    (∀ a b : String,
      (CompareMicroversions "lte" a b).1 = (CompareMicroversions "gte" b a).1 ∧
      (CompareMicroversions "lte" a b).2.isSome =
        (CompareMicroversions "gte" b a).2.isSome) ∧
    (∀ (a b : String) (va vb : Int × Int),
      microversionToInt a = .ok va → microversionToInt b = .ok vb →
      (CompareMicroversions "lte" a b).2 = none ∧
      (CompareMicroversions "gte" a b).2 = none ∧
      ((CompareMicroversions "lte" a b).1 = true ∨
        (CompareMicroversions "gte" a b).1 = true) ∧
      (((CompareMicroversions "lte" a b).1 = true ∧
        (CompareMicroversions "gte" a b).1 = true) ↔ va = vb)) ∧
    (∀ a1 a2 b1 b2 : List Char,
      IsIntLiteral a1 → IsIntLiteral a2 → IsIntLiteral b1 → IsIntLiteral b2 →
      (((CompareMicroversions "lte" (String.mk (a1 ++ '.' :: a2))
            (String.mk (b1 ++ '.' :: b2))).1 = true ∧
        (CompareMicroversions "gte" (String.mk (a1 ++ '.' :: a2))
            (String.mk (b1 ++ '.' :: b2))).1 = true) ↔
        (decimalValue a1 = decimalValue b1 ∧ decimalValue a2 = decimalValue b2))) := by
  have hne : ¬ ("gte" = "lte") := by decide
  have key : ∀ (a b : String) (va vb : Int × Int),
      microversionToInt a = .ok va → microversionToInt b = .ok vb →
      (CompareMicroversions "lte" a b).2 = none ∧
      (CompareMicroversions "gte" a b).2 = none ∧
      ((CompareMicroversions "lte" a b).1 = true ∨
        (CompareMicroversions "gte" a b).1 = true) ∧
      (((CompareMicroversions "lte" a b).1 = true ∧
        (CompareMicroversions "gte" a b).1 = true) ↔ va = vb) := by
    intro a b va vb ha hb
    rw [compare_parsed "lte" a b va vb (Or.inl rfl) ha hb,
      compare_parsed "gte" a b va vb (Or.inr rfl) ha hb]
    simp only [if_true, hne, if_false]
    obtain ⟨a0, a1⟩ := va
    obtain ⟨b0, b1⟩ := vb
    simp only [Prod.mk.injEq]
    by_cases h1 : a0 < b0
    · have h2 : ¬ a0 > b0 := by omega
      have h3 : ¬ a0 ≥ b0 := by omega
      simp only [h1, h2, h3, if_true, if_false, decide_False, Bool.false_and,
        Bool.false_eq_true, and_false, or_false, true_and, and_self, false_iff, not_and]
      intro h4
      omega
    · by_cases h2 : a0 > b0
      · have h3 : ¬ a0 ≤ b0 := by omega
        simp only [h1, h2, h3, if_true, if_false, decide_False, Bool.false_and,
          Bool.false_eq_true, false_and, or_true, and_true, and_self, false_iff, not_and,
          true_and]
        intro h4
        omega
      · have h3 : a0 = b0 := by omega
        subst h3
        simp only [lt_self_iff_false, gt_iff_lt, if_false, le_refl, decide_True, Bool.true_and,
          decide_eq_true_eq, ge_iff_le, and_self, true_and]
        refine ⟨by omega, ?_⟩
        constructor
        · rintro ⟨h4, h5⟩; omega
        · intro h4; subst h4; exact ⟨le_refl _, le_refl _⟩
  refine ⟨compare_dual, key, ?_⟩
  intro a1 a2 b1 b2 ha1 ha2 hb1 hb2
  have hpa := microversionToInt_dotted a1 a2 ha1.1 ha1.2.1 ha2.1 ha2.2.1
  have hpb := microversionToInt_dotted b1 b2 hb1.1 hb1.2.1 hb2.1 hb2.2.1
  rw [atoi_of_fits a1 ha1.2.2, atoi_of_fits a2 ha2.2.2] at hpa
  rw [atoi_of_fits b1 hb1.2.2, atoi_of_fits b2 hb2.2.2] at hpb
  rw [(key _ _ _ _ hpa hpb).2.2.2]
  simp only [Prod.mk.injEq, Nat.cast_inj]

theorem compareMicroversions_total_order_witness :
    (CompareMicroversions "lte" "2.7" "2.50").2 = none ∧
    (CompareMicroversions "gte" "2.7" "2.50").2 = none ∧
    ((CompareMicroversions "lte" "2.7" "2.50").1 = true ∨
      (CompareMicroversions "gte" "2.7" "2.50").1 = true) ∧
    (((CompareMicroversions "lte" "2.7" "2.50").1 = true ∧
      (CompareMicroversions "gte" "2.7" "2.50").1 = true) ↔ ((2, 7) : Int × Int) = (2, 50)) :=
  compareMicroversions_total_order.2.1 "2.7" "2.50" (2, 7) (2, 50) (by decide) (by decide)

end Velero
